import Mathlib

/-!
# Tower serial firmware: byte queue, UART glue, packet framer, flash and dispatcher

A shallow embedding of `FIFO.c`, `UART.c`, `packet.c`, `Flash.c`, and of the command
handlers of `cmd.c` with `RTC_Set`, `RTC_Get` of `RTC.c` and `PacketHandle`,
`LPTimer_ISR` of `main.c`.

* Bytes (`uint8_t`) are natural numbers; where the C code converts an `int`
  expression back to `uint8_t` the model reduces modulo `256`. Pointers and
  `size_t` are 32 bits wide, with explicit reduction modulo `2 ^ 32`.
* `FIFO.h` is not part of the sources, so the capacity `FIFO_SIZE` is a
  parameter of every queue operation, and the index fields `Start`, `End`,
  `NbBytes` are naturals (their C type is taken to be wide enough to hold
  `FIFO_SIZE`).
* `Flash.h` is not part of the sources either: `FLASH_DATA_START` and
  `FLASH_DATA_SIZE` are parameters.
* `EnterCritical()` / `ExitCritical()` in the queue operations mask interrupts
  and do not change the sequential result; they are left out of the queue
  functions and appear in the logged variants `FIFO_Put_cs`, `FIFO_Get_cs`.
* Module-level C variables become fields of explicit state records that are
  passed in and returned.
* `PacketTest` in `packet.c` has no `return` statement. The value `Packet_Get`
  branches on is therefore a parameter `returned` of the framer functions, and
  every statement about the framer says which values of it it covers.
-/

namespace Tower

/-! ## FIFO.c -/

/-- The record `TFIFO`: indices of the oldest byte and of the next free slot, the
number of stored bytes, and the storage array (indexed by position). -/
structure TFIFO where
  Start : Nat
  End : Nat
  NbBytes : Nat
  Buffer : Nat → Nat

/-- `FIFO_Init`: resets the three index fields, the storage is left as it is.
(The C function is declared `bool` but its callers ignore the result.) -/
def FIFO_Init (fifo : TFIFO) : TFIFO :=
  { fifo with Start := 0, End := 0, NbBytes := 0 }

/-- `FIFO_Put`: refuses when `NbBytes >= FIFO_SIZE`; otherwise stores `data` at
`Buffer[End]`, increments `NbBytes` and `End`, and wraps `End` to `0` when it has
reached `FIFO_SIZE`. -/
def FIFO_Put (FIFO_SIZE : Nat) (fifo : TFIFO) (data : Nat) : TFIFO × Bool :=
  if fifo.NbBytes ≥ FIFO_SIZE then
    (fifo, false)
  else
    let f1 : TFIFO := { fifo with Buffer := Function.update fifo.Buffer fifo.End data }
    let f2 : TFIFO := { f1 with NbBytes := f1.NbBytes + 1 }
    let f3 : TFIFO := { f2 with End := f2.End + 1 }
    let f4 : TFIFO := if f3.End ≥ FIFO_SIZE then { f3 with End := 0 } else f3
    (f4, true)

/-- `FIFO_Get`: refuses when `NbBytes == 0` (nothing is written through `dataPtr`,
modelled by `none`); otherwise yields `Buffer[Start]`, increments `Start`,
decrements `NbBytes`, and wraps `Start` to `0` when it has reached `FIFO_SIZE`. -/
def FIFO_Get (FIFO_SIZE : Nat) (fifo : TFIFO) : TFIFO × Option Nat :=
  if fifo.NbBytes = 0 then
    (fifo, none)
  else
    let data := fifo.Buffer fifo.Start
    let f1 : TFIFO := { fifo with Start := fifo.Start + 1 }
    let f2 : TFIFO := { f1 with NbBytes := f1.NbBytes - 1 }
    let f3 : TFIFO := if f2.Start ≥ FIFO_SIZE then { f2 with Start := 0 } else f2
    (f3, some data)

/-- One call on a queue, as issued by a client. -/
inductive FIFOCall where
  | put (data : Nat)
  | get
  deriving DecidableEq, Repr

/-- The queue after one client call (the result of the call is dropped). -/
def FIFO_call (FIFO_SIZE : Nat) (fifo : TFIFO) : FIFOCall → TFIFO
  | .put data => (FIFO_Put FIFO_SIZE fifo data).1
  | .get => (FIFO_Get FIFO_SIZE fifo).1

/-- The queue after a sequence of client calls, first call first. -/
def FIFO_calls (FIFO_SIZE : Nat) (fifo : TFIFO) (calls : List FIFOCall) : TFIFO :=
  calls.foldl (FIFO_call FIFO_SIZE) fifo

/-- Successive `FIFO_Put` of the given bytes: final queue and the result of each call. -/
def FIFO_PutAll (FIFO_SIZE : Nat) (fifo : TFIFO) : List Nat → TFIFO × List Bool
  | [] => (fifo, [])
  | b :: bs =>
    let r := FIFO_Put FIFO_SIZE fifo b
    let rest := FIFO_PutAll FIFO_SIZE r.1 bs
    (rest.1, r.2 :: rest.2)

/-- The given number of successive `FIFO_Get` calls: final queue and what each call
delivered (`none` for a call that failed). -/
def FIFO_GetN (FIFO_SIZE : Nat) (fifo : TFIFO) : Nat → TFIFO × List (Option Nat)
  | 0 => (fifo, [])
  | k + 1 =>
    let r := FIFO_Get FIFO_SIZE fifo
    let rest := FIFO_GetN FIFO_SIZE r.1 k
    (rest.1, r.2 :: rest.2)

/-- The bounds part of the queue invariant: `NbBytes <= FIFO_SIZE` and both indices
inside the array. -/
def FIFO_Inv (FIFO_SIZE : Nat) (fifo : TFIFO) : Prop :=
  fifo.NbBytes ≤ FIFO_SIZE ∧ fifo.Start < FIFO_SIZE ∧ fifo.End < FIFO_SIZE

/-- A consistent queue: the bounds hold and `End` is `NbBytes` slots past `Start`,
wrapping around. -/
def FIFO_WF (FIFO_SIZE : Nat) (fifo : TFIFO) : Prop :=
  FIFO_Inv FIFO_SIZE fifo ∧ fifo.End = (fifo.Start + fifo.NbBytes) % FIFO_SIZE

instance (n : Nat) (f : TFIFO) : Decidable (FIFO_Inv n f) := by
  unfold FIFO_Inv; infer_instance

instance (n : Nat) (f : TFIFO) : Decidable (FIFO_WF n f) := by
  unfold FIFO_WF; infer_instance

/-- The queued bytes, oldest first: the `NbBytes` array cells from `Start` on,
wrapping around. -/
def FIFO_contents (FIFO_SIZE : Nat) (fifo : TFIFO) : List Nat :=
  (List.range fifo.NbBytes).map (fun i => fifo.Buffer ((fifo.Start + i) % FIFO_SIZE))

/-! ## UART.c -/

/-- The module state of `UART.c` that the queue traffic depends on: the two static
queues and the transmit-interrupt-enable bit (`TIE`) of the control register
`UART2_C2`. -/
structure UARTState where
  RxFIFO : TFIFO
  TxFIFO : TFIFO
  C2_TIE : Bool

/-- `UART_InChar`: `FIFO_Get` on the receive queue. -/
def UART_InChar (FIFO_SIZE : Nat) (u : UARTState) : UARTState × Option Nat :=
  let r := FIFO_Get FIFO_SIZE u.RxFIFO
  ({ u with RxFIFO := r.1 }, r.2)

/-- `UART_OutChar`: `FIFO_Put` on the transmit queue; on success the `TIE` bit is set
(`UART2_C2 |= UART_C2_TIE_MASK`) and the result is `1`, otherwise `0`. -/
def UART_OutChar (FIFO_SIZE : Nat) (u : UARTState) (data : Nat) : UARTState × Bool :=
  let r := FIFO_Put FIFO_SIZE u.TxFIFO data
  if r.2 then
    ({ u with TxFIFO := r.1, C2_TIE := true }, true)
  else
    ({ u with TxFIFO := r.1 }, false)

/-! ## packet.c -/

/-- The module variables of `packet.c`: the cursor `Position` and the five bytes of
the global `Packet`. -/
structure PacketVars where
  Position : Nat
  Packet_Command : Nat
  Packet_Parameter1 : Nat
  Packet_Parameter2 : Nat
  Packet_Parameter3 : Nat
  Packet_Checksum : Nat
  deriving DecidableEq, Repr

/-- The local `ret_val` of `PacketTest`: XOR of the four data bytes, converted to
`uint8_t`, compared with `Packet_Checksum`; `1` when they are equal, `0` otherwise. -/
def PacketTest_ret_val (p : PacketVars) : Nat :=
  let calc_checksum :=
    (p.Packet_Command ^^^ p.Packet_Parameter1 ^^^ p.Packet_Parameter2 ^^^ p.Packet_Parameter3) % 256
  let ret_val := if calc_checksum = p.Packet_Checksum then 1 else 0
  ret_val

set_option linter.unusedVariables false in
/-- `PacketTest`: computes the locals `calc_checksum` and `ret_val` and then reaches
the closing brace: the C function has no `return` statement, so the value its
caller receives is not defined by the source. In the model that value is not `ret_val`:
it is given by the parameter `returned`, which may depend in any way on the packet
variables at the call (`fun _ => 0` for a build whose caller always receives zero,
`PacketTest_ret_val` for a build whose caller happens to receive `ret_val`). -/
def PacketTest (returned : PacketVars → Nat) (p : PacketVars) : Nat :=
  let calc_checksum :=
    (p.Packet_Command ^^^ p.Packet_Parameter1 ^^^ p.Packet_Parameter2 ^^^ p.Packet_Parameter3) % 256
  let ret_val := if calc_checksum = p.Packet_Checksum then 1 else 0
  returned p

/-- The `switch (Position)` statement of `Packet_Get`, run on the byte `uartData`
that was taken from the receive queue. Case 4 branches on the value received from
`PacketTest`. -/
def Packet_Get_switch (returned : PacketVars → Nat) (uartData : Nat) (p : PacketVars) :
    PacketVars × Bool :=
  if p.Position = 0 then
    let p1 := { p with Packet_Command := uartData }
    ({ p1 with Position := (p1.Position + 1) % 256 }, false)
  else if p.Position = 1 then
    let p1 := { p with Packet_Parameter1 := uartData }
    ({ p1 with Position := (p1.Position + 1) % 256 }, false)
  else if p.Position = 2 then
    let p1 := { p with Packet_Parameter2 := uartData }
    ({ p1 with Position := (p1.Position + 1) % 256 }, false)
  else if p.Position = 3 then
    let p1 := { p with Packet_Parameter3 := uartData }
    ({ p1 with Position := (p1.Position + 1) % 256 }, false)
  else if p.Position = 4 then
    let p1 := { p with Packet_Checksum := uartData }
    if PacketTest returned p1 ≠ 0 then
      ({ p1 with Position := 0 }, true)
    else
      let p2 := { p1 with Packet_Command := p1.Packet_Parameter1 }
      let p3 := { p2 with Packet_Parameter1 := p2.Packet_Parameter2 }
      let p4 := { p3 with Packet_Parameter2 := p3.Packet_Parameter3 }
      let p5 := { p4 with Packet_Parameter3 := p4.Packet_Checksum }
      (p5, false)
  else
    ({ p with Position := 0 }, false)

/-- The state `Packet_Get` and `Packet_Put` work on: the UART module and the packet
module. -/
structure TowerState where
  UART : UARTState
  Pkt : PacketVars

/-- `Packet_Get`: returns `0` when `UART_InChar` delivers nothing, otherwise runs the
`switch` on the delivered byte. -/
def Packet_Get (returned : PacketVars → Nat) (FIFO_SIZE : Nat) (s : TowerState) :
    TowerState × Bool :=
  match UART_InChar FIFO_SIZE s.UART with
  | (u, none) => ({ s with UART := u }, false)
  | (u, some uartData) =>
    let r := Packet_Get_switch returned uartData s.Pkt
    ({ UART := u, Pkt := r.1 }, r.2)

/-- `Packet_Put`: `UART_OutChar` of the command, the three parameters and their XOR
(converted to `uint8_t`), returning `0` at the first byte that is refused. -/
def Packet_Put (FIFO_SIZE : Nat) (command parameter1 parameter2 parameter3 : Nat)
    (u : UARTState) : UARTState × Bool :=
  let r1 := UART_OutChar FIFO_SIZE u command
  if !r1.2 then (r1.1, false) else
  let r2 := UART_OutChar FIFO_SIZE r1.1 parameter1
  if !r2.2 then (r2.1, false) else
  let r3 := UART_OutChar FIFO_SIZE r2.1 parameter2
  if !r3.2 then (r3.1, false) else
  let r4 := UART_OutChar FIFO_SIZE r3.1 parameter3
  if !r4.2 then (r4.1, false) else
  let r5 := UART_OutChar FIFO_SIZE r4.1
    ((command ^^^ parameter1 ^^^ parameter2 ^^^ parameter3) % 256)
  if !r5.2 then (r5.1, false) else
  (r5.1, true)

/-- The given number of successive `Packet_Get` calls: final state and the result of
each call. -/
def Packet_GetN (returned : PacketVars → Nat) (FIFO_SIZE : Nat) (s : TowerState) :
    Nat → TowerState × List Bool
  | 0 => (s, [])
  | k + 1 =>
    let r := Packet_Get returned FIFO_SIZE s
    let rest := Packet_GetN returned FIFO_SIZE r.1 k
    (rest.1, r.2 :: rest.2)

/-- Whether a `Packet_Get` call in state `s` performs a resynchronisation shift: a
byte is available, the cursor is at the checksum slot, and the call returns `0`. -/
def Packet_shifted (returned : PacketVars → Nat) (FIFO_SIZE : Nat) (s : TowerState) : Bool :=
  decide (s.Pkt.Position = 4) && (UART_InChar FIFO_SIZE s.UART).2.isSome &&
    !(Packet_Get returned FIFO_SIZE s).2

/-- Number of resynchronisation shifts performed by the given number of successive
`Packet_Get` calls. -/
def Packet_shifts (returned : PacketVars → Nat) (FIFO_SIZE : Nat) (s : TowerState) : Nat → Nat
  | 0 => 0
  | k + 1 =>
    (if Packet_shifted returned FIFO_SIZE s then 1 else 0) +
      Packet_shifts returned FIFO_SIZE (Packet_Get returned FIFO_SIZE s).1 k

/-- The five bytes of the wire frame for a packet: the bytes `Packet_Put` hands to
`UART_OutChar`, in order. -/
def Packet_frame (command parameter1 parameter2 parameter3 : Nat) : List Nat :=
  [command, parameter1, parameter2, parameter3,
    (command ^^^ parameter1 ^^^ parameter2 ^^^ parameter3) % 256]

/-- The switch of `Packet_Get` run over a list of bytes, one byte per call: final
packet variables and the result of each call. -/
def Packet_feed (returned : PacketVars → Nat) (p : PacketVars) :
    List Nat → PacketVars × List Bool
  | [] => (p, [])
  | b :: bs =>
    let r := Packet_Get_switch returned b p
    let rest := Packet_feed returned r.1 bs
    (rest.1, r.2 :: rest.2)

/-- The four data bytes of the packet window, oldest first. -/
def Packet_window (p : PacketVars) : List Nat :=
  [p.Packet_Command, p.Packet_Parameter1, p.Packet_Parameter2, p.Packet_Parameter3]

/-- A list of bytes: every entry is below `256`. -/
def IsBytes (l : List Nat) : Prop := ∀ b ∈ l, b < 256

instance (l : List Nat) : Decidable (IsBytes l) := by
  unfold IsBytes; infer_instance

/-- Two byte strings of equal length that differ in exactly one position. -/
def OneByteCorrupted (good bad : List Nat) : Prop :=
  good.length = bad.length ∧ ((good.zip bad).filter (fun q => decide (q.1 ≠ q.2))).length = 1

instance (a b : List Nat) : Decidable (OneByteCorrupted a b) := by
  unfold OneByteCorrupted; infer_instance

/-- A small concrete queue for evaluation: empty, all cells zero. -/
def FIFO_zero : TFIFO := { Start := 0, End := 0, NbBytes := 0, Buffer := fun _ => 0 }

/-- A concrete queue holding the given bytes, built by `FIFO_Init` and `FIFO_Put`. -/
def FIFO_of (FIFO_SIZE : Nat) (bs : List Nat) : TFIFO :=
  (FIFO_PutAll FIFO_SIZE (FIFO_Init FIFO_zero) bs).1

/-- A concrete tower state for evaluation: the receive queue holds `rx`, the transmit
queue holds `tx`, the framer is at `Position` 0 with all packet bytes zero. -/
def Tower_of (FIFO_SIZE : Nat) (rx tx : List Nat) : TowerState :=
  { UART := { RxFIFO := FIFO_of FIFO_SIZE rx, TxFIFO := FIFO_of FIFO_SIZE tx, C2_TIE := false },
    Pkt := { Position := 0, Packet_Command := 0, Packet_Parameter1 := 0,
             Packet_Parameter2 := 0, Packet_Parameter3 := 0, Packet_Checksum := 0 } }

/-- Number of resynchronisation shifts when the switch of `Packet_Get` is run over a
list of bytes: the calls made at `Position` 4 that return `0`. -/
def Packet_feed_shifts (returned : PacketVars → Nat) (p : PacketVars) : List Nat → Nat
  | [] => 0
  | b :: bs =>
    (if p.Position = 4 ∧ (Packet_Get_switch returned b p).2 = false then 1 else 0) +
      Packet_feed_shifts returned (Packet_Get_switch returned b p).1 bs

/-- `UART_OutChar` of a list of bytes in order, stopping with `0` at the first byte
that is refused: the control flow of `Packet_Put`. -/
def UART_OutChars (FIFO_SIZE : Nat) (u : UARTState) : List Nat → UARTState × Bool
  | [] => (u, true)
  | b :: bs =>
    let r := UART_OutChar FIFO_SIZE u b
    if !r.2 then (r.1, false) else UART_OutChars FIFO_SIZE r.1 bs

/-! ## Flash.c: allocation -/

/-- The inner loop of `Flash_AllocateVar`, `for (j = location; j <= i; j++)
AllocationMap[j] = FLASH_ALLOCATED`, with `count = i + 1 - j` iterations left. -/
def Flash_AllocateVar_mark (map : Nat → Nat) : Nat → Nat → Nat → Nat
  | 0, _ => map
  | count + 1, j => Flash_AllocateVar_mark (Function.update map j 1) count (j + 1)

/-- The outer loop of `Flash_AllocateVar`, `for (i = 0; i < FLASH_DATA_SIZE; i++)`, with
`left = FLASH_DATA_SIZE - i` iterations left and the locals `sequential` and
`location`. The result is the allocation map and, when the function returns 1, the
`location` it found. -/
def Flash_AllocateVar_loop (size : Nat) (map : Nat → Nat) :
    Nat → Nat → Nat → Nat → (Nat → Nat) × Option Nat
  | 0, _, _, _ => (map, none)
  | left + 1, i, sequential, location =>
    let sequential1 := if map i = 0 then sequential + 1 else 0
    let location1 := if i % size = 0 then i else location
    if sequential1 ≥ size ∧ (i + 1) % size = 0 then
      (Flash_AllocateVar_mark map (i + 1 - location1) location1, some location1)
    else
      Flash_AllocateVar_loop size map left (i + 1) sequential1 location1

/-- `Flash_AllocateVar` on the allocation map: the new map and, on success, the pointer
stored through `variable` (`FLASH_DATA_START + location` as a 32-bit address); `none`
when the function returns 0 without writing through `variable`. -/
def Flash_AllocateVar (FLASH_DATA_START FLASH_DATA_SIZE : Nat) (size : Nat)
    (map : Nat → Nat) : (Nat → Nat) × Option Nat :=
  let r := Flash_AllocateVar_loop size map FLASH_DATA_SIZE 0 0 0
  (r.1, r.2.map (fun location => (FLASH_DATA_START + location) % 2 ^ 32))

/-- Successive `Flash_AllocateVar` calls with the given sizes: the final map and, for
every call that succeeded, the pointer it delivered paired with its size. -/
def Flash_AllocateVars (FLASH_DATA_START FLASH_DATA_SIZE : Nat) (map : Nat → Nat) :
    List Nat → (Nat → Nat) × List (Nat × Nat)
  | [] => (map, [])
  | size :: sizes =>
    match Flash_AllocateVar FLASH_DATA_START FLASH_DATA_SIZE size map with
    | (map1, some p) =>
      let r := Flash_AllocateVars FLASH_DATA_START FLASH_DATA_SIZE map1 sizes
      (r.1, (p, size) :: r.2)
    | (map1, none) => Flash_AllocateVars FLASH_DATA_START FLASH_DATA_SIZE map1 sizes

/-- An aligned free run: offset `o` is a multiple of `size`, the `size` bytes from `o`
lie inside the block and are all marked free (`0`) in the map. -/
def Flash_FreeAt (FLASH_DATA_SIZE size : Nat) (map : Nat → Nat) (o : Nat) : Prop :=
  o % size = 0 ∧ o + size ≤ FLASH_DATA_SIZE ∧ ∀ k, o ≤ k → k < o + size → map k = 0

/-- Number of consecutive free bytes directly below index `i`. -/
def Flash_freeRun (map : Nat → Nat) : Nat → Nat
  | 0 => 0
  | i + 1 => if map i = 0 then Flash_freeRun map i + 1 else 0

/-- The all-free allocation map (`AllocationMap` as initialised). -/
def Flash_emptyMap : Nat → Nat := fun _ => 0

/-! ## Flash.c: erase and program

The flash controller is hardware. The state below holds the registers the code
touches and the bytes of the flash sector that starts at `FLASH_DATA_START`, by
offset. `Status` is what the controller will report: `Status k` are the error flags
it raises for the `k`-th command launched, `Commands` counts the commands launched so
far. A `uint64_t` object is represented by its eight bytes in memory order (the
target is little-endian). -/

/-- `FTFE_FSTAT_CCIF_MASK` of the device header. -/
def FTFE_FSTAT_CCIF_MASK : Nat := 0x80

/-- `FTFE_FSTAT_RDCOLERR_MASK` of the device header. -/
def FTFE_FSTAT_RDCOLERR_MASK : Nat := 0x40

/-- `FTFE_FSTAT_ACCERR_MASK` of the device header. -/
def FTFE_FSTAT_ACCERR_MASK : Nat := 0x20

/-- `FTFE_FSTAT_FPVIOL_MASK` of the device header. -/
def FTFE_FSTAT_FPVIOL_MASK : Nat := 0x10

/-- `FTFE_FSTAT_MGSTAT0_MASK` of the device header. -/
def FTFE_FSTAT_MGSTAT0_MASK : Nat := 0x01

/-- All error flags of `FTFE_FSTAT`. -/
def FTFE_FSTAT_ERROR_MASKS : Nat :=
  FTFE_FSTAT_RDCOLERR_MASK ||| FTFE_FSTAT_ACCERR_MASK ||| FTFE_FSTAT_FPVIOL_MASK |||
    FTFE_FSTAT_MGSTAT0_MASK

/-- `FLASH_CMD_ERSSCR`, erase sector. -/
def FLASH_CMD_ERSSCR : Nat := 0x09

/-- `FLASH_CMD_PGM8`, program phrase. -/
def FLASH_CMD_PGM8 : Nat := 0x07

/-- The state of `Flash.c` and of the flash controller. -/
structure FlashState where
  AllocationMap : Nat → Nat
  Block : Nat → Nat
  FCCOB : Nat → Nat
  FSTAT : Nat
  Status : Nat → Nat
  Commands : Nat

/-- Device model: the eight bytes a program-phrase command stores, taken from the
data registers. `FCCOB7..FCCOB4` go to offsets 0..3 and `FCCOBB..FCCOB8` to offsets
4..7 of the phrase; bytes outside the phrase are not touched. -/
def FTFE_program (s : FlashState) : Nat → Nat :=
  fun k => if k < 4 then s.FCCOB (7 - k) else if k < 8 then s.FCCOB (15 - k) else s.Block k

/-- Device model: the controller runs the command held in `FCCOB0` and reports
completion. When it raises no error flag, an erase-sector command blanks the sector
(every byte `0xFF`) and a program-phrase command stores the eight bytes handed to it;
when it raises an error flag the flash is left as it was. Afterwards `FSTAT` holds
`CCIF` together with the flags raised. -/
def FTFE_run (s : FlashState) : FlashState :=
  let flags := s.Status s.Commands &&& FTFE_FSTAT_ERROR_MASKS
  let block :=
    if flags ≠ 0 then s.Block
    else if s.FCCOB 0 = FLASH_CMD_ERSSCR then fun _ => 0xFF
    else if s.FCCOB 0 = FLASH_CMD_PGM8 then FTFE_program s
    else s.Block
  { s with Block := block, FSTAT := FTFE_FSTAT_CCIF_MASK ||| flags,
           Commands := s.Commands + 1 }

/-- `WaitCCIF`: spins until `CCIF` is set. The modelled controller completes every
command before control returns, so the wait changes nothing. -/
def WaitCCIF (s : FlashState) : FlashState := s

/-- `SetCCIF`: writing `CCIF` launches the command, then `WaitCCIF`. -/
def SetCCIF (s : FlashState) : FlashState :=
  WaitCCIF (FTFE_run s)

set_option linter.unusedVariables false in
/-- `HandleRegisters`: reads `FTFE_FSTAT`, decodes the five flags into locals, and
returns 1. -/
def HandleRegisters (s : FlashState) : Bool :=
  let fstat_buffer := s.FSTAT
  let CCIFset := decide (fstat_buffer &&& FTFE_FSTAT_CCIF_MASK = FTFE_FSTAT_CCIF_MASK)
  let RDCOLERRset :=
    decide (fstat_buffer &&& FTFE_FSTAT_RDCOLERR_MASK = FTFE_FSTAT_RDCOLERR_MASK)
  let ACCERRset := decide (fstat_buffer &&& FTFE_FSTAT_ACCERR_MASK = FTFE_FSTAT_ACCERR_MASK)
  let FPVIOLset := decide (fstat_buffer &&& FTFE_FSTAT_FPVIOL_MASK = FTFE_FSTAT_FPVIOL_MASK)
  let MGSTAT0set :=
    decide (fstat_buffer &&& FTFE_FSTAT_MGSTAT0_MASK = FTFE_FSTAT_MGSTAT0_MASK)
  true

/-- `EraseSector`: loads the erase-sector command and the address bytes of
`FLASH_DATA_START` (bits 23..16, 15..8, and 7..0 masked with `0xF0`) into
`FCCOB0..FCCOB3`, launches it, returns 1. -/
def EraseSector (FLASH_DATA_START : Nat) (s : FlashState) : FlashState × Bool :=
  let s0 := { s with FCCOB := Function.update s.FCCOB 0 FLASH_CMD_ERSSCR }
  let s1 := { s0 with FCCOB := Function.update s0.FCCOB 1 (FLASH_DATA_START / 65536 % 256) }
  let s2 := { s1 with FCCOB := Function.update s1.FCCOB 2 (FLASH_DATA_START / 256 % 256) }
  let s3 := { s2 with FCCOB := Function.update s2.FCCOB 3 (FLASH_DATA_START % 256 &&& 0xF0) }
  (SetCCIF s3, true)

/-- `Flash_Erase`: `WaitCCIF`, `EraseSector`, then the result of `HandleRegisters`. The
allocation map is not cleared (the `memset` is commented out in the source). -/
def Flash_Erase (FLASH_DATA_START : Nat) (s : FlashState) : FlashState × Bool :=
  let s1 := WaitCCIF s
  let r := EraseSector FLASH_DATA_START s1
  (r.1, HandleRegisters r.1)

/-- `WritePhrase`: `Flash_Erase`, then the program-phrase command with the address bytes
in `FCCOB1..FCCOB3` and the phrase bytes `data[3], data[2], data[1], data[0], data[7],
data[6], data[5], data[4]` in `FCCOB4..FCCOBB`; the result is that of
`HandleRegisters`. -/
def WritePhrase (FLASH_DATA_START : Nat) (phrase : Nat → Nat) (s : FlashState) :
    FlashState × Bool :=
  let s1 := WaitCCIF s
  let r := Flash_Erase FLASH_DATA_START s1
  if r.2 ≠ true then (r.1, false) else
  let data := phrase
  let f0 := Function.update r.1.FCCOB 0 FLASH_CMD_PGM8
  let f1 := Function.update f0 1 (FLASH_DATA_START / 65536 % 256)
  let f2 := Function.update f1 2 (FLASH_DATA_START / 256 % 256)
  let f3 := Function.update f2 3 (FLASH_DATA_START % 256 &&& 0xF8)
  let f4 := Function.update f3 4 (data 3)
  let f5 := Function.update f4 5 (data 2)
  let f6 := Function.update f5 6 (data 1)
  let f7 := Function.update f6 7 (data 0)
  let f8 := Function.update f7 8 (data 7)
  let f9 := Function.update f8 9 (data 6)
  let fA := Function.update f9 10 (data 5)
  let fB := Function.update fA 11 (data 4)
  let s2 := SetCCIF { r.1 with FCCOB := fB }
  (s2, HandleRegisters s2)

/-- `ReadPhrase`: `WaitCCIF`, then the 64-bit read `_FP(FLASH_DATA_START)`: the eight
bytes of the phrase. -/
def ReadPhrase (s : FlashState) : Nat → Nat :=
  let s1 := WaitCCIF s
  fun k => s1.Block k

/-- The index computed by the write functions: `(size_t) address - FLASH_DATA_START`
in 32-bit unsigned arithmetic. -/
def Flash_index (FLASH_DATA_START address : Nat) : Nat :=
  (address + 2 ^ 32 - FLASH_DATA_START) % 2 ^ 32

/-- `Flash_Write32`: range check, alignment check, then the phrase is read, the four
bytes of word `index / 4` are replaced by `data` (little-endian) and the phrase is
written back; the result of `WritePhrase` is dropped and 1 is returned. -/
def Flash_Write32 (FLASH_DATA_START FLASH_DATA_SIZE : Nat) (address data : Nat)
    (s : FlashState) : FlashState × Bool :=
  let index := Flash_index FLASH_DATA_START address
  if index ≥ FLASH_DATA_SIZE then (s, false)
  else if index % 4 ≠ 0 then (s, false)
  else
    let index := index / 4
    let tempPhrase := ReadPhrase s
    let t0 := Function.update tempPhrase (4 * index) (data % 256)
    let t1 := Function.update t0 (4 * index + 1) (data / 256 % 256)
    let t2 := Function.update t1 (4 * index + 2) (data / 65536 % 256)
    let t3 := Function.update t2 (4 * index + 3) (data / 16777216 % 256)
    let r := WritePhrase FLASH_DATA_START t3 s
    (r.1, true)

/-- `Flash_Write16`: as `Flash_Write32` with half-words: the two bytes of half-word
`index / 2` are replaced by `data` (little-endian). -/
def Flash_Write16 (FLASH_DATA_START FLASH_DATA_SIZE : Nat) (address data : Nat)
    (s : FlashState) : FlashState × Bool :=
  let index := Flash_index FLASH_DATA_START address
  if index ≥ FLASH_DATA_SIZE then (s, false)
  else if index % 2 ≠ 0 then (s, false)
  else
    let index := index / 2
    let tempPhrase := ReadPhrase s
    let t0 := Function.update tempPhrase (2 * index) (data % 256)
    let t1 := Function.update t0 (2 * index + 1) (data / 256 % 256)
    let r := WritePhrase FLASH_DATA_START t1 s
    (r.1, true)

/-- `Flash_Write8`: range check, then byte `index` of the phrase is replaced by `data`
and the phrase is written back; 1 is returned. -/
def Flash_Write8 (FLASH_DATA_START FLASH_DATA_SIZE : Nat) (address data : Nat)
    (s : FlashState) : FlashState × Bool :=
  let index := Flash_index FLASH_DATA_START address
  if index ≥ FLASH_DATA_SIZE then (s, false)
  else
    let tempPhrase := ReadPhrase s
    let t0 := Function.update tempPhrase index data
    let r := WritePhrase FLASH_DATA_START t0 s
    (r.1, true)

/-- Modelled from the spec: the byte read macro `_FB(address)` of `Flash.h` (the header
is not among the sources), a direct read of the flash byte at that address. -/
def Flash_FB (FLASH_DATA_START : Nat) (s : FlashState) (address : Nat) : Nat :=
  s.Block (Flash_index FLASH_DATA_START address)

/-- Modelled from the spec: the half-word read macro `_FH(address)` of `Flash.h`, the
two bytes at that address as a little-endian 16-bit value. -/
def Flash_FH (FLASH_DATA_START : Nat) (s : FlashState) (address : Nat) : Nat :=
  Flash_FB FLASH_DATA_START s address + 256 * Flash_FB FLASH_DATA_START s (address + 1)

/-- Modelled from the spec: the word read macro `_FW(address)` of `Flash.h`, the four
bytes at that address as a little-endian 32-bit value. -/
def Flash_FW (FLASH_DATA_START : Nat) (s : FlashState) (address : Nat) : Nat :=
  Flash_FB FLASH_DATA_START s address + 256 * Flash_FB FLASH_DATA_START s (address + 1) +
    65536 * Flash_FB FLASH_DATA_START s (address + 2) +
    16777216 * Flash_FB FLASH_DATA_START s (address + 3)

/-- A concrete flash state for evaluation: nothing allocated, a blank sector, and a
controller that reports the given flags for every command. -/
def Flash_blank (flags : Nat) : FlashState :=
  { AllocationMap := Flash_emptyMap, Block := fun _ => 0xFF, FCCOB := fun _ => 0,
    FSTAT := FTFE_FSTAT_CCIF_MASK, Status := fun _ => flags, Commands := 0 }

/-! ## UART.c: interrupt service routine -/

/-- `UART_ISR`. The inputs are the two flags of the status register `UART2_S1` and the
byte a read of the data register `UART2_D` delivers; the second component of the
result is the byte written to `UART2_D` for transmission, if any. On `TDRE` a byte is
taken from the transmit queue into `UART2_D`, or the `TIE` bit of `UART2_C2` is cleared
when `FIFO_Get` fails; on `RDRF` the received byte is put into the receive queue. -/
def UART_ISR (FIFO_SIZE : Nat) (S1_TDRE S1_RDRF : Bool) (UART2_D : Nat) (u : UARTState) :
    UARTState × Option Nat :=
  let r1 : UARTState × Option Nat :=
    if S1_TDRE then
      let g := FIFO_Get FIFO_SIZE u.TxFIFO
      match g.2 with
      | none => ({ u with TxFIFO := g.1, C2_TIE := false }, none)
      | some b => ({ u with TxFIFO := g.1 }, some b)
    else (u, none)
  let u2 : UARTState :=
    if S1_RDRF then
      { r1.1 with RxFIFO := (FIFO_Put FIFO_SIZE r1.1.RxFIFO UART2_D).1 }
    else r1.1
  (u2, r1.2)

/-! ## RTC.c, cmd.c and `PacketHandle` of main.c -/

/-- `CMD_TX_TOWER_STARTUP` of cmd.h. -/
def CMD_TX_TOWER_STARTUP : Nat := 0x04
/-- `CMD_TX_READ_BYTE` of cmd.h. -/
def CMD_TX_READ_BYTE : Nat := 0x08
/-- `CMD_TX_TOWER_VERSION` of cmd.h. -/
def CMD_TX_TOWER_VERSION : Nat := 0x09
/-- `CMD_TX_PROTOCOL_MODE` of cmd.h. -/
def CMD_TX_PROTOCOL_MODE : Nat := 0x0A
/-- `CMD_TX_TOWER_NUMBER` of cmd.h. -/
def CMD_TX_TOWER_NUMBER : Nat := 0x0B
/-- `CMD_TX_TIME` of cmd.h. -/
def CMD_TX_TIME : Nat := 0x0C
/-- `CMD_TX_TOWER_MODE` of cmd.h. -/
def CMD_TX_TOWER_MODE : Nat := 0x0D
/-- `CMD_RX_STARTUP_VALUES` of cmd.h. -/
def CMD_RX_STARTUP_VALUES : Nat := 0x04
/-- `CMD_RX_PROGRAM_BYTE` of cmd.h. -/
def CMD_RX_PROGRAM_BYTE : Nat := 0x07
/-- `CMD_RX_READ_BYTE` of cmd.h. -/
def CMD_RX_READ_BYTE : Nat := 0x08
/-- `CMD_RX_GET_VERSION` of cmd.h. -/
def CMD_RX_GET_VERSION : Nat := 0x09
/-- `CMD_RX_PROTOCOL_MODE` of cmd.h. -/
def CMD_RX_PROTOCOL_MODE : Nat := 0x0A
/-- `CMD_RX_TOWER_NUMBER` of cmd.h. -/
def CMD_RX_TOWER_NUMBER : Nat := 0x0B
/-- `CMD_RX_SET_TIME` of cmd.h. -/
def CMD_RX_SET_TIME : Nat := 0x0C
/-- `CMD_RX_TOWER_MODE` of cmd.h. -/
def CMD_RX_TOWER_MODE : Nat := 0x0D
/-- `CMD_RX_ANALOG_INPUT` of cmd.h. -/
def CMD_RX_ANALOG_INPUT : Nat := 0x50
/-- `CMD_TOWER_NUMBER_GET` of cmd.h. -/
def CMD_TOWER_NUMBER_GET : Nat := 1
/-- `CMD_TOWER_NUMBER_SET` of cmd.h. -/
def CMD_TOWER_NUMBER_SET : Nat := 2
/-- `CMD_TOWER_MODE_GET` of cmd.h. -/
def CMD_TOWER_MODE_GET : Nat := 1
/-- `TOWER_VERSION_H` of cmd.c. -/
def TOWER_VERSION_H : Nat := 1
/-- `TOWER_VERISON_L` of cmd.c (spelled as in the source). -/
def TOWER_VERISON_L : Nat := 0
/-- `PACKET_ACK_MASK` of main.c. -/
def PACKET_ACK_MASK : Nat := 0x80
/-- The `int` value `~PACKET_ACK_MASK` as a 32-bit pattern. -/
def NOT_PACKET_ACK_MASK : Nat := 0xFFFFFF7F

/-- The state the command layer works on: the UART and packet modules, the flash
module, the two pointers `TowerNumber` and `TowerMode` of cmd.c, and the seconds
register and counter-enable bit of the real-time clock. -/
structure SystemState where
  Tower : TowerState
  Flash : FlashState
  TowerNumber : Nat
  TowerMode : Nat
  RTC_TSR : Nat
  RTC_SR_TCE : Bool

/-- `RTC_Set`: counter disabled, `RTC_TSR` loaded with the seconds value, counter
enabled. -/
def RTC_Set (hours minutes seconds : Nat) (s : SystemState) : SystemState :=
  let timeSeconds := ((hours % 24) * 3600 + (minutes % 60) * 60 + seconds % 60) % 2 ^ 32
  let s1 := { s with RTC_SR_TCE := false }
  let s2 := { s1 with RTC_TSR := timeSeconds }
  { s2 with RTC_SR_TCE := true }

/-- `Packet_Put` as called from the command layer: it acts on the UART module of the
system state. -/
def Sys_Packet_Put (FIFO_SIZE : Nat) (command parameter1 parameter2 parameter3 : Nat)
    (s : SystemState) : SystemState × Bool :=
  let r := Packet_Put FIFO_SIZE command parameter1 parameter2 parameter3 s.Tower.UART
  ({ s with Tower := { s.Tower with UART := r.1 } }, r.2)

/-- `CMD_TowerVersion`. -/
def CMD_TowerVersion (FIFO_SIZE : Nat) (s : SystemState) : SystemState × Bool :=
  Sys_Packet_Put FIFO_SIZE CMD_TX_TOWER_VERSION 0x76 TOWER_VERSION_H TOWER_VERISON_L s

/-- `CMD_GetStartupValues`: the startup packet, the version, the tower number and the
tower mode read through the two pointers, and the protocol mode; stops with 0 at the
first packet that is refused. -/
def CMD_GetStartupValues (FIFO_SIZE FLASH_DATA_START : Nat) (s : SystemState) :
    SystemState × Bool :=
  let r1 := Sys_Packet_Put FIFO_SIZE CMD_TX_TOWER_STARTUP 0 0 0 s
  if !r1.2 then (r1.1, false) else
  let r2 := CMD_TowerVersion FIFO_SIZE r1.1
  if !r2.2 then (r2.1, false) else
  let r3 := Sys_Packet_Put FIFO_SIZE CMD_TX_TOWER_NUMBER 1
    (Flash_FB FLASH_DATA_START r2.1.Flash r2.1.TowerNumber)
    (Flash_FB FLASH_DATA_START r2.1.Flash (r2.1.TowerNumber + 1)) r2.1
  if !r3.2 then (r3.1, false) else
  let r4 := Sys_Packet_Put FIFO_SIZE CMD_TX_TOWER_MODE 1
    (Flash_FB FLASH_DATA_START r3.1.Flash r3.1.TowerMode)
    (Flash_FB FLASH_DATA_START r3.1.Flash (r3.1.TowerMode + 1)) r3.1
  if !r4.2 then (r4.1, false) else
  let r5 := Sys_Packet_Put FIFO_SIZE CMD_TX_PROTOCOL_MODE 1 0 0 r4.1
  if !r5.2 then (r5.1, false) else
  (r5.1, true)

/-- `CMD_FlashProgramByte`: fails for an offset above 8, erases for offset 8, otherwise
`Flash_Write8` at `FLASH_DATA_START + offset`. -/
def CMD_FlashProgramByte (FLASH_DATA_START FLASH_DATA_SIZE : Nat) (offset data : Nat)
    (s : SystemState) : SystemState × Bool :=
  if offset > 8 then (s, false)
  else if offset = 8 then
    let r := Flash_Erase FLASH_DATA_START s.Flash
    ({ s with Flash := r.1 }, r.2)
  else
    let address := (FLASH_DATA_START + offset) % 2 ^ 32
    let r := Flash_Write8 FLASH_DATA_START FLASH_DATA_SIZE address data s.Flash
    ({ s with Flash := r.1 }, r.2)

/-- `CMD_FlashReadByte`: fails for an offset above `FLASH_DATA_SIZE - 1`, otherwise sends
the byte read at `FLASH_DATA_START + offset`. -/
def CMD_FlashReadByte (FIFO_SIZE FLASH_DATA_START FLASH_DATA_SIZE : Nat) (offset : Nat)
    (s : SystemState) : SystemState × Bool :=
  if offset > FLASH_DATA_SIZE - 1 then (s, false)
  else
    let data := Flash_FB FLASH_DATA_START s.Flash (FLASH_DATA_START + offset)
    Sys_Packet_Put FIFO_SIZE CMD_TX_READ_BYTE offset 0 data s

/-- `CMD_TowerNumber`: mode 1 sends the stored number, mode 2 writes `lsb`, `msb` as a
16-bit value through `Flash_Write16`, any other mode fails. -/
def CMD_TowerNumber (FIFO_SIZE FLASH_DATA_START FLASH_DATA_SIZE : Nat) (mode lsb msb : Nat)
    (s : SystemState) : SystemState × Bool :=
  if mode = CMD_TOWER_NUMBER_GET then
    Sys_Packet_Put FIFO_SIZE CMD_TX_TOWER_NUMBER 1
      (Flash_FB FLASH_DATA_START s.Flash s.TowerNumber)
      (Flash_FB FLASH_DATA_START s.Flash (s.TowerNumber + 1)) s
  else if mode = CMD_TOWER_NUMBER_SET then
    let temp := lsb + 256 * msb
    let r := Flash_Write16 FLASH_DATA_START FLASH_DATA_SIZE s.TowerNumber temp s.Flash
    ({ s with Flash := r.1 }, r.2)
  else (s, false)

/-- `CMD_TowerMode`: mode 1 sends the stored mode, mode 2 (`CMD_TOWER_NUMBER_SET` in the
source) writes `lsb`, `msb` through `Flash_Write16`, any other mode fails. -/
def CMD_TowerMode (FIFO_SIZE FLASH_DATA_START FLASH_DATA_SIZE : Nat) (mode lsb msb : Nat)
    (s : SystemState) : SystemState × Bool :=
  if mode = CMD_TOWER_MODE_GET then
    Sys_Packet_Put FIFO_SIZE CMD_TX_TOWER_MODE 1
      (Flash_FB FLASH_DATA_START s.Flash s.TowerMode)
      (Flash_FB FLASH_DATA_START s.Flash (s.TowerMode + 1)) s
  else if mode = CMD_TOWER_NUMBER_SET then
    let temp := lsb + 256 * msb
    let r := Flash_Write16 FLASH_DATA_START FLASH_DATA_SIZE s.TowerMode temp s.Flash
    ({ s with Flash := r.1 }, r.2)
  else (s, false)

/-- `CMD_SetTime`: fails when a field is out of range, otherwise `RTC_Set` and 1. -/
def CMD_SetTime (hours minutes seconds : Nat) (s : SystemState) : SystemState × Bool :=
  if hours > 23 ∨ minutes > 59 ∨ seconds > 59 then (s, false)
  else (RTC_Set hours minutes seconds s, true)

/-- The `switch` of `PacketHandle`: the handler selected by the command byte with the
acknowledgement bit masked off is run; the second component is the local `error`
(initially 1, and the negated handler result when a handler ran). -/
def PacketHandle_switch (FIFO_SIZE FLASH_DATA_START FLASH_DATA_SIZE : Nat)
    (s : SystemState) : SystemState × Bool :=
  let p := s.Tower.Pkt
  let cmd := p.Packet_Command &&& NOT_PACKET_ACK_MASK
  if cmd = CMD_RX_STARTUP_VALUES then
    let r := CMD_GetStartupValues FIFO_SIZE FLASH_DATA_START s
    (r.1, !r.2)
  else if cmd = CMD_RX_PROGRAM_BYTE then
    let r := CMD_FlashProgramByte FLASH_DATA_START FLASH_DATA_SIZE p.Packet_Parameter1
      p.Packet_Parameter3 s
    (r.1, !r.2)
  else if cmd = CMD_RX_READ_BYTE then
    let r := CMD_FlashReadByte FIFO_SIZE FLASH_DATA_START FLASH_DATA_SIZE p.Packet_Parameter1 s
    (r.1, !r.2)
  else if cmd = CMD_RX_GET_VERSION then
    let r := CMD_TowerVersion FIFO_SIZE s
    (r.1, !r.2)
  else if cmd = CMD_RX_TOWER_NUMBER then
    let r := CMD_TowerNumber FIFO_SIZE FLASH_DATA_START FLASH_DATA_SIZE p.Packet_Parameter1
      p.Packet_Parameter2 p.Packet_Parameter3 s
    (r.1, !r.2)
  else if cmd = CMD_RX_TOWER_MODE then
    let r := CMD_TowerMode FIFO_SIZE FLASH_DATA_START FLASH_DATA_SIZE p.Packet_Parameter1
      p.Packet_Parameter2 p.Packet_Parameter3 s
    (r.1, !r.2)
  else if cmd = CMD_RX_SET_TIME then
    let r := CMD_SetTime p.Packet_Parameter1 p.Packet_Parameter2 p.Packet_Parameter3 s
    (r.1, !r.2)
  else
    (s, true)

/-- `PacketHandle`: the `switch`, then, when the acknowledgement bit of `Packet_Command`
is set, `Packet_Put` of the command byte with that bit cleared (on error) or set (on
success) and the three packet parameters; the result of that `Packet_Put` is
dropped. -/
def PacketHandle (FIFO_SIZE FLASH_DATA_START FLASH_DATA_SIZE : Nat) (s : SystemState) :
    SystemState :=
  let r := PacketHandle_switch FIFO_SIZE FLASH_DATA_START FLASH_DATA_SIZE s
  let s1 := r.1
  let error := r.2
  if s1.Tower.Pkt.Packet_Command &&& PACKET_ACK_MASK ≠ 0 then
    let maskedPacket :=
      if error then (s1.Tower.Pkt.Packet_Command &&& NOT_PACKET_ACK_MASK) % 256
      else (s1.Tower.Pkt.Packet_Command ||| PACKET_ACK_MASK) % 256
    (Sys_Packet_Put FIFO_SIZE maskedPacket s1.Tower.Pkt.Packet_Parameter1
      s1.Tower.Pkt.Packet_Parameter2 s1.Tower.Pkt.Packet_Parameter3 s1).1
  else s1

/-- A concrete system state for evaluation: the given packet in the packet module, empty
queues, a blank flash with a fault-free controller, null pointers and a stopped clock. -/
def System_of (FIFO_SIZE : Nat) (command parameter1 parameter2 parameter3 : Nat) :
    SystemState :=
  { Tower := { UART := (Tower_of FIFO_SIZE [] []).UART,
               Pkt := { Position := 0, Packet_Command := command,
                        Packet_Parameter1 := parameter1, Packet_Parameter2 := parameter2,
                        Packet_Parameter3 := parameter3,
                        Packet_Checksum := (command ^^^ parameter1 ^^^ parameter2 ^^^
                          parameter3) % 256 } },
    Flash := Flash_blank 0, TowerNumber := 0, TowerMode := 0, RTC_TSR := 0,
    RTC_SR_TCE := false }

/-! ## FIFO.c: critical sections -/

/-- What a queue operation does with the critical section, in program order: entering
it, leaving it, and each statement that reads or writes `Start`, `End`, `NbBytes` or
`Buffer`, tagged with the nesting depth at which it runs. -/
inductive CSEvent where
  | enter
  | exit
  | access (depth : Nat)
  deriving DecidableEq, Repr

/-- The interrupt-masking state: the nesting depth of the critical section and the log
of events so far. -/
structure CriticalState where
  Depth : Nat
  Log : List CSEvent
  deriving DecidableEq, Repr

/-- Modelled from the spec: `EnterCritical()` of the processor support headers (not
among the sources), which acquires the scoped critical section: the nesting depth
grows by one. -/
def EnterCritical (c : CriticalState) : CriticalState :=
  { Depth := c.Depth + 1, Log := c.Log ++ [CSEvent.enter] }

/-- Modelled from the spec: `ExitCritical()` of the processor support headers (not
among the sources), which releases the scoped critical section: the nesting depth
drops by one. -/
def ExitCritical (c : CriticalState) : CriticalState :=
  { Depth := c.Depth - 1, Log := c.Log ++ [CSEvent.exit] }

/-- A statement that reads or writes a queue field: logged with the current depth. -/
def CS_access (c : CriticalState) : CriticalState :=
  { c with Log := c.Log ++ [CSEvent.access c.Depth] }

/-- `FIFO_Put` statement by statement, with the critical-section calls and the queue
accesses logged. -/
def FIFO_Put_cs (FIFO_SIZE : Nat) (c : CriticalState) (fifo : TFIFO) (data : Nat) :
    CriticalState × TFIFO × Bool :=
  let c1 := EnterCritical c
  let c2 := CS_access c1
  if fifo.NbBytes ≥ FIFO_SIZE then
    let c3 := ExitCritical c2
    (c3, fifo, false)
  else
    let c3 := CS_access c2
    let f1 : TFIFO := { fifo with Buffer := Function.update fifo.Buffer fifo.End data }
    let c4 := CS_access c3
    let f2 : TFIFO := { f1 with NbBytes := f1.NbBytes + 1 }
    let c5 := CS_access c4
    let f3 : TFIFO := { f2 with End := f2.End + 1 }
    let c6 := CS_access c5
    if f3.End ≥ FIFO_SIZE then
      let c7 := CS_access c6
      let f4 : TFIFO := { f3 with End := 0 }
      let c8 := ExitCritical c7
      (c8, f4, true)
    else
      let c8 := ExitCritical c6
      (c8, f3, true)

/-- `FIFO_Get` statement by statement, with the critical-section calls and the queue
accesses logged. -/
def FIFO_Get_cs (FIFO_SIZE : Nat) (c : CriticalState) (fifo : TFIFO) :
    CriticalState × TFIFO × Option Nat :=
  let c1 := EnterCritical c
  let c2 := CS_access c1
  if fifo.NbBytes = 0 then
    let c3 := ExitCritical c2
    (c3, fifo, none)
  else
    let c3 := CS_access c2
    let data := fifo.Buffer fifo.Start
    let c4 := CS_access c3
    let f1 : TFIFO := { fifo with Start := fifo.Start + 1 }
    let c5 := CS_access c4
    let f2 : TFIFO := { f1 with NbBytes := f1.NbBytes - 1 }
    let c6 := CS_access c5
    if f2.Start ≥ FIFO_SIZE then
      let c7 := CS_access c6
      let f3 : TFIFO := { f2 with Start := 0 }
      let c8 := ExitCritical c7
      (c8, f3, some data)
    else
      let c8 := ExitCritical c6
      (c8, f2, some data)

/-! ## The byte queue as the specification words it -/

/-- The queue of the specification: the bytes put and not yet got, oldest first, with
capacity `N`. A put on a full queue and a get on an empty queue change nothing. -/
def Queue_spec_call (N : Nat) (q : List Nat) : FIFOCall → List Nat
  | .put data => if q.length < N then q ++ [data] else q
  | .get => q.tail

/-- The specification queue after a sequence of calls, starting from `q`. -/
def Queue_spec_calls (N : Nat) (q : List Nat) (calls : List FIFOCall) : List Nat :=
  calls.foldl (Queue_spec_call N) q

/-! ## Packet_Get driven by arriving bytes -/

/-- What happens around the framer: a byte arrives (the receive interrupt puts it into
the receive queue), or the main loop calls `Packet_Get`. -/
inductive PacketEvent where
  | rx (b : Nat)
  | get
  deriving DecidableEq, Repr

/-- The state after one event. -/
def Packet_event (returned : PacketVars → Nat) (FIFO_SIZE : Nat) (s : TowerState) :
    PacketEvent → TowerState
  | .rx b => { s with UART := (UART_ISR FIFO_SIZE false true b s.UART).1 }
  | .get => (Packet_Get returned FIFO_SIZE s).1

/-- The state after a sequence of events, first event first. -/
def Packet_events (returned : PacketVars → Nat) (FIFO_SIZE : Nat) (s : TowerState)
    (evs : List PacketEvent) : TowerState :=
  evs.foldl (Packet_event returned FIFO_SIZE) s

/-- A byte stream fed one byte per `Packet_Get` call: each byte arrives and is then
consumed by the next call. Final state and the result of each call. -/
def Packet_stream (returned : PacketVars → Nat) (FIFO_SIZE : Nat) (s : TowerState) :
    List Nat → TowerState × List Bool
  | [] => (s, [])
  | b :: bs =>
    let r := Packet_Get returned FIFO_SIZE (Packet_event returned FIFO_SIZE s (PacketEvent.rx b))
    let rest := Packet_stream returned FIFO_SIZE r.1 bs
    (rest.1, r.2 :: rest.2)

/-- Number of calls since the last call that returned true (or since the start). -/
def Packet_sinceTrue (results : List Bool) : Nat :=
  results.foldl (fun t r => if r then 0 else t + 1) 0

/-- XOR of all bytes of a list. -/
def Packet_xorAll (l : List Nat) : Nat :=
  l.foldl (fun a b => a ^^^ b) 0

/-! ## cmd.c and main.c: protocol mode and analog reports; RTC.c: `RTC_Get` -/

/-- Modelled from the spec: the record `TAnalogInput` of `analog.h` (not among the
sources), reduced to the two fields the code reads: the current sample `value` and
the previous one `oldValue`, each a 16-bit pattern. -/
structure TAnalogInput where
  value : Nat
  oldValue : Nat
  deriving DecidableEq, Repr

/-- `CMD_ProtocolMode`: `while (isSync) return Packet_Put(CMD_TX_TOWER_MODE, mode, isSync,
0)`. With `isSync` false the loop is skipped and the function ends without a return
statement, modelled by `none`. -/
def CMD_ProtocolMode (FIFO_SIZE : Nat) (mode : Nat) (isSync : Bool) (s : SystemState) :
    SystemState × Option Bool :=
  if isSync then
    let r := Sys_Packet_Put FIFO_SIZE CMD_TX_TOWER_MODE mode (if isSync then 1 else 0) 0 s
    (r.1, some r.2)
  else (s, none)

/-- `CMD_AnalogValue`: returns 1 without sending for a channel above 1, otherwise sends
the channel's value, low byte then high byte. -/
def CMD_AnalogValue (FIFO_SIZE : Nat) (Analog_Input : Nat → TAnalogInput) (channelNb : Nat)
    (u : UARTState) : UARTState × Bool :=
  if channelNb > 1 then (u, true)
  else
    Packet_Put FIFO_SIZE CMD_RX_ANALOG_INPUT channelNb
      ((Analog_Input channelNb).value % 256) ((Analog_Input channelNb).value / 256 % 256) u

/-- `NB_ANALOG_CHANNELS` of main.c. -/
def NB_ANALOG_CHANNELS : Nat := 2

/-- One pass of the loop body of `LPTimer_ISR`: `Analog_Get(channelNb)`, then the report,
in synchronous mode always and otherwise only when the value differs from the old one.
`Analog_Get` belongs to the analog library (not among the sources) and is a parameter;
`channelNb` is not declared inside `LPTimer_ISR` and is a parameter too. -/
def LPTimer_ISR_body (FIFO_SIZE : Nat)
    (Analog_Get : Nat → (Nat → TAnalogInput) → (Nat → TAnalogInput))
    (channelNb : Nat) (isSynchronous : Bool)
    (st : (Nat → TAnalogInput) × UARTState) : (Nat → TAnalogInput) × UARTState :=
  let Analog_Input := Analog_Get channelNb st.1
  if isSynchronous then
    (Analog_Input, (Packet_Put FIFO_SIZE CMD_RX_ANALOG_INPUT channelNb
      ((Analog_Input channelNb).value % 256) ((Analog_Input channelNb).value / 256 % 256)
      st.2).1)
  else if (Analog_Input channelNb).value ≠ (Analog_Input channelNb).oldValue then
    (Analog_Input, (Packet_Put FIFO_SIZE CMD_RX_ANALOG_INPUT channelNb
      ((Analog_Input channelNb).value % 256) ((Analog_Input channelNb).value % 256)
      st.2).1)
  else (Analog_Input, st.2)

/-- The loop of `LPTimer_ISR`, with `left` passes to go (the body does not use the loop
counter `analogNb`). -/
def LPTimer_ISR_loop (FIFO_SIZE : Nat)
    (Analog_Get : Nat → (Nat → TAnalogInput) → (Nat → TAnalogInput))
    (channelNb : Nat) (isSynchronous : Bool) :
    Nat → (Nat → TAnalogInput) × UARTState → (Nat → TAnalogInput) × UARTState
  | 0, st => st
  | left + 1, st =>
    LPTimer_ISR_loop FIFO_SIZE Analog_Get channelNb isSynchronous left
      (LPTimer_ISR_body FIFO_SIZE Analog_Get channelNb isSynchronous st)

/-- `LPTimer_ISR`: the interrupt flag is cleared (not modelled) and the loop runs
`NB_ANALOG_CHANNELS` times. -/
def LPTimer_ISR (FIFO_SIZE : Nat)
    (Analog_Get : Nat → (Nat → TAnalogInput) → (Nat → TAnalogInput))
    (channelNb : Nat) (isSynchronous : Bool)
    (st : (Nat → TAnalogInput) × UARTState) : (Nat → TAnalogInput) × UARTState :=
  LPTimer_ISR_loop FIFO_SIZE Analog_Get channelNb isSynchronous NB_ANALOG_CHANNELS st

/-- `RTC_Get`: hours, minutes and seconds computed from `RTC_TSR`, each converted to
`uint8_t`. -/
def RTC_Get (s : SystemState) : Nat × Nat × Nat :=
  let currentTime := s.RTC_TSR
  (currentTime / 3600 % 256, currentTime / 60 % 60 % 256, currentTime % 60 % 256)

/-! ## Queue lemmas -/

theorem FIFO_Init_wf (n : Nat) (h : 0 < n) (f : TFIFO) : FIFO_WF n (FIFO_Init f) := by
  simp [FIFO_WF, FIFO_Inv, FIFO_Init, h]

theorem FIFO_Init_contents (n : Nat) (f : TFIFO) : FIFO_contents n (FIFO_Init f) = [] := by
  simp [FIFO_contents, FIFO_Init]

theorem FIFO_contents_length (n : Nat) (f : TFIFO) :
    (FIFO_contents n f).length = f.NbBytes := by
  simp [FIFO_contents]

theorem FIFO_Put_full (n : Nat) (f : TFIFO) (d : Nat) (h : n ≤ f.NbBytes) :
    FIFO_Put n f d = (f, false) := by
  simp [FIFO_Put, h]

theorem wrap_eq_mod (n e : Nat) (h : e < n) :
    (if n ≤ e + 1 then 0 else e + 1) = (e + 1) % n := by
  split
  · have h1 : e + 1 = n := by omega
    rw [h1, Nat.mod_self]
  · rw [Nat.mod_eq_of_lt (by omega)]

theorem ring_slot_ne (n s i k : Nat) (hi : i < k) (hk : k < n) :
    (s + i) % n ≠ (s + k) % n := by
  intro h
  have h1 : i ≡ k [MOD n] := Nat.ModEq.add_left_cancel' s h
  have h2 : i = k := Nat.ModEq.eq_of_lt_of_lt h1 (by omega) hk
  omega

theorem FIFO_Put_room (n : Nat) (f : TFIFO) (d : Nat) (hwf : FIFO_WF n f)
    (h : f.NbBytes < n) :
    (FIFO_Put n f d).2 = true ∧ FIFO_WF n (FIFO_Put n f d).1 ∧
      (FIFO_Put n f d).1.NbBytes = f.NbBytes + 1 ∧
      FIFO_contents n (FIFO_Put n f d).1 = FIFO_contents n f ++ [d] := by
  obtain ⟨⟨hnb, hs, he⟩, hrel⟩ := hwf
  have hnot : ¬ n ≤ f.NbBytes := by omega
  have hw := wrap_eq_mod n f.End he
  have hend : (f.End + 1) % n = (f.Start + (f.NbBytes + 1)) % n := by
    rw [hrel, Nat.mod_add_mod, Nat.add_assoc]
  have hpos : 0 < n := by omega
  refine ⟨by simp [FIFO_Put, hnot], ?_, ?_, ?_⟩
  · simp only [FIFO_Put, ge_iff_le, hnot, if_false]
    split
    · rename_i hc
      simp only [hc, if_true] at hw
      refine ⟨⟨by simp; omega, by simpa using hs, by simpa using hpos⟩, ?_⟩
      simp only
      rw [← hend, ← hw]
    · rename_i hc
      simp only [hc, if_false] at hw
      refine ⟨⟨by simp; omega, by simpa using hs, by simp; omega⟩, ?_⟩
      simp only
      rw [← hend, ← hw]
  · simp only [FIFO_Put, ge_iff_le, hnot, if_false]
    split <;> rfl
  · have hbuf : ∀ g : TFIFO, g.NbBytes = f.NbBytes + 1 → g.Start = f.Start →
        g.Buffer = Function.update f.Buffer f.End d →
        FIFO_contents n g = FIFO_contents n f ++ [d] := by
      intro g h1 h2 h3
      unfold FIFO_contents
      rw [h1, h2, h3, List.range_succ, List.map_append]
      congr 1
      · apply List.map_congr_left
        intro i hi
        rw [List.mem_range] at hi
        rw [Function.update_noteq]
        rw [hrel]
        exact ring_slot_ne n f.Start i f.NbBytes hi h
      · simp only [List.map_cons, List.map_nil]
        rw [← hrel, Function.update_same]
    simp only [FIFO_Put, ge_iff_le, hnot, if_false]
    split <;> exact hbuf _ rfl rfl rfl

theorem FIFO_Get_empty (n : Nat) (f : TFIFO) (h : f.NbBytes = 0) :
    FIFO_Get n f = (f, none) := by
  simp [FIFO_Get, h]

theorem FIFO_Get_nonempty (n : Nat) (f : TFIFO) (hwf : FIFO_WF n f) (h : f.NbBytes ≠ 0) :
    (FIFO_Get n f).2 = some (f.Buffer f.Start) ∧ FIFO_WF n (FIFO_Get n f).1 ∧
      (FIFO_Get n f).1.NbBytes + 1 = f.NbBytes ∧
      (FIFO_Get n f).1.End = f.End ∧
      FIFO_contents n f = f.Buffer f.Start :: FIFO_contents n (FIFO_Get n f).1 := by
  obtain ⟨⟨hnb, hs, he⟩, hrel⟩ := hwf
  have hw := wrap_eq_mod n f.Start hs
  have hpos : 0 < n := by omega
  have key : ∀ g : TFIFO, g.NbBytes = f.NbBytes - 1 → g.Start = (f.Start + 1) % n →
      g.End = f.End → g.Buffer = f.Buffer →
      FIFO_WF n g ∧ g.NbBytes + 1 = f.NbBytes ∧ g.End = f.End ∧
        FIFO_contents n f = f.Buffer f.Start :: FIFO_contents n g := by
    intro g h1 h2 h3 h4
    refine ⟨⟨⟨by omega, by rw [h2]; exact Nat.mod_lt _ hpos, by omega⟩, ?_⟩, by omega, h3, ?_⟩
    · rw [h3, hrel, h2, h1, Nat.mod_add_mod]
      congr 1
      omega
    · unfold FIFO_contents
      obtain ⟨k, hk⟩ : ∃ k, f.NbBytes = k + 1 := ⟨f.NbBytes - 1, by omega⟩
      rw [h1, h2, h4, hk, List.range_succ_eq_map]
      simp only [List.map_cons, List.map_map, Nat.add_zero, Nat.add_sub_cancel]
      rw [Nat.mod_eq_of_lt hs]
      congr 1
      apply List.map_congr_left
      intro i _
      simp only [Function.comp, Nat.mod_add_mod]
      congr 2
      omega
  refine ⟨by simp [FIFO_Get, h], ?_⟩
  simp only [FIFO_Get, h, if_false, ge_iff_le]
  split
  · rename_i hc
    simp only [hc, if_true] at hw
    exact key _ rfl hw rfl rfl
  · rename_i hc
    simp only [hc, if_false] at hw
    exact key _ rfl hw rfl rfl

theorem FIFO_Get_cons (n : Nat) (f : TFIFO) (b : Nat) (rest : List Nat)
    (hwf : FIFO_WF n f) (hc : FIFO_contents n f = b :: rest) :
    (FIFO_Get n f).2 = some b ∧ FIFO_WF n (FIFO_Get n f).1 ∧
      FIFO_contents n (FIFO_Get n f).1 = rest := by
  have hne : f.NbBytes ≠ 0 := by
    intro h0
    have := FIFO_contents_length n f
    rw [hc, h0] at this
    simp at this
  obtain ⟨h1, h2, _, _, h5⟩ := FIFO_Get_nonempty n f hwf hne
  rw [hc] at h5
  injection h5 with h6 h7
  exact ⟨by rw [h1, h6], h2, h7.symm⟩

theorem FIFO_PutAll_room (n : Nat) (bs : List Nat) :
    ∀ f : TFIFO, FIFO_WF n f → f.NbBytes + bs.length ≤ n →
      (FIFO_PutAll n f bs).2 = List.replicate bs.length true ∧
      FIFO_WF n (FIFO_PutAll n f bs).1 ∧
      FIFO_contents n (FIFO_PutAll n f bs).1 = FIFO_contents n f ++ bs := by
  induction bs with
  | nil => intro f hwf _; simp [FIFO_PutAll, hwf]
  | cons b bs ih =>
    intro f hwf hlen
    simp only [List.length_cons] at hlen
    obtain ⟨h1, h2, h3, h4⟩ := FIFO_Put_room n f b hwf (by omega)
    obtain ⟨i1, i2, i3⟩ := ih (FIFO_Put n f b).1 h2 (by omega)
    refine ⟨?_, ?_, ?_⟩
    · simp only [FIFO_PutAll, List.length_cons, List.replicate_succ, h1, i1]
    · exact i2
    · simp only [FIFO_PutAll]
      rw [i3, h4, List.append_assoc, List.singleton_append]

theorem FIFO_GetN_contents (n : Nat) (bs : List Nat) :
    ∀ f : TFIFO, FIFO_WF n f → ∀ rest, FIFO_contents n f = bs ++ rest →
      (FIFO_GetN n f bs.length).2 = bs.map some ∧
      FIFO_WF n (FIFO_GetN n f bs.length).1 ∧
      FIFO_contents n (FIFO_GetN n f bs.length).1 = rest := by
  induction bs with
  | nil => intro f hwf rest hc; simpa [FIFO_GetN, hwf] using hc
  | cons b bs ih =>
    intro f hwf rest hc
    obtain ⟨h1, h2, h3⟩ := FIFO_Get_cons n f b (bs ++ rest) hwf (by simpa using hc)
    obtain ⟨i1, i2, i3⟩ := ih (FIFO_Get n f).1 h2 rest h3
    refine ⟨?_, i2, i3⟩
    simp only [List.length_cons, FIFO_GetN, List.map_cons, h1, i1]

theorem FIFO_Put_inv (n : Nat) (f : TFIFO) (d : Nat) (h : FIFO_Inv n f) :
    FIFO_Inv n (FIFO_Put n f d).1 := by
  obtain ⟨h1, h2, h3⟩ := h
  unfold FIFO_Put
  split
  · exact ⟨h1, h2, h3⟩
  · simp only [ge_iff_le]
    split
    · exact ⟨by simp; omega, by simpa using h2, by simp; omega⟩
    · exact ⟨by simp; omega, by simpa using h2, by simp; omega⟩

theorem FIFO_Get_inv (n : Nat) (f : TFIFO) (h : FIFO_Inv n f) :
    FIFO_Inv n (FIFO_Get n f).1 := by
  obtain ⟨h1, h2, h3⟩ := h
  unfold FIFO_Get
  split
  · exact ⟨h1, h2, h3⟩
  · simp only [ge_iff_le]
    split
    · exact ⟨by simp; omega, by simp; omega, by simpa using h3⟩
    · exact ⟨by simp; omega, by simp; omega, by simpa using h3⟩

/-! ## UART and packet lemmas -/

theorem UART_OutChar_room (n : Nat) (u : UARTState) (d : Nat) (hwf : FIFO_WF n u.TxFIFO)
    (h : u.TxFIFO.NbBytes < n) :
    (UART_OutChar n u d).2 = true ∧ FIFO_WF n (UART_OutChar n u d).1.TxFIFO ∧
      (UART_OutChar n u d).1.TxFIFO.NbBytes = u.TxFIFO.NbBytes + 1 ∧
      FIFO_contents n (UART_OutChar n u d).1.TxFIFO = FIFO_contents n u.TxFIFO ++ [d] ∧
      (UART_OutChar n u d).1.RxFIFO = u.RxFIFO ∧ (UART_OutChar n u d).1.C2_TIE = true := by
  obtain ⟨h1, h2, h3, h4⟩ := FIFO_Put_room n u.TxFIFO d hwf h
  have hu : UART_OutChar n u d =
      ({ u with TxFIFO := (FIFO_Put n u.TxFIFO d).1, C2_TIE := true }, true) := by
    simp only [UART_OutChar, h1, if_true]
  rw [hu]
  exact ⟨rfl, h2, h3, h4, rfl, rfl⟩

theorem UART_OutChar_full (n : Nat) (u : UARTState) (d : Nat) (h : n ≤ u.TxFIFO.NbBytes) :
    UART_OutChar n u d = (u, false) := by
  simp [UART_OutChar, FIFO_Put_full n u.TxFIFO d h]

theorem UART_OutChars_spec (n : Nat) (l : List Nat) :
    ∀ u : UARTState, FIFO_WF n u.TxFIFO →
      (UART_OutChars n u l).2 = decide (u.TxFIFO.NbBytes + l.length ≤ n) ∧
      FIFO_WF n (UART_OutChars n u l).1.TxFIFO ∧
      FIFO_contents n (UART_OutChars n u l).1.TxFIFO =
        FIFO_contents n u.TxFIFO ++ l.take (n - u.TxFIFO.NbBytes) ∧
      (UART_OutChars n u l).1.RxFIFO = u.RxFIFO := by
  induction l with
  | nil =>
    intro u hwf
    have := hwf.1.1
    simp [UART_OutChars, hwf, this]
  | cons b bs ih =>
    intro u hwf
    by_cases hfull : n ≤ u.TxFIFO.NbBytes
    · have h0 : n - u.TxFIFO.NbBytes = 0 := by omega
      have hd : ¬ (u.TxFIFO.NbBytes + (bs.length + 1) ≤ n) := by omega
      simp [UART_OutChars, UART_OutChar_full n u b hfull, hwf, h0, hd]
    · obtain ⟨h1, h2, h3, h4, h5, _⟩ := UART_OutChar_room n u b hwf (by omega)
      obtain ⟨i1, i2, i3, i4⟩ := ih (UART_OutChar n u b).1 h2
      have hk : n - u.TxFIFO.NbBytes = (n - (u.TxFIFO.NbBytes + 1)) + 1 := by omega
      simp only [UART_OutChars, h1, Bool.not_true, Bool.false_eq_true, if_false]
      refine ⟨?_, i2, ?_, by rw [i4, h5]⟩
      · rw [i1, h3]
        simp only [List.length_cons, decide_eq_decide]
        omega
      · rw [i3, h4, h3, hk, List.take_succ_cons, List.append_assoc, List.singleton_append]

theorem Packet_Put_eq (n c p1 p2 p3 : Nat) (u : UARTState) :
    Packet_Put n c p1 p2 p3 u = UART_OutChars n u (Packet_frame c p1 p2 p3) := rfl

theorem Packet_Get_cons (rv : PacketVars → Nat)
    (n : Nat) (s : TowerState) (b : Nat) (rest : List Nat)
    (hwf : FIFO_WF n s.UART.RxFIFO) (hc : FIFO_contents n s.UART.RxFIFO = b :: rest) :
    (Packet_Get rv n s).2 = (Packet_Get_switch rv b s.Pkt).2 ∧
      (Packet_Get rv n s).1.Pkt = (Packet_Get_switch rv b s.Pkt).1 ∧
      FIFO_WF n (Packet_Get rv n s).1.UART.RxFIFO ∧
      FIFO_contents n (Packet_Get rv n s).1.UART.RxFIFO = rest ∧
      (Packet_Get rv n s).1.UART.TxFIFO = s.UART.TxFIFO ∧
      Packet_shifted rv n s =
        decide (s.Pkt.Position = 4 ∧ (Packet_Get_switch rv b s.Pkt).2 = false) := by
  obtain ⟨h1, h2, h3⟩ := FIFO_Get_cons n s.UART.RxFIFO b rest hwf hc
  have hu : UART_InChar n s.UART =
      ({ s.UART with RxFIFO := (FIFO_Get n s.UART.RxFIFO).1 }, some b) := by
    simp only [UART_InChar, h1]
  have hg : Packet_Get rv n s =
      ({ UART := { s.UART with RxFIFO := (FIFO_Get n s.UART.RxFIFO).1 },
         Pkt := (Packet_Get_switch rv b s.Pkt).1 }, (Packet_Get_switch rv b s.Pkt).2) := by
    simp only [Packet_Get, hu]
  refine ⟨by rw [hg], by rw [hg], by rw [hg]; exact h2, by rw [hg]; exact h3, by rw [hg], ?_⟩
  simp only [Packet_shifted, hu, hg, Option.isSome_some, Bool.and_true]
  cases (Packet_Get_switch rv b s.Pkt).2 <;> simp

theorem Packet_GetN_feed (rv : PacketVars → Nat) (n : Nat) (bs : List Nat) :
    ∀ (s : TowerState) (rest : List Nat), FIFO_WF n s.UART.RxFIFO →
      FIFO_contents n s.UART.RxFIFO = bs ++ rest →
      (Packet_GetN rv n s bs.length).2 = (Packet_feed rv s.Pkt bs).2 ∧
      (Packet_GetN rv n s bs.length).1.Pkt = (Packet_feed rv s.Pkt bs).1 ∧
      Packet_shifts rv n s bs.length = Packet_feed_shifts rv s.Pkt bs ∧
      FIFO_WF n (Packet_GetN rv n s bs.length).1.UART.RxFIFO ∧
      FIFO_contents n (Packet_GetN rv n s bs.length).1.UART.RxFIFO = rest := by
  induction bs with
  | nil => intro s rest hwf hc; simpa [Packet_GetN, Packet_feed, Packet_shifts,
      Packet_feed_shifts, hwf] using hc
  | cons b bs ih =>
    intro s rest hwf hc
    obtain ⟨h1, h2, h3, h4, _, h6⟩ := Packet_Get_cons rv n s b (bs ++ rest) hwf (by simpa using hc)
    obtain ⟨i1, i2, i3, i4, i5⟩ := ih (Packet_Get rv n s).1 rest h3 h4
    refine ⟨?_, ?_, ?_, i4, i5⟩
    · simp only [List.length_cons, Packet_GetN, Packet_feed, h1, i1, h2]
    · simp only [List.length_cons, Packet_GetN, Packet_feed, i2, h2]
    · simp only [List.length_cons, Packet_shifts, Packet_feed_shifts, h6, i3, h2,
        decide_eq_true_eq]

theorem xor4_lt (a b c d : Nat) (ha : a < 256) (hb : b < 256) (hc : c < 256) (hd : d < 256) :
    a ^^^ b ^^^ c ^^^ d < 256 := by
  have h8 : (256 : Nat) = 2 ^ 8 := by norm_num
  rw [h8] at ha hb hc hd ⊢
  exact Nat.xor_lt_two_pow (Nat.xor_lt_two_pow (Nat.xor_lt_two_pow ha hb) hc) hd

theorem PacketTest_ret_val_eq (p : PacketVars) (hb : IsBytes (Packet_window p)) :
    PacketTest_ret_val p =
      if p.Packet_Command ^^^ p.Packet_Parameter1 ^^^ p.Packet_Parameter2 ^^^
        p.Packet_Parameter3 = p.Packet_Checksum then 1 else 0 := by
  simp only [IsBytes, Packet_window, List.mem_cons, List.mem_singleton, forall_eq_or_imp,
    forall_eq, List.not_mem_nil, false_implies, implies_true, and_true] at hb
  have hx := Nat.mod_eq_of_lt (xor4_lt _ _ _ _ hb.1 hb.2.1 hb.2.2.1 hb.2.2.2)
  simp only [PacketTest_ret_val, hx]

theorem Packet_Get_switch_test (rv : PacketVars → Nat) (b : Nat) (p : PacketVars)
    (hpos : p.Position = 4) :
    (Packet_Get_switch rv b p).2 = decide (rv { p with Packet_Checksum := b } ≠ 0) ∧
      ((Packet_Get_switch rv b p).2 = true →
        (Packet_Get_switch rv b p).1.Position = 0 ∧
        Packet_window (Packet_Get_switch rv b p).1 = Packet_window p) := by
  obtain ⟨pos, a1, a2, a3, a4, a5⟩ := p
  simp only at hpos
  subst hpos
  by_cases h : rv ⟨4, a1, a2, a3, a4, b⟩ = 0
  · simp [Packet_Get_switch, PacketTest, h]
  · simp [Packet_Get_switch, PacketTest, h, Packet_window]

theorem Packet_feed_four (rv : PacketVars → Nat) (p : PacketVars) (e0 e1 e2 e3 : Nat)
    (hpos : p.Position = 0) :
    (Packet_feed rv p [e0, e1, e2, e3]).2 = List.replicate 4 false ∧
      Packet_feed_shifts rv p [e0, e1, e2, e3] = 0 ∧
      (Packet_feed rv p [e0, e1, e2, e3]).1 =
        { Position := 4, Packet_Command := e0, Packet_Parameter1 := e1,
          Packet_Parameter2 := e2, Packet_Parameter3 := e3,
          Packet_Checksum := p.Packet_Checksum } := by
  obtain ⟨pos, a, b, c0, d, e⟩ := p
  simp only at hpos
  subst hpos
  simp [Packet_feed, Packet_feed_shifts, Packet_Get_switch, List.replicate]

theorem Packet_feed_length (rv : PacketVars → Nat) (bs : List Nat) :
    ∀ p : PacketVars, (Packet_feed rv p bs).2.length = bs.length := by
  induction bs with
  | nil => intro p; rfl
  | cons b bs ih => intro p; simp only [Packet_feed, List.length_cons, ih]

theorem Packet_Get_some (rv : PacketVars → Nat) (n : Nat) (s : TowerState) (b : Nat)
    (hget : (UART_InChar n s.UART).2 = some b) :
    (Packet_Get rv n s).2 = (Packet_Get_switch rv b s.Pkt).2 ∧
      (Packet_Get rv n s).1.Pkt = (Packet_Get_switch rv b s.Pkt).1 := by
  rcases hu : UART_InChar n s.UART with ⟨u1, o⟩
  rw [hu] at hget
  simp only at hget
  subst hget
  simp only [Packet_Get, hu, and_self]

theorem corrupted_frame_fails (f0 f1 f2 f3 e0 e1 e2 e3 e4 : Nat)
    (hf : IsBytes [f0, f1, f2, f3]) (he : IsBytes [e0, e1, e2, e3, e4])
    (hcorr : OneByteCorrupted (Packet_frame f0 f1 f2 f3) [e0, e1, e2, e3, e4]) :
    (e0 ^^^ e1 ^^^ e2 ^^^ e3) % 256 ≠ e4 := by
  simp only [IsBytes, List.mem_cons, List.mem_singleton, forall_eq_or_imp, forall_eq,
    List.not_mem_nil, false_implies, implies_true, and_true] at hf he
  obtain ⟨hf0, hf1, hf2, hf3⟩ := hf
  obtain ⟨he0, he1, he2, he3, he4⟩ := he
  obtain ⟨_, h⟩ := hcorr
  have hxf := Nat.mod_eq_of_lt (xor4_lt _ _ _ _ hf0 hf1 hf2 hf3)
  have hxe := Nat.mod_eq_of_lt (xor4_lt _ _ _ _ he0 he1 he2 he3)
  rw [hxe]
  simp only [Packet_frame, hxf, List.zip_cons_cons, List.zip_nil_right, List.filter_cons,
    List.filter_nil, decide_eq_true_eq] at h
  intro heq
  split_ifs at h <;> simp only [List.length_cons, List.length_nil] at h <;> try omega
  all_goals
    simp only [ne_eq, not_not] at *
    subst_vars
    simp [Nat.xor_left_inj, Nat.xor_right_inj] at * <;> contradiction

theorem Packet_feed_append (rv : PacketVars → Nat) (as bs : List Nat) :
    ∀ p : PacketVars,
      (Packet_feed rv p (as ++ bs)).1 = (Packet_feed rv (Packet_feed rv p as).1 bs).1 ∧
      (Packet_feed rv p (as ++ bs)).2 = (Packet_feed rv p as).2 ++ (Packet_feed rv (Packet_feed rv p as).1 bs).2 ∧
      Packet_feed_shifts rv p (as ++ bs) =
        Packet_feed_shifts rv p as + Packet_feed_shifts rv (Packet_feed rv p as).1 bs := by
  induction as with
  | nil => intro p; simp [Packet_feed, Packet_feed_shifts]
  | cons a as ih =>
    intro p
    obtain ⟨i1, i2, i3⟩ := ih (Packet_Get_switch rv a p).1
    have e : (a :: as) ++ bs = a :: (as ++ bs) := rfl
    rw [e]
    simp only [Packet_feed, Packet_feed_shifts, i1, i2, i3, Nat.add_assoc, List.cons_append,
      and_self]

theorem Packet_Get_switch_shift (rv : PacketVars → Nat)
    (b : Nat) (p : PacketVars) (hpos : p.Position = 4)
    (hr : (Packet_Get_switch rv b p).2 = false) :
    (Packet_Get_switch rv b p).1.Position = 4 ∧
      Packet_window (Packet_Get_switch rv b p).1 = (Packet_window p ++ [b]).drop 1 := by
  simp only [Packet_Get_switch, hpos] at hr ⊢
  simp only [OfNat.ofNat_ne_zero, if_false, if_true, OfNat.ofNat_ne_one, Nat.reduceEqDiff] at hr ⊢
  split at hr
  · simp at hr
  · rename_i hc
    simp only [hc, if_false]
    simp [Packet_window, hpos]

theorem Packet_feed_all_false (rv : PacketVars → Nat) (bs : List Nat) :
    ∀ p : PacketVars, p.Position = 4 →
      (Packet_feed rv p bs).2 = List.replicate bs.length false →
      (Packet_feed rv p bs).1.Position = 4 ∧ Packet_feed_shifts rv p bs = bs.length ∧
      Packet_window (Packet_feed rv p bs).1 = (Packet_window p ++ bs).drop bs.length := by
  induction bs with
  | nil => intro p hpos _; simp [Packet_feed, Packet_feed_shifts, hpos]
  | cons b bs ih =>
    intro p hpos hr
    simp only [Packet_feed, List.length_cons, List.replicate_succ, List.cons.injEq] at hr
    obtain ⟨s1, s2⟩ := Packet_Get_switch_shift rv b p hpos hr.1
    obtain ⟨i1, i2, i3⟩ := ih (Packet_Get_switch rv b p).1 s1 hr.2
    refine ⟨i1, ?_, ?_⟩
    · simp only [Packet_feed_shifts, hpos, hr.1, and_self, if_true, i2, List.length_cons]
      omega
    · simp only [Packet_feed, i3, s2]
      simp [Packet_window]

theorem Packet_feed_resync (rv : PacketVars → Nat) (p : PacketVars) (e0 e1 e2 e3 : Nat)
    (bs : List Nat) (hpos : p.Position = 0)
    (h : (Packet_feed rv p ([e0, e1, e2, e3] ++ bs)).2 = List.replicate (4 + bs.length) false) :
    Packet_feed_shifts rv p ([e0, e1, e2, e3] ++ bs) = bs.length ∧
      (Packet_feed rv p ([e0, e1, e2, e3] ++ bs)).1.Position = 4 ∧
      Packet_window (Packet_feed rv p ([e0, e1, e2, e3] ++ bs)).1 =
        ([e0, e1, e2, e3] ++ bs).drop bs.length := by
  obtain ⟨a1, a2, a3⟩ := Packet_feed_append rv [e0, e1, e2, e3] bs p
  obtain ⟨f1, f2, f3⟩ := Packet_feed_four rv p e0 e1 e2 e3 hpos
  rw [a2, f1, List.replicate_add, List.append_cancel_left_eq] at h
  rw [a1, a3, f2]
  rw [f3] at h ⊢
  obtain ⟨q1, q2, q3⟩ := Packet_feed_all_false rv bs _ rfl h
  exact ⟨by omega, q1, q3⟩

/-! ## Claims on the packet layer -/

/-- C1 fails on the code through the missing `return` of `PacketTest`. With the framer
at `Position` 0 and the five bytes that `Packet_Put(c,p1,p2,p3)` appends to a transmit
queue (one with room for them) delivered in order to the receive queue, the first four
`Packet_Get` calls return false and the fifth returns true exactly when the value
received from `PacketTest` is not zero, although the local `ret_val` is 1. When the
value received is zero the fifth call returns false and shifts the window to `p1`,
`p2`, `p3`, checksum; when it is not zero the fields are `c`, `p1`, `p2`, `p3`. -/
theorem C1_roundtrip_needs_return (rv : PacketVars → Nat) (n c p1 p2 p3 : Nat)
    (u : UARTState) (s : TowerState) (rest : List Nat)
    (htx : FIFO_WF n u.TxFIFO) (hroom : u.TxFIFO.NbBytes + 5 ≤ n)
    (hrx : FIFO_WF n s.UART.RxFIFO) (hpos : s.Pkt.Position = 0)
    (hdeliv : FIFO_contents n s.UART.RxFIFO =
      (FIFO_contents n (Packet_Put n c p1 p2 p3 u).1.TxFIFO).drop u.TxFIFO.NbBytes ++ rest) :
    PacketTest_ret_val ⟨4, c, p1, p2, p3, (c ^^^ p1 ^^^ p2 ^^^ p3) % 256⟩ = 1 ∧
      (Packet_GetN rv n s 5).2 = [false, false, false, false,
        decide (rv ⟨4, c, p1, p2, p3, (c ^^^ p1 ^^^ p2 ^^^ p3) % 256⟩ ≠ 0)] ∧
      (rv ⟨4, c, p1, p2, p3, (c ^^^ p1 ^^^ p2 ^^^ p3) % 256⟩ = 0 →
        (Packet_GetN rv n s 5).2 = [false, false, false, false, false] ∧
        (Packet_GetN rv n s 5).1.Pkt.Position = 4 ∧
        Packet_window (Packet_GetN rv n s 5).1.Pkt =
          [p1, p2, p3, (c ^^^ p1 ^^^ p2 ^^^ p3) % 256]) ∧
      (rv ⟨4, c, p1, p2, p3, (c ^^^ p1 ^^^ p2 ^^^ p3) % 256⟩ ≠ 0 →
        (Packet_GetN rv n s 5).1.Pkt.Position = 0 ∧
        Packet_window (Packet_GetN rv n s 5).1.Pkt = [c, p1, p2, p3]) := by
  obtain ⟨_, _, hput, _⟩ := UART_OutChars_spec n (Packet_frame c p1 p2 p3) u htx
  rw [← Packet_Put_eq] at hput
  have hlen : (Packet_frame c p1 p2 p3).length = 5 := rfl
  have htake : (Packet_frame c p1 p2 p3).take (n - u.TxFIFO.NbBytes) = Packet_frame c p1 p2 p3 :=
    List.take_of_length_le (by rw [hlen]; omega)
  rw [hput, htake, List.drop_left' (FIFO_contents_length n u.TxFIFO)] at hdeliv
  obtain ⟨g1, g2, _, _, _⟩ := Packet_GetN_feed rv n (Packet_frame c p1 p2 p3) s rest hrx hdeliv
  rw [hlen] at g1 g2
  rw [g1, g2]
  generalize s.Pkt = q at *
  obtain ⟨pos, a, b, c0, d, e⟩ := q
  simp only at hpos
  subst hpos
  refine ⟨by simp [PacketTest_ret_val], ?_, ?_, ?_⟩
  · by_cases h : rv ⟨4, c, p1, p2, p3, (c ^^^ p1 ^^^ p2 ^^^ p3) % 256⟩ = 0 <;>
      simp [Packet_feed, Packet_frame, Packet_Get_switch, PacketTest, h]
  · intro h
    simp [Packet_feed, Packet_frame, Packet_Get_switch, PacketTest, h, Packet_window]
  · intro h
    simp [Packet_feed, Packet_frame, Packet_Get_switch, PacketTest, h, Packet_window]

theorem C1_roundtrip_needs_return_witness :
    FIFO_contents 8 (Tower_of 8 [0x8B, 1, 2, 3, 0x8B] []).UART.RxFIFO =
        (FIFO_contents 8 (Packet_Put 8 0x8B 1 2 3 (Tower_of 8 [] [9, 9]).UART).1.TxFIFO).drop 2 ∧
      PacketTest_ret_val ⟨4, 0x8B, 1, 2, 3, 0x8B⟩ = 1 ∧
      (Packet_GetN (fun _ => 0) 8 (Tower_of 8 [0x8B, 1, 2, 3, 0x8B] []) 5).2 =
        [false, false, false, false, false] ∧
      (Packet_GetN (fun _ => 0) 8 (Tower_of 8 [0x8B, 1, 2, 3, 0x8B] []) 5).1.Pkt.Position = 4 ∧
      Packet_window (Packet_GetN (fun _ => 0) 8 (Tower_of 8 [0x8B, 1, 2, 3, 0x8B] []) 5).1.Pkt =
        [1, 2, 3, 0x8B] :=
  have h := C1_roundtrip_needs_return (fun _ => 0) 8 0x8B 1 2 3 (Tower_of 8 [] [9, 9]).UART
    (Tower_of 8 [0x8B, 1, 2, 3, 0x8B] []) [] (by decide) (by decide) (by decide) rfl (by decide)
  ⟨by decide, h.1, (h.2.2.1 rfl).1, (h.2.2.1 rfl).2.1, (h.2.2.1 rfl).2.2⟩

/-- C2 fails on the code through the missing `return` of `PacketTest`. When
`Packet_Get` consumes a byte `b` while `Position` is 4 and `b` equals
`Packet_Command XOR Packet_Parameter1 XOR Packet_Parameter2 XOR Packet_Parameter3`,
the local `ret_val` is 1, but the call returns true exactly when the value received
from `PacketTest` is not zero; when that value is zero the call returns false, keeps
`Position` at 4 and shifts the window, discarding `Packet_Command`. -/
theorem C2_match_needs_return (rv : PacketVars → Nat) (n : Nat) (s : TowerState) (b : Nat)
    (hget : (UART_InChar n s.UART).2 = some b) (hpos : s.Pkt.Position = 4)
    (hc : s.Pkt.Packet_Command < 256) (h1 : s.Pkt.Packet_Parameter1 < 256)
    (h2 : s.Pkt.Packet_Parameter2 < 256) (h3 : s.Pkt.Packet_Parameter3 < 256)
    (hb : b = s.Pkt.Packet_Command ^^^ s.Pkt.Packet_Parameter1 ^^^
      s.Pkt.Packet_Parameter2 ^^^ s.Pkt.Packet_Parameter3) :
    PacketTest_ret_val { s.Pkt with Packet_Checksum := b } = 1 ∧
      (Packet_Get rv n s).2 = decide (rv { s.Pkt with Packet_Checksum := b } ≠ 0) ∧
      (rv { s.Pkt with Packet_Checksum := b } = 0 →
        (Packet_Get rv n s).2 = false ∧ (Packet_Get rv n s).1.Pkt.Position = 4 ∧
        (Packet_Get rv n s).1.Pkt.Packet_Command = s.Pkt.Packet_Parameter1 ∧
        (Packet_Get rv n s).1.Pkt.Packet_Parameter1 = s.Pkt.Packet_Parameter2 ∧
        (Packet_Get rv n s).1.Pkt.Packet_Parameter2 = s.Pkt.Packet_Parameter3 ∧
        (Packet_Get rv n s).1.Pkt.Packet_Parameter3 = b) := by
  obtain ⟨g1, g2⟩ := Packet_Get_some rv n s b hget
  have hx := Nat.mod_eq_of_lt (xor4_lt _ _ _ _ hc h1 h2 h3)
  rw [g1, g2]
  generalize s.Pkt = q at *
  obtain ⟨pos, a1, a2, a3, a4, a5⟩ := q
  simp only at hpos hx hb
  subst hpos
  refine ⟨by simp [PacketTest_ret_val, hx, hb], ?_, fun h => ?_⟩
  · by_cases h : rv ⟨4, a1, a2, a3, a4, b⟩ = 0 <;> simp [Packet_Get_switch, PacketTest, h]
  · simp only at h
    simp [Packet_Get_switch, PacketTest, h]

theorem C2_match_needs_return_witness :
    (Packet_GetN (fun _ => 0) 8 (Tower_of 8 [4, 5, 6, 7, 0] []) 4).1.Pkt.Position = 4 ∧
      Packet_window (Packet_GetN (fun _ => 0) 8 (Tower_of 8 [4, 5, 6, 7, 0] []) 4).1.Pkt =
        [4, 5, 6, 7] ∧
      0 = 4 ^^^ 5 ^^^ 6 ^^^ 7 ∧
      PacketTest_ret_val ⟨4, 4, 5, 6, 7, 0⟩ = 1 ∧
      (Packet_Get (fun _ => 0) 8
        (Packet_GetN (fun _ => 0) 8 (Tower_of 8 [4, 5, 6, 7, 0] []) 4).1).2 = false ∧
      (Packet_Get (fun _ => 0) 8
        (Packet_GetN (fun _ => 0) 8 (Tower_of 8 [4, 5, 6, 7, 0] []) 4).1).1.Pkt.Position = 4 ∧
      Packet_window (Packet_Get (fun _ => 0) 8
        (Packet_GetN (fun _ => 0) 8 (Tower_of 8 [4, 5, 6, 7, 0] []) 4).1).1.Pkt = [5, 6, 7, 0] :=
  have h := C2_match_needs_return (fun _ => 0) 8
    (Packet_GetN (fun _ => 0) 8 (Tower_of 8 [4, 5, 6, 7, 0] []) 4).1 0
    (by decide) (by decide) (by decide) (by decide) (by decide) (by decide) (by decide)
  ⟨by decide, by decide, by decide, by decide, (h.2.2 rfl).1, (h.2.2 rfl).2.1,
    by decide⟩

/-- C3 fails on the code through the missing `return` of `PacketTest`. When
`Packet_Get` consumes a byte `b` while `Position` is 4 and `b` differs from the XOR of
the four data fields, the local `ret_val` is 0, but the call returns false only when
the value received from `PacketTest` is zero; when that value is not zero the call
returns true, resets `Position` to 0 and leaves the four data fields as they were: no
byte is discarded and the mismatching packet is delivered. -/
theorem C3_mismatch_needs_return (rv : PacketVars → Nat) (n : Nat) (s : TowerState)
    (b : Nat)
    (hget : (UART_InChar n s.UART).2 = some b) (hpos : s.Pkt.Position = 4)
    (hc : s.Pkt.Packet_Command < 256) (h1 : s.Pkt.Packet_Parameter1 < 256)
    (h2 : s.Pkt.Packet_Parameter2 < 256) (h3 : s.Pkt.Packet_Parameter3 < 256)
    (hb : b ≠ s.Pkt.Packet_Command ^^^ s.Pkt.Packet_Parameter1 ^^^
      s.Pkt.Packet_Parameter2 ^^^ s.Pkt.Packet_Parameter3) :
    PacketTest_ret_val { s.Pkt with Packet_Checksum := b } = 0 ∧
      (Packet_Get rv n s).2 = decide (rv { s.Pkt with Packet_Checksum := b } ≠ 0) ∧
      (rv { s.Pkt with Packet_Checksum := b } ≠ 0 →
        (Packet_Get rv n s).2 = true ∧ (Packet_Get rv n s).1.Pkt.Position = 0 ∧
        (Packet_Get rv n s).1.Pkt.Packet_Command = s.Pkt.Packet_Command ∧
        (Packet_Get rv n s).1.Pkt.Packet_Parameter1 = s.Pkt.Packet_Parameter1 ∧
        (Packet_Get rv n s).1.Pkt.Packet_Parameter2 = s.Pkt.Packet_Parameter2 ∧
        (Packet_Get rv n s).1.Pkt.Packet_Parameter3 = s.Pkt.Packet_Parameter3) := by
  obtain ⟨g1, g2⟩ := Packet_Get_some rv n s b hget
  have hx := Nat.mod_eq_of_lt (xor4_lt _ _ _ _ hc h1 h2 h3)
  rw [g1, g2]
  generalize s.Pkt = q at *
  obtain ⟨pos, a1, a2, a3, a4, a5⟩ := q
  simp only at hpos hx hb
  subst hpos
  refine ⟨by simp [PacketTest_ret_val, hx, Ne.symm hb], ?_, fun h => ?_⟩
  · by_cases h : rv ⟨4, a1, a2, a3, a4, b⟩ = 0 <;> simp [Packet_Get_switch, PacketTest, h]
  · simp only at h
    simp [Packet_Get_switch, PacketTest, h]

theorem C3_mismatch_needs_return_witness :
    (Packet_GetN (fun _ => 41) 8 (Tower_of 8 [4, 5, 6, 7, 9] []) 4).1.Pkt.Position = 4 ∧
      Packet_window (Packet_GetN (fun _ => 41) 8 (Tower_of 8 [4, 5, 6, 7, 9] []) 4).1.Pkt =
        [4, 5, 6, 7] ∧
      9 ≠ 4 ^^^ 5 ^^^ 6 ^^^ 7 ∧
      PacketTest_ret_val ⟨4, 4, 5, 6, 7, 9⟩ = 0 ∧
      (Packet_Get (fun _ => 41) 8
        (Packet_GetN (fun _ => 41) 8 (Tower_of 8 [4, 5, 6, 7, 9] []) 4).1).2 = true ∧
      (Packet_Get (fun _ => 41) 8
        (Packet_GetN (fun _ => 41) 8 (Tower_of 8 [4, 5, 6, 7, 9] []) 4).1).1.Pkt.Position = 0 ∧
      Packet_window (Packet_Get (fun _ => 41) 8
        (Packet_GetN (fun _ => 41) 8 (Tower_of 8 [4, 5, 6, 7, 9] []) 4).1).1.Pkt = [4, 5, 6, 7] :=
  have h := C3_mismatch_needs_return (fun _ => 41) 8
    (Packet_GetN (fun _ => 41) 8 (Tower_of 8 [4, 5, 6, 7, 9] []) 4).1 9
    (by decide) (by decide) (by decide) (by decide) (by decide) (by decide) (by decide)
  ⟨by decide, by decide, by decide, by decide, (h.2.2 (by decide)).1,
    (h.2.2 (by decide)).2.1, by decide⟩

/-- C5: when the transmit queue has at least five free slots,
`Packet_Put(c,p1,p2,p3)` on bytes returns true and appends to the transmit queue
exactly the five bytes `c`, `p1`, `p2`, `p3`, `c XOR p1 XOR p2 XOR p3`, in that
order. -/
theorem C5_put_frame (n c p1 p2 p3 : Nat) (u : UARTState)
    (hc : c < 256) (h1 : p1 < 256) (h2 : p2 < 256) (h3 : p3 < 256)
    (htx : FIFO_WF n u.TxFIFO) (hroom : u.TxFIFO.NbBytes + 5 ≤ n) :
    (Packet_Put n c p1 p2 p3 u).2 = true ∧
      FIFO_contents n (Packet_Put n c p1 p2 p3 u).1.TxFIFO =
        FIFO_contents n u.TxFIFO ++ [c, p1, p2, p3, c ^^^ p1 ^^^ p2 ^^^ p3] := by
  obtain ⟨hres, _, hput, _⟩ := UART_OutChars_spec n (Packet_frame c p1 p2 p3) u htx
  rw [← Packet_Put_eq] at hres hput
  have hlen : (Packet_frame c p1 p2 p3).length = 5 := rfl
  have htake : (Packet_frame c p1 p2 p3).take (n - u.TxFIFO.NbBytes) = Packet_frame c p1 p2 p3 :=
    List.take_of_length_le (by rw [hlen]; omega)
  have hx := Nat.mod_eq_of_lt (xor4_lt _ _ _ _ hc h1 h2 h3)
  refine ⟨?_, ?_⟩
  · rw [hres, hlen]
    exact decide_eq_true hroom
  · rw [hput, htake]
    simp only [Packet_frame, hx]

theorem C5_put_frame_witness :
    FIFO_WF 8 (Tower_of 8 [] [9, 9]).UART.TxFIFO ∧
      (Packet_Put 8 0x8B 1 2 3 (Tower_of 8 [] [9, 9]).UART).2 = true ∧
      FIFO_contents 8 (Packet_Put 8 0x8B 1 2 3 (Tower_of 8 [] [9, 9]).UART).1.TxFIFO =
        [9, 9, 0x8B, 1, 2, 3, 0x8B] :=
  ⟨by decide, C5_put_frame 8 0x8B 1 2 3 (Tower_of 8 [] [9, 9]).UART
    (by decide) (by decide) (by decide) (by decide) (by decide) (by decide)⟩

/-- C6 as stated fails: with two free slots in the transmit queue `Packet_Put`
returns false after the first two bytes of the packet have been queued. -/
theorem C6_counterexample :
    FIFO_WF 4 (Tower_of 4 [] [9, 9]).UART.TxFIFO ∧
      (Packet_Put 4 1 2 3 4 (Tower_of 4 [] [9, 9]).UART).2 = false ∧
      FIFO_contents 4 (Tower_of 4 [] [9, 9]).UART.TxFIFO = [9, 9] ∧
      FIFO_contents 4 (Packet_Put 4 1 2 3 4 (Tower_of 4 [] [9, 9]).UART).1.TxFIFO = [9, 9, 1, 2] := by
  decide

/-- C6 (amended): `Packet_Put` returns false exactly when the transmit queue has
fewer than five free slots, and then the leading bytes of the packet that fitted (as
many as there were free slots, between none and four) have been appended to the
transmit queue and stay queued; the queue is unchanged only when it was already
full. -/
theorem C6_put_failure (n c p1 p2 p3 : Nat) (u : UARTState) (htx : FIFO_WF n u.TxFIFO) :
    ((Packet_Put n c p1 p2 p3 u).2 = false ↔ n < u.TxFIFO.NbBytes + 5) ∧
      ((Packet_Put n c p1 p2 p3 u).2 = false →
        FIFO_contents n (Packet_Put n c p1 p2 p3 u).1.TxFIFO =
          FIFO_contents n u.TxFIFO ++
            (Packet_frame c p1 p2 p3).take (n - u.TxFIFO.NbBytes) ∧
        n - u.TxFIFO.NbBytes ≤ 4 ∧
        (FIFO_contents n (Packet_Put n c p1 p2 p3 u).1.TxFIFO = FIFO_contents n u.TxFIFO ↔
          u.TxFIFO.NbBytes = n)) := by
  obtain ⟨hres, _, hput, _⟩ := UART_OutChars_spec n (Packet_frame c p1 p2 p3) u htx
  rw [← Packet_Put_eq] at hres hput
  have hlen : (Packet_frame c p1 p2 p3).length = 5 := rfl
  have hle := htx.1.1
  rw [hlen] at hres
  have hiff : (Packet_Put n c p1 p2 p3 u).2 = false ↔ n < u.TxFIFO.NbBytes + 5 := by
    rw [hres, decide_eq_false_iff_not]
    omega
  refine ⟨hiff, fun hf => ⟨hput, ?_, ?_⟩⟩
  · have := hiff.mp hf
    omega
  · rw [hput]
    constructor
    · intro h
      have hl := congrArg List.length h
      rw [List.length_append, List.length_take, hlen] at hl
      have := hiff.mp hf
      omega
    · intro h
      rw [h, Nat.sub_self, List.take_zero, List.append_nil]

theorem C6_put_failure_witness :
    FIFO_WF 4 (Tower_of 4 [] [9, 9]).UART.TxFIFO ∧
      ((Packet_Put 4 1 2 3 4 (Tower_of 4 [] [9, 9]).UART).2 = false ↔ 4 < 2 + 5) ∧
      ((Packet_Put 4 1 2 3 4 (Tower_of 4 [] [9, 9]).UART).2 = false →
        FIFO_contents 4 (Packet_Put 4 1 2 3 4 (Tower_of 4 [] [9, 9]).UART).1.TxFIFO =
          [9, 9] ++ [1, 2] ∧
        4 - 2 ≤ 4 ∧
        (FIFO_contents 4 (Packet_Put 4 1 2 3 4 (Tower_of 4 [] [9, 9]).UART).1.TxFIFO = [9, 9] ↔
          2 = 4)) :=
  ⟨by decide, C6_put_failure 4 1 2 3 4 (Tower_of 4 [] [9, 9]).UART (by decide)⟩

/-! ## Claims on the byte queue -/

/-- C7: for every list of at most `FIFO_SIZE` bytes, after `FIFO_Init` every
`FIFO_Put` of the bytes in order succeeds, and as many `FIFO_Get` calls then all
succeed and deliver the bytes in the order they were put. -/
theorem C7_fifo_order (n : Nat) (f0 : TFIFO) (bs : List Nat) (h : bs.length ≤ n) :
    (FIFO_PutAll n (FIFO_Init f0) bs).2 = List.replicate bs.length true ∧
      (FIFO_GetN n (FIFO_PutAll n (FIFO_Init f0) bs).1 bs.length).2 = bs.map some := by
  rcases Nat.eq_zero_or_pos n with h0 | hpos
  · subst h0
    have hnil : bs = [] := List.length_eq_zero.mp (Nat.le_zero.mp h)
    subst hnil
    simp [FIFO_PutAll, FIFO_GetN]
  · have hwf := FIFO_Init_wf n hpos f0
    have hroom : (FIFO_Init f0).NbBytes + bs.length ≤ n := by
      simpa [FIFO_Init] using h
    obtain ⟨h1, h2, h3⟩ := FIFO_PutAll_room n bs (FIFO_Init f0) hwf hroom
    rw [FIFO_Init_contents, List.nil_append] at h3
    exact ⟨h1, (FIFO_GetN_contents n bs _ h2 [] (by simpa using h3)).1⟩

theorem C7_fifo_order_witness :
    [10, 20, 30].length ≤ 4 ∧
      (FIFO_PutAll 4 (FIFO_Init FIFO_zero) [10, 20, 30]).2 = [true, true, true] ∧
      (FIFO_GetN 4 (FIFO_PutAll 4 (FIFO_Init FIFO_zero) [10, 20, 30]).1 3).2 =
        [some 10, some 20, some 30] :=
  ⟨by decide, C7_fifo_order 4 FIFO_zero [10, 20, 30] (by decide)⟩

/-- C8: after `FIFO_Init`, every sequence of `FIFO_Put` and `FIFO_Get` calls leaves
the queue with `0 <= NbBytes <= FIFO_SIZE`, `Start < FIFO_SIZE` and
`End < FIFO_SIZE`. -/
theorem C8_fifo_invariant (n : Nat) (hn : 0 < n) (f0 : TFIFO) (calls : List FIFOCall) :
    0 ≤ (FIFO_calls n (FIFO_Init f0) calls).NbBytes ∧
      (FIFO_calls n (FIFO_Init f0) calls).NbBytes ≤ n ∧
      (FIFO_calls n (FIFO_Init f0) calls).Start < n ∧
      (FIFO_calls n (FIFO_Init f0) calls).End < n := by
  have step : ∀ (cs : List FIFOCall) (f : TFIFO), FIFO_Inv n f → FIFO_Inv n (FIFO_calls n f cs) := by
    intro cs
    induction cs with
    | nil => intro f hf; exact hf
    | cons c cs ih =>
      intro f hf
      simp only [FIFO_calls, List.foldl_cons]
      apply ih
      cases c with
      | put d => exact FIFO_Put_inv n f d hf
      | get => exact FIFO_Get_inv n f hf
  have h0 : FIFO_Inv n (FIFO_Init f0) := (FIFO_Init_wf n hn f0).1
  exact ⟨Nat.zero_le _, step calls _ h0⟩

theorem C8_fifo_invariant_witness :
    0 < 2 ∧
      (FIFO_calls 2 (FIFO_Init FIFO_zero) [.put 1, .put 2, .put 3, .get, .get, .get, .put 4]).NbBytes ≤ 2 ∧
      (FIFO_calls 2 (FIFO_Init FIFO_zero) [.put 1, .put 2, .put 3, .get, .get, .get, .put 4]).Start < 2 ∧
      (FIFO_calls 2 (FIFO_Init FIFO_zero) [.put 1, .put 2, .put 3, .get, .get, .get, .put 4]).End < 2 :=
  ⟨by decide, (C8_fifo_invariant 2 (by decide) FIFO_zero
    [.put 1, .put 2, .put 3, .get, .get, .get, .put 4]).2⟩

/-- C9: on a queue satisfying the invariant, `FIFO_Put` returns false exactly when
`NbBytes == FIFO_SIZE` (and then leaves the queue as it was); when it returns true
the byte is stored at `Buffer[End]` (no other cell changes), `NbBytes` is
incremented by one, `End` becomes `(End + 1) mod FIFO_SIZE` and `Start` is
unchanged. -/
theorem C9_fifo_put (n : Nat) (f : TFIFO) (d : Nat) (hinv : FIFO_Inv n f) :
    ((FIFO_Put n f d).2 = false ↔ f.NbBytes = n) ∧
      ((FIFO_Put n f d).2 = false → (FIFO_Put n f d).1 = f) ∧
      ((FIFO_Put n f d).2 = true →
        (FIFO_Put n f d).1.Buffer f.End = d ∧
        (∀ i, i ≠ f.End → (FIFO_Put n f d).1.Buffer i = f.Buffer i) ∧
        (FIFO_Put n f d).1.NbBytes = f.NbBytes + 1 ∧
        (FIFO_Put n f d).1.End = (f.End + 1) % n ∧
        (FIFO_Put n f d).1.Start = f.Start) := by
  obtain ⟨h1, h2, h3⟩ := hinv
  have hw := wrap_eq_mod n f.End h3
  by_cases hfull : n ≤ f.NbBytes
  · rw [FIFO_Put_full n f d hfull]
    simp
    omega
  · have hne : f.NbBytes ≠ n := by omega
    simp only [FIFO_Put, ge_iff_le, hfull, if_false, hne, iff_false, Bool.true_eq_false,
      not_false_eq_true, false_implies, true_implies, true_and]
    split
    · rename_i hc
      simp only [hc, if_true] at hw
      exact ⟨Function.update_same _ _ _, fun i hi => Function.update_noteq hi _ _, rfl, hw, rfl⟩
    · rename_i hc
      simp only [hc, if_false] at hw
      exact ⟨Function.update_same _ _ _, fun i hi => Function.update_noteq hi _ _, rfl, hw, rfl⟩

theorem C9_fifo_put_witness :
    FIFO_Inv 2 (FIFO_of 2 [7]) ∧ (FIFO_Put 2 (FIFO_of 2 [7]) 9).2 = true ∧
      (FIFO_Put 2 (FIFO_of 2 [7]) 9).1.Buffer 1 = 9 ∧
      (FIFO_Put 2 (FIFO_of 2 [7]) 9).1.NbBytes = 2 ∧
      (FIFO_Put 2 (FIFO_of 2 [7]) 9).1.End = 0 ∧
      (FIFO_Put 2 (FIFO_of 2 [7]) 9).1.Start = 0 :=
  have h := (C9_fifo_put 2 (FIFO_of 2 [7]) 9 (by decide)).2.2 (by decide)
  ⟨by decide, by decide, h.1, h.2.2.1, h.2.2.2.1, h.2.2.2.2⟩

/-- C10: `FIFO_Get` returns false exactly when `NbBytes == 0` (and then leaves the
queue as it was); when it returns true, on a queue whose `Start` index is inside the
array, the byte delivered is `Buffer[Start]` for the old `Start`, `NbBytes` is
decremented by one, `Start` becomes `(Start + 1) mod FIFO_SIZE`, and `End` and the
storage are unchanged. -/
theorem C10_fifo_get (n : Nat) (f : TFIFO) (hs : f.Start < n) :
    ((FIFO_Get n f).2 = none ↔ f.NbBytes = 0) ∧
      ((FIFO_Get n f).2 = none → (FIFO_Get n f).1 = f) ∧
      ((FIFO_Get n f).2 ≠ none →
        (FIFO_Get n f).2 = some (f.Buffer f.Start) ∧
        (FIFO_Get n f).1.NbBytes = f.NbBytes - 1 ∧
        (FIFO_Get n f).1.Start = (f.Start + 1) % n ∧
        (FIFO_Get n f).1.End = f.End ∧
        (FIFO_Get n f).1.Buffer = f.Buffer) := by
  have hw := wrap_eq_mod n f.Start hs
  by_cases hz : f.NbBytes = 0
  · rw [FIFO_Get_empty n f hz]
    simp [hz]
  · simp only [FIFO_Get, hz, if_false, ge_iff_le, iff_false, reduceCtorEq, not_false_eq_true,
      false_implies, true_implies, true_and, ne_eq]
    split
    · rename_i hc
      simp only [hc, if_true] at hw
      exact ⟨rfl, hw, rfl, rfl⟩
    · rename_i hc
      simp only [hc, if_false] at hw
      exact ⟨rfl, hw, rfl, rfl⟩

theorem C10_fifo_get_witness :
    (FIFO_of 2 [7, 8]).Start < 2 ∧ (FIFO_Get 2 (FIFO_of 2 [7, 8])).2 = some 7 ∧
      (FIFO_Get 2 (FIFO_of 2 [7, 8])).1.NbBytes = 1 ∧
      (FIFO_Get 2 (FIFO_of 2 [7, 8])).1.Start = 1 ∧
      (FIFO_Get 2 (FIFO_of 2 [7, 8])).1.End = 0 :=
  have h := (C10_fifo_get 2 (FIFO_of 2 [7, 8]) (by decide)).2.2 (by decide)
  ⟨by decide, h.1, h.2.1, h.2.2.1, h.2.2.2.1⟩

/-! ## Flash allocation lemmas -/

theorem Flash_AllocateVar_mark_eq (count : Nat) :
    ∀ (map : Nat → Nat) (j k : Nat),
      Flash_AllocateVar_mark map count j k = if j ≤ k ∧ k < j + count then 1 else map k := by
  induction count with
  | zero =>
    intro map j k
    have : ¬ (j ≤ k ∧ k < j + 0) := by omega
    rw [if_neg this]
    rfl
  | succ c ih =>
    intro map j k
    rw [Flash_AllocateVar_mark, ih]
    by_cases h1 : j + 1 ≤ k ∧ k < j + 1 + c
    · have h2 : j ≤ k ∧ k < j + (c + 1) := by omega
      rw [if_pos h1, if_pos h2]
    · rw [if_neg h1]
      by_cases h3 : k = j
      · subst h3
        rw [Function.update_same, if_pos (by omega)]
      · rw [Function.update_noteq h3, if_neg (by omega)]

theorem Flash_freeRun_ge (map : Nat → Nat) (i : Nat) :
    ∀ n, n ≤ Flash_freeRun map i ↔ n ≤ i ∧ ∀ k, i - n ≤ k → k < i → map k = 0 := by
  induction i with
  | zero =>
    intro n
    simp only [Flash_freeRun]
    constructor
    · intro h; exact ⟨h, fun k _ hk => absurd hk (by omega)⟩
    · intro h; exact h.1
  | succ i ih =>
    intro n
    simp only [Flash_freeRun]
    by_cases hm : map i = 0
    · rw [if_pos hm]
      rcases Nat.eq_zero_or_pos n with h0 | hpos
      · subst h0
        constructor
        · intro _; exact ⟨Nat.zero_le _, fun k h1 h2 => absurd h2 (by omega)⟩
        · intro _; exact Nat.zero_le _
      · have hrec := ih (n - 1)
        constructor
        · intro h
          obtain ⟨a, b⟩ := hrec.mp (by omega)
          refine ⟨by omega, fun k h1 h2 => ?_⟩
          by_cases hk : k = i
          · rw [hk]; exact hm
          · exact b k (by omega) (by omega)
        · intro ⟨a, b⟩
          have := hrec.mpr ⟨by omega, fun k h1 h2 => b k (by omega) (by omega)⟩
          omega
    · rw [if_neg hm]
      constructor
      · intro h
        have h0 : n = 0 := by omega
        subst h0
        exact ⟨Nat.zero_le _, fun k h1 h2 => absurd h2 (by omega)⟩
      · intro ⟨a, b⟩
        by_contra hn
        exact hm (b i (by omega) (by omega))

theorem Flash_aligned_prev (size i : Nat) (hs : 0 < size) (h0 : i % size ≠ 0) :
    (i - 1) - (i - 1) % size = i - i % size := by
  have hd := Nat.div_add_mod i size
  have hlt : i % size < size := Nat.mod_lt _ hs
  have hi : i - 1 = size * (i / size) + (i % size - 1) := by omega
  have hm : (i - 1) % size = i % size - 1 := by
    rw [hi, Nat.mul_add_mod, Nat.mod_eq_of_lt (by omega)]
  omega

theorem Flash_aligned_last (size i : Nat) (hs : 0 < size) (h : (i + 1) % size = 0) :
    i - i % size = i + 1 - size ∧ size ≤ i + 1 ∧ (i + 1 - size) % size = 0 := by
  obtain ⟨q, hq⟩ := Nat.dvd_of_mod_eq_zero h
  rcases Nat.eq_zero_or_pos q with hq0 | hqpos
  · rw [hq0, Nat.mul_zero] at hq; omega
  · obtain ⟨q0, rfl⟩ : ∃ q0, q = q0 + 1 := ⟨q - 1, by omega⟩
    rw [Nat.mul_add, Nat.mul_one] at hq
    have hi : i = size * q0 + (size - 1) := by omega
    have hm : i % size = size - 1 := by
      rw [hi, Nat.mul_add_mod, Nat.mod_eq_of_lt (by omega)]
    have hl : i + 1 - size = size * q0 := by omega
    refine ⟨by omega, by omega, ?_⟩
    rw [hl, Nat.mul_mod_right]

theorem Flash_AllocateVar_loop_spec (FLASH_DATA_SIZE size : Nat) (hs : 0 < size)
    (map : Nat → Nat) :
    ∀ left i sequential location, i + left = FLASH_DATA_SIZE →
      sequential = Flash_freeRun map i →
      (0 < i → location = (i - 1) - (i - 1) % size) →
      (∀ o, o + size ≤ i → ¬ Flash_FreeAt FLASH_DATA_SIZE size map o) →
      ((Flash_AllocateVar_loop size map left i sequential location).2 = none →
        (Flash_AllocateVar_loop size map left i sequential location).1 = map ∧
        ∀ o, ¬ Flash_FreeAt FLASH_DATA_SIZE size map o) ∧
      (∀ l, (Flash_AllocateVar_loop size map left i sequential location).2 = some l →
        Flash_FreeAt FLASH_DATA_SIZE size map l ∧
        (∀ o, Flash_FreeAt FLASH_DATA_SIZE size map o → l ≤ o) ∧
        ∀ k, (Flash_AllocateVar_loop size map left i sequential location).1 k =
          if l ≤ k ∧ k < l + size then 1 else map k) := by
  intro left
  induction left with
  | zero =>
    intro i sequential location hi _ _ hno
    have e : Flash_AllocateVar_loop size map 0 i sequential location = (map, none) := rfl
    rw [e]
    refine ⟨fun _ => ⟨rfl, fun o ho => hno o (by have := ho.2.1; omega) ho⟩, ?_⟩
    intro l hl
    simp at hl
  | succ left ih =>
    intro i sequential location hi hseq hloc hno
    have hseq1 : (if map i = 0 then sequential + 1 else 0) = Flash_freeRun map (i + 1) := by
      simp only [Flash_freeRun, hseq]
    have hloc1 : (if i % size = 0 then i else location) = i - i % size := by
      split
      · rename_i h0; rw [h0]; rfl
      · rename_i h0
        have hipos : 0 < i := by
          rcases Nat.eq_zero_or_pos i with h | h
          · rw [h, Nat.zero_mod] at h0; exact absurd rfl h0
          · exact h
        rw [hloc hipos]
        exact Flash_aligned_prev size i hs h0
    simp only [Flash_AllocateVar_loop, hseq1, hloc1, ge_iff_le]
    by_cases hc : size ≤ Flash_freeRun map (i + 1) ∧ (i + 1) % size = 0
    · rw [if_pos hc]
      obtain ⟨a1, a2, a3⟩ := Flash_aligned_last size i hs hc.2
      obtain ⟨_, hfree⟩ := (Flash_freeRun_ge map (i + 1) size).mp hc.1
      refine ⟨fun h => by simp at h, ?_⟩
      intro l hl
      simp only [Option.some.injEq] at hl
      subst hl
      rw [a1]
      refine ⟨⟨a3, by omega, fun k h1 h2 => hfree k h1 (by omega)⟩, ?_, ?_⟩
      · intro o ho
        by_contra hlt
        exact hno o (by omega) ho
      · intro k
        show Flash_AllocateVar_mark map (i + 1 - (i + 1 - size)) (i + 1 - size) k = _
        rw [Flash_AllocateVar_mark_eq]
        have e : i + 1 - (i + 1 - size) = size := by omega
        rw [e]
    · rw [if_neg hc]
      apply ih (i + 1) _ _ (by omega) rfl
      · intro _
        simp only [Nat.add_sub_cancel]
      · intro o ho hfr
        rcases Nat.lt_or_ge (o + size) (i + 1) with h1 | h1
        · exact hno o (by omega) hfr
        · have heq : o + size = i + 1 := by omega
          apply hc
          constructor
          · rw [Flash_freeRun_ge]
            refine ⟨by omega, fun k h2 h3 => hfr.2.2 k (by omega) (by omega)⟩
          · rw [← heq, Nat.add_mod_right]
            exact hfr.1

theorem Flash_AllocateVar_spec (FLASH_DATA_START FLASH_DATA_SIZE size : Nat) (hs : 0 < size)
    (map : Nat → Nat) :
    ((Flash_AllocateVar FLASH_DATA_START FLASH_DATA_SIZE size map).2 = none →
      (Flash_AllocateVar FLASH_DATA_START FLASH_DATA_SIZE size map).1 = map ∧
      ∀ o, ¬ Flash_FreeAt FLASH_DATA_SIZE size map o) ∧
    (∀ p, (Flash_AllocateVar FLASH_DATA_START FLASH_DATA_SIZE size map).2 = some p →
      ∃ l, p = (FLASH_DATA_START + l) % 2 ^ 32 ∧
        Flash_FreeAt FLASH_DATA_SIZE size map l ∧
        (∀ o, Flash_FreeAt FLASH_DATA_SIZE size map o → l ≤ o) ∧
        ∀ k, (Flash_AllocateVar FLASH_DATA_START FLASH_DATA_SIZE size map).1 k =
          if l ≤ k ∧ k < l + size then 1 else map k) := by
  obtain ⟨h1, h2⟩ := Flash_AllocateVar_loop_spec FLASH_DATA_SIZE size hs map FLASH_DATA_SIZE 0 0 0
    (by omega) rfl (fun h => absurd h (by omega))
    (fun o ho hfr => by have := hfr.1; have := hfr.2.1; omega)
  simp only [Flash_AllocateVar]
  constructor
  · intro hn
    rw [Option.map_eq_none'] at hn
    exact h1 hn
  · intro p hp
    rw [Option.map_eq_some'] at hp
    obtain ⟨l, hl, rfl⟩ := hp
    exact ⟨l, rfl, h2 l hl⟩

theorem Flash_AllocateVar_eq (FLASH_DATA_START FLASH_DATA_SIZE size : Nat) (hs : 0 < size)
    (map : Nat → Nat) (o : Nat) (hfree : Flash_FreeAt FLASH_DATA_SIZE size map o)
    (hmin : ∀ q, Flash_FreeAt FLASH_DATA_SIZE size map q → o ≤ q) :
    Flash_AllocateVar FLASH_DATA_START FLASH_DATA_SIZE size map =
      (fun k => if o ≤ k ∧ k < o + size then 1 else map k,
        some ((FLASH_DATA_START + o) % 2 ^ 32)) := by
  obtain ⟨h1, h2⟩ := Flash_AllocateVar_spec FLASH_DATA_START FLASH_DATA_SIZE size hs map
  rcases hr : (Flash_AllocateVar FLASH_DATA_START FLASH_DATA_SIZE size map).2 with _ | p
  · exact absurd hfree ((h1 hr).2 o)
  · obtain ⟨l, hp, hl, hlmin, hmap⟩ := h2 p hr
    have hlo : l = o := Nat.le_antisymm (hlmin o hfree) (hmin l hl)
    subst hlo
    apply Prod.ext
    · funext k; exact hmap k
    · rw [hr, hp]

theorem Flash_AllocateVars_free (FLASH_DATA_START FLASH_DATA_SIZE : Nat)
    (hfit : FLASH_DATA_START + FLASH_DATA_SIZE ≤ 2 ^ 32) :
    ∀ (sizes : List Nat) (map : Nat → Nat), (∀ s ∈ sizes, 0 < s) →
      (∀ k, map k ≠ 0 →
        (Flash_AllocateVars FLASH_DATA_START FLASH_DATA_SIZE map sizes).1 k ≠ 0) ∧
      ∀ p ∈ (Flash_AllocateVars FLASH_DATA_START FLASH_DATA_SIZE map sizes).2,
        0 < p.2 ∧ FLASH_DATA_START ≤ p.1 ∧ (p.1 - FLASH_DATA_START) % p.2 = 0 ∧
        p.1 + p.2 ≤ FLASH_DATA_START + FLASH_DATA_SIZE ∧
        ∀ k, p.1 ≤ FLASH_DATA_START + k → FLASH_DATA_START + k < p.1 + p.2 → map k = 0 := by
  intro sizes
  induction sizes with
  | nil =>
    intro map _
    simp [Flash_AllocateVars]
  | cons size sizes ih =>
    intro map hpos
    have hs : 0 < size := hpos size (List.mem_cons_self _ _)
    have hrest : ∀ s ∈ sizes, 0 < s := fun s h => hpos s (List.mem_cons_of_mem _ h)
    obtain ⟨h1, h2⟩ := Flash_AllocateVar_spec FLASH_DATA_START FLASH_DATA_SIZE size hs map
    rcases hr : Flash_AllocateVar FLASH_DATA_START FLASH_DATA_SIZE size map with ⟨map1, _ | p⟩
    · rw [hr] at h1
      obtain ⟨hm, _⟩ := h1 rfl
      simp only at hm
      subst hm
      simp only [Flash_AllocateVars, hr]
      exact ih map1 hrest
    · rw [hr] at h2
      obtain ⟨l, hp, hl, _, hmap⟩ := h2 p rfl
      simp only at hmap
      obtain ⟨i1, i2⟩ := ih map1 hrest
      have hle := hl.2.1
      have hpl : p = FLASH_DATA_START + l := by
        rw [hp, Nat.mod_eq_of_lt (by omega)]
      simp only [Flash_AllocateVars, hr]
      constructor
      · intro k hk
        apply i1 k
        rw [hmap k]
        split
        · exact Nat.one_ne_zero
        · exact hk
      · intro q hq
        rw [List.mem_cons] at hq
        rcases hq with rfl | hq
        · refine ⟨hs, by simp only; omega, ?_, by simp only; omega, ?_⟩
          · simp only [hpl, Nat.add_sub_cancel_left]
            exact hl.1
          · intro k a b
            simp only at a b
            exact hl.2.2 k (by omega) (by omega)
        · obtain ⟨j1, j2, j3, j4, j5⟩ := i2 q hq
          refine ⟨j1, j2, j3, j4, fun k a b => ?_⟩
          have h0 := j5 k a b
          rw [hmap k] at h0
          split at h0
          · exact absurd h0 Nat.one_ne_zero
          · exact h0

theorem Flash_AllocateVars_pairwise (FLASH_DATA_START FLASH_DATA_SIZE : Nat)
    (hfit : FLASH_DATA_START + FLASH_DATA_SIZE ≤ 2 ^ 32) :
    ∀ (sizes : List Nat) (map : Nat → Nat), (∀ s ∈ sizes, 0 < s) →
      (Flash_AllocateVars FLASH_DATA_START FLASH_DATA_SIZE map sizes).2.Pairwise
        (fun p q => p.1 + p.2 ≤ q.1 ∨ q.1 + q.2 ≤ p.1) := by
  intro sizes
  induction sizes with
  | nil =>
    intro map _
    simp [Flash_AllocateVars]
  | cons size sizes ih =>
    intro map hpos
    have hs : 0 < size := hpos size (List.mem_cons_self _ _)
    have hrest : ∀ s ∈ sizes, 0 < s := fun s h => hpos s (List.mem_cons_of_mem _ h)
    obtain ⟨_, h2⟩ := Flash_AllocateVar_spec FLASH_DATA_START FLASH_DATA_SIZE size hs map
    rcases hr : Flash_AllocateVar FLASH_DATA_START FLASH_DATA_SIZE size map with ⟨map1, _ | p⟩
    · simp only [Flash_AllocateVars, hr]
      exact ih map1 hrest
    · rw [hr] at h2
      obtain ⟨l, hp, hl, _, hmap⟩ := h2 p rfl
      simp only at hmap
      have hle := hl.2.1
      have hpl : p = FLASH_DATA_START + l := by
        rw [hp, Nat.mod_eq_of_lt (by omega)]
      simp only [Flash_AllocateVars, hr]
      rw [List.pairwise_cons]
      refine ⟨?_, ih map1 hrest⟩
      intro q hq
      obtain ⟨j1, j2, _, _, j5⟩ :=
        (Flash_AllocateVars_free FLASH_DATA_START FLASH_DATA_SIZE hfit sizes map1 hrest).2 q hq
      simp only
      by_contra hov
      have hk := j5 (max p q.1 - FLASH_DATA_START) (by omega) (by omega)
      rw [hmap] at hk
      rw [if_pos (by omega)] at hk
      exact absurd hk Nat.one_ne_zero

/-! ## Claims on the flash allocator -/

/-- C11: for every allocation map and every size of at least one byte (in particular
1, 2 and 4), `Flash_AllocateVar` succeeds exactly when some offset that is a multiple
of the size has all its `size` bytes free inside the block; on success the pointer
delivered is `FLASH_DATA_START` plus the smallest such offset, and exactly the bytes
of that run change to allocated, every other map entry keeping its value. -/
theorem C11_allocate (FLASH_DATA_START FLASH_DATA_SIZE size : Nat) (hs : 0 < size)
    (map : Nat → Nat) :
    ((Flash_AllocateVar FLASH_DATA_START FLASH_DATA_SIZE size map).2 ≠ none ↔
      ∃ o, Flash_FreeAt FLASH_DATA_SIZE size map o) ∧
    (∀ p, (Flash_AllocateVar FLASH_DATA_START FLASH_DATA_SIZE size map).2 = some p →
      ∃ o, p = (FLASH_DATA_START + o) % 2 ^ 32 ∧
        Flash_FreeAt FLASH_DATA_SIZE size map o ∧
        (∀ q, Flash_FreeAt FLASH_DATA_SIZE size map q → o ≤ q) ∧
        ∀ k, (Flash_AllocateVar FLASH_DATA_START FLASH_DATA_SIZE size map).1 k =
          if o ≤ k ∧ k < o + size then 1 else map k) := by
  obtain ⟨h1, h2⟩ := Flash_AllocateVar_spec FLASH_DATA_START FLASH_DATA_SIZE size hs map
  refine ⟨⟨?_, ?_⟩, h2⟩
  · intro hne
    rcases hr : (Flash_AllocateVar FLASH_DATA_START FLASH_DATA_SIZE size map).2 with _ | p
    · exact absurd hr hne
    · obtain ⟨l, _, hl, _⟩ := h2 p hr
      exact ⟨l, hl⟩
  · intro ⟨o, ho⟩ hnone
    exact (h1 hnone).2 o ho

theorem C11_allocate_witness :
    0 < 2 ∧
      (Flash_AllocateVar 0x80000 8 2 (fun k => if k = 0 then 1 else 0)).2 = some 0x80002 ∧
      (∃ o, 0x80002 = (0x80000 + o) % 2 ^ 32 ∧
        Flash_FreeAt 8 2 (fun k => if k = 0 then 1 else 0) o ∧
        (∀ q, Flash_FreeAt 8 2 (fun k => if k = 0 then 1 else 0) q → o ≤ q) ∧
        ∀ k, (Flash_AllocateVar 0x80000 8 2 (fun k => if k = 0 then 1 else 0)).1 k =
          if o ≤ k ∧ k < o + 2 then 1 else (fun k => if k = 0 then 1 else 0) k) :=
  ⟨by decide, by decide,
    (C11_allocate 0x80000 8 2 (by decide) (fun k => if k = 0 then 1 else 0)).2 0x80002
      (by decide)⟩

/-- C12: for every sequence of `Flash_AllocateVar` calls with sizes in {1,2,4} starting
from the all-free allocation map, every successful call delivers a pointer whose
offset from `FLASH_DATA_START` is divisible by its size, and the byte ranges of all
successful calls are pairwise disjoint; in a block of at least eight bytes the calls
with sizes 1, 2, 4 deliver the offsets 0, 2 and 4. -/
theorem C12_allocations_disjoint (FLASH_DATA_START FLASH_DATA_SIZE : Nat)
    (hfit : FLASH_DATA_START + FLASH_DATA_SIZE ≤ 2 ^ 32) (sizes : List Nat)
    (hsizes : ∀ s ∈ sizes, s = 1 ∨ s = 2 ∨ s = 4) :
    (∀ p ∈ (Flash_AllocateVars FLASH_DATA_START FLASH_DATA_SIZE Flash_emptyMap sizes).2,
      FLASH_DATA_START ≤ p.1 ∧ (p.1 - FLASH_DATA_START) % p.2 = 0 ∧
      p.1 + p.2 ≤ FLASH_DATA_START + FLASH_DATA_SIZE) ∧
    (Flash_AllocateVars FLASH_DATA_START FLASH_DATA_SIZE Flash_emptyMap sizes).2.Pairwise
      (fun p q => p.1 + p.2 ≤ q.1 ∨ q.1 + q.2 ≤ p.1) ∧
    (8 ≤ FLASH_DATA_SIZE →
      (Flash_AllocateVars FLASH_DATA_START FLASH_DATA_SIZE Flash_emptyMap [1, 2, 4]).2 =
        [(FLASH_DATA_START, 1), (FLASH_DATA_START + 2, 2), (FLASH_DATA_START + 4, 4)]) := by
  have hpos : ∀ s ∈ sizes, 0 < s := by
    intro s h
    rcases hsizes s h with h1 | h1 | h1 <;> omega
  refine ⟨?_, Flash_AllocateVars_pairwise _ _ hfit sizes _ hpos, ?_⟩
  · intro p hp
    obtain ⟨_, a, b, c, _⟩ :=
      (Flash_AllocateVars_free FLASH_DATA_START FLASH_DATA_SIZE hfit sizes _ hpos).2 p hp
    exact ⟨a, b, c⟩
  · intro h8
    have e1 := Flash_AllocateVar_eq FLASH_DATA_START FLASH_DATA_SIZE 1 (by omega) Flash_emptyMap 0
      ⟨by omega, by omega, fun k _ _ => rfl⟩ (fun q _ => Nat.zero_le q)
    have e2 := Flash_AllocateVar_eq FLASH_DATA_START FLASH_DATA_SIZE 2 (by omega)
      (fun k => if 0 ≤ k ∧ k < 0 + 1 then 1 else Flash_emptyMap k) 2
      ⟨by omega, by omega, fun k a b => by
        simp only
        rw [if_neg (by omega)]; rfl⟩
      (fun q hq => by
        by_contra hlt
        have hq0 : q = 0 := by have := hq.1; omega
        have := hq.2.2 0 (by omega) (by omega)
        simp at this)
    have e3 := Flash_AllocateVar_eq FLASH_DATA_START FLASH_DATA_SIZE 4 (by omega)
      (fun k => if 2 ≤ k ∧ k < 2 + 2 then 1 else
        (fun k => if 0 ≤ k ∧ k < 0 + 1 then 1 else Flash_emptyMap k) k) 4
      ⟨by omega, by omega, fun k a b => by
        simp only
        rw [if_neg (by omega), if_neg (by omega)]; rfl⟩
      (fun q hq => by
        by_contra hlt
        have hq0 : q = 0 := by have := hq.1; omega
        have := hq.2.2 0 (by omega) (by omega)
        simp at this)
    simp only [Flash_AllocateVars, e1, e2, e3]
    have m0 : (FLASH_DATA_START + 0) % 2 ^ 32 = FLASH_DATA_START := by
      rw [Nat.add_zero, Nat.mod_eq_of_lt (by omega)]
    have m2 : (FLASH_DATA_START + 2) % 2 ^ 32 = FLASH_DATA_START + 2 :=
      Nat.mod_eq_of_lt (by omega)
    have m4 : (FLASH_DATA_START + 4) % 2 ^ 32 = FLASH_DATA_START + 4 :=
      Nat.mod_eq_of_lt (by omega)
    rw [m0, m2, m4]

theorem C12_allocations_disjoint_witness :
    0x80000 + 8 ≤ 2 ^ 32 ∧
      (Flash_AllocateVars 0x80000 8 Flash_emptyMap [1, 2, 4, 2]).2 =
        [(0x80000, 1), (0x80002, 2), (0x80004, 4)] ∧
      (Flash_AllocateVars 0x80000 8 Flash_emptyMap [1, 2, 4, 2]).2.Pairwise
        (fun p q => p.1 + p.2 ≤ q.1 ∨ q.1 + q.2 ≤ p.1) :=
  ⟨by decide, by decide,
    (C12_allocations_disjoint 0x80000 8 (by decide) [1, 2, 4, 2] (by decide)).2.1⟩

/-- C13: whenever `Flash_AllocateVar` returns false, no aligned free run of the
requested size exists, the allocation map is what it was before the call, and nothing
is written through the caller's variable pointer. -/
theorem C13_allocate_failure (FLASH_DATA_START FLASH_DATA_SIZE size : Nat) (hs : 0 < size)
    (map : Nat → Nat)
    (hfail : (Flash_AllocateVar FLASH_DATA_START FLASH_DATA_SIZE size map).2 = none) :
    Flash_AllocateVar FLASH_DATA_START FLASH_DATA_SIZE size map = (map, none) ∧
      ∀ o, ¬ Flash_FreeAt FLASH_DATA_SIZE size map o := by
  obtain ⟨h1, _⟩ := Flash_AllocateVar_spec FLASH_DATA_START FLASH_DATA_SIZE size hs map
  obtain ⟨a, b⟩ := h1 hfail
  exact ⟨Prod.ext a hfail, b⟩

theorem C13_allocate_failure_witness :
    0 < 4 ∧ (Flash_AllocateVar 0x80000 8 4 (fun k => if k = 1 ∨ k = 6 then 1 else 0)).2 = none ∧
      (Flash_AllocateVar 0x80000 8 4 (fun k => if k = 1 ∨ k = 6 then 1 else 0)).1 =
        (fun k => if k = 1 ∨ k = 6 then 1 else 0) :=
  ⟨by decide, by decide,
    congrArg Prod.fst (C13_allocate_failure 0x80000 8 4 (by decide)
      (fun k => if k = 1 ∨ k = 6 then 1 else 0) (by decide)).1⟩

/-! ## Flash writer lemmas -/

theorem Flash_Erase_frame (FLASH_DATA_START : Nat) (s : FlashState) :
    (Flash_Erase FLASH_DATA_START s).2 = true ∧
      (Flash_Erase FLASH_DATA_START s).1.AllocationMap = s.AllocationMap ∧
      (Flash_Erase FLASH_DATA_START s).1.Status = s.Status ∧
      (Flash_Erase FLASH_DATA_START s).1.Commands = s.Commands + 1 ∧
      (s.Status s.Commands &&& FTFE_FSTAT_ERROR_MASKS = 0 →
        (Flash_Erase FLASH_DATA_START s).1.Block = fun _ => 0xFF) := by
  refine ⟨rfl, rfl, rfl, rfl, ?_⟩
  intro h
  simp [Flash_Erase, EraseSector, SetCCIF, WaitCCIF, FTFE_run, h]

theorem WritePhrase_ok (FLASH_DATA_START : Nat) (phrase : Nat → Nat) (s : FlashState)
    (h2 : s.Status (s.Commands + 1) &&& FTFE_FSTAT_ERROR_MASKS = 0) :
    (WritePhrase FLASH_DATA_START phrase s).1.AllocationMap = s.AllocationMap ∧
      ∀ k, k < 8 → (WritePhrase FLASH_DATA_START phrase s).1.Block k = phrase k := by
  refine ⟨rfl, ?_⟩
  intro k hk
  have e : (WritePhrase FLASH_DATA_START phrase s).1.Block = FTFE_program
      { (Flash_Erase FLASH_DATA_START s).1 with
        FCCOB := Function.update (Function.update (Function.update (Function.update
          (Function.update (Function.update (Function.update (Function.update
          (Function.update (Function.update (Function.update (Function.update
            (Flash_Erase FLASH_DATA_START s).1.FCCOB 0 FLASH_CMD_PGM8)
            1 (FLASH_DATA_START / 65536 % 256)) 2 (FLASH_DATA_START / 256 % 256))
            3 (FLASH_DATA_START % 256 &&& 0xF8)) 4 (phrase 3)) 5 (phrase 2)) 6 (phrase 1))
            7 (phrase 0)) 8 (phrase 7)) 9 (phrase 6)) 10 (phrase 5)) 11 (phrase 4) } := by
    simp [WritePhrase, Flash_Erase, EraseSector, SetCCIF, WaitCCIF, HandleRegisters, FTFE_run,
      h2, FLASH_CMD_PGM8, FLASH_CMD_ERSSCR]
  rw [e]
  simp only [FTFE_program]
  interval_cases k <;> simp [Function.update]


theorem Flash_index_in (FLASH_DATA_START o : Nat) (h : FLASH_DATA_START + o < 2 ^ 32) :
    Flash_index FLASH_DATA_START (FLASH_DATA_START + o) = o := by
  unfold Flash_index
  omega

theorem Flash_Write8_ok (FLASH_DATA_START FLASH_DATA_SIZE o data : Nat) (s : FlashState)
    (hfit : FLASH_DATA_START + FLASH_DATA_SIZE ≤ 2 ^ 32)
    (ho : o < FLASH_DATA_SIZE)
    (hdev : s.Status (s.Commands + 1) &&& FTFE_FSTAT_ERROR_MASKS = 0) :
    (Flash_Write8 FLASH_DATA_START FLASH_DATA_SIZE (FLASH_DATA_START + o) data s).2 = true ∧
      (Flash_Write8 FLASH_DATA_START FLASH_DATA_SIZE (FLASH_DATA_START + o) data s).1.AllocationMap =
        s.AllocationMap ∧
      ∀ k, k < 8 →
        (Flash_Write8 FLASH_DATA_START FLASH_DATA_SIZE (FLASH_DATA_START + o) data s).1.Block k =
          if k = o then data else s.Block k := by
  have hi := Flash_index_in FLASH_DATA_START o (by omega)
  have hge : ¬ o ≥ FLASH_DATA_SIZE := by omega
  obtain ⟨w1, w2⟩ := WritePhrase_ok FLASH_DATA_START
    (Function.update (ReadPhrase s) o data) s hdev
  simp only [Flash_Write8, hi, hge, if_false]
  refine ⟨trivial, w1, fun k hk => ?_⟩
  rw [w2 k hk]
  by_cases h : k = o
  · rw [if_pos h, h, Function.update_same]
  · rw [if_neg h, Function.update_noteq h]
    rfl

theorem Flash_Write16_ok (FLASH_DATA_START FLASH_DATA_SIZE o data : Nat) (s : FlashState)
    (hfit : FLASH_DATA_START + FLASH_DATA_SIZE ≤ 2 ^ 32)
    (ho : o < FLASH_DATA_SIZE) (hal : o % 2 = 0)
    (hdev : s.Status (s.Commands + 1) &&& FTFE_FSTAT_ERROR_MASKS = 0) :
    (Flash_Write16 FLASH_DATA_START FLASH_DATA_SIZE (FLASH_DATA_START + o) data s).2 = true ∧
      (Flash_Write16 FLASH_DATA_START FLASH_DATA_SIZE (FLASH_DATA_START + o) data s).1.AllocationMap =
        s.AllocationMap ∧
      ∀ k, k < 8 →
        (Flash_Write16 FLASH_DATA_START FLASH_DATA_SIZE (FLASH_DATA_START + o) data s).1.Block k =
          if k = o then data % 256 else if k = o + 1 then data / 256 % 256 else s.Block k := by
  have hi := Flash_index_in FLASH_DATA_START o (by omega)
  have hge : ¬ o ≥ FLASH_DATA_SIZE := by omega
  have h2 : 2 * (o / 2) = o := by omega
  obtain ⟨w1, w2⟩ := WritePhrase_ok FLASH_DATA_START
    (Function.update (Function.update (ReadPhrase s) o (data % 256)) (o + 1) (data / 256 % 256))
    s hdev
  simp only [Flash_Write16, hi, hge, if_false, hal, ne_eq, not_true_eq_false, h2]
  refine ⟨trivial, w1, fun k hk => ?_⟩
  rw [w2 k hk]
  by_cases ha : k = o
  · rw [if_pos ha, ha, Function.update_noteq (by omega), Function.update_same]
  · rw [if_neg ha]
    by_cases hb : k = o + 1
    · rw [if_pos hb, hb, Function.update_same]
    · rw [if_neg hb, Function.update_noteq hb, Function.update_noteq ha]
      rfl

theorem Flash_Write32_ok (FLASH_DATA_START FLASH_DATA_SIZE o data : Nat) (s : FlashState)
    (hfit : FLASH_DATA_START + FLASH_DATA_SIZE ≤ 2 ^ 32)
    (ho : o < FLASH_DATA_SIZE) (hal : o % 4 = 0)
    (hdev : s.Status (s.Commands + 1) &&& FTFE_FSTAT_ERROR_MASKS = 0) :
    (Flash_Write32 FLASH_DATA_START FLASH_DATA_SIZE (FLASH_DATA_START + o) data s).2 = true ∧
      (Flash_Write32 FLASH_DATA_START FLASH_DATA_SIZE (FLASH_DATA_START + o) data s).1.AllocationMap =
        s.AllocationMap ∧
      ∀ k, k < 8 →
        (Flash_Write32 FLASH_DATA_START FLASH_DATA_SIZE (FLASH_DATA_START + o) data s).1.Block k =
          if k = o then data % 256 else if k = o + 1 then data / 256 % 256
          else if k = o + 2 then data / 65536 % 256
          else if k = o + 3 then data / 16777216 % 256 else s.Block k := by
  have hi := Flash_index_in FLASH_DATA_START o (by omega)
  have hge : ¬ o ≥ FLASH_DATA_SIZE := by omega
  have h4 : 4 * (o / 4) = o := by omega
  obtain ⟨w1, w2⟩ := WritePhrase_ok FLASH_DATA_START
    (Function.update (Function.update (Function.update (Function.update (ReadPhrase s)
      o (data % 256)) (o + 1) (data / 256 % 256)) (o + 2) (data / 65536 % 256))
      (o + 3) (data / 16777216 % 256)) s hdev
  simp only [Flash_Write32, hi, hge, if_false, hal, ne_eq, not_true_eq_false, h4]
  refine ⟨trivial, w1, fun k hk => ?_⟩
  rw [w2 k hk]
  by_cases ha : k = o
  · rw [if_pos ha, ha, Function.update_noteq (by omega), Function.update_noteq (by omega),
      Function.update_noteq (by omega), Function.update_same]
  · rw [if_neg ha]
    by_cases hb : k = o + 1
    · rw [if_pos hb, hb, Function.update_noteq (by omega), Function.update_noteq (by omega),
        Function.update_same]
    · rw [if_neg hb]
      by_cases hc : k = o + 2
      · rw [if_pos hc, hc, Function.update_noteq (by omega), Function.update_same]
      · rw [if_neg hc]
        by_cases hd : k = o + 3
        · rw [if_pos hd, hd, Function.update_same]
        · rw [if_neg hd, Function.update_noteq hd, Function.update_noteq hc,
            Function.update_noteq hb, Function.update_noteq ha]
          rfl

/-! ## Claims on the flash writer -/

/-- C14: for every in-range offset divisible by the size and every value of that size,
a `Flash_Write8/16/32` at that offset returns true and, when the controller raises no
error flag for the program command, a following read of the same size at the same
offset gives the written value (the block is the 8-byte phrase; erase blanks it and
program stores the eight bytes handed over). -/
theorem C14_write_read (FLASH_DATA_START FLASH_DATA_SIZE o : Nat) (s : FlashState)
    (hfit8 : FLASH_DATA_START + 8 ≤ 2 ^ 32) (hsize : FLASH_DATA_SIZE ≤ 8)
    (ho : o < FLASH_DATA_SIZE)
    (hdev : s.Status (s.Commands + 1) &&& FTFE_FSTAT_ERROR_MASKS = 0) :
    (∀ data, data < 256 →
      (Flash_Write8 FLASH_DATA_START FLASH_DATA_SIZE (FLASH_DATA_START + o) data s).2 = true ∧
      Flash_FB FLASH_DATA_START
        (Flash_Write8 FLASH_DATA_START FLASH_DATA_SIZE (FLASH_DATA_START + o) data s).1
        (FLASH_DATA_START + o) = data) ∧
    (o % 2 = 0 → ∀ data, data < 65536 →
      (Flash_Write16 FLASH_DATA_START FLASH_DATA_SIZE (FLASH_DATA_START + o) data s).2 = true ∧
      Flash_FH FLASH_DATA_START
        (Flash_Write16 FLASH_DATA_START FLASH_DATA_SIZE (FLASH_DATA_START + o) data s).1
        (FLASH_DATA_START + o) = data) ∧
    (o % 4 = 0 → ∀ data, data < 4294967296 →
      (Flash_Write32 FLASH_DATA_START FLASH_DATA_SIZE (FLASH_DATA_START + o) data s).2 = true ∧
      Flash_FW FLASH_DATA_START
        (Flash_Write32 FLASH_DATA_START FLASH_DATA_SIZE (FLASH_DATA_START + o) data s).1
        (FLASH_DATA_START + o) = data) := by
  have hfit : FLASH_DATA_START + FLASH_DATA_SIZE ≤ 2 ^ 32 := by omega
  have i0 := Flash_index_in FLASH_DATA_START o (by omega)
  refine ⟨?_, ?_, ?_⟩
  · intro data _
    obtain ⟨a, _, c⟩ := Flash_Write8_ok FLASH_DATA_START FLASH_DATA_SIZE o data s hfit ho hdev
    refine ⟨a, ?_⟩
    rw [Flash_FB, i0, c o (by omega), if_pos rfl]
  · intro hal data hd
    obtain ⟨a, _, c⟩ := Flash_Write16_ok FLASH_DATA_START FLASH_DATA_SIZE o data s hfit ho hal hdev
    have i1 : Flash_index FLASH_DATA_START (FLASH_DATA_START + o + 1) = o + 1 := by
      rw [Nat.add_assoc]; exact Flash_index_in FLASH_DATA_START (o + 1) (by omega)
    refine ⟨a, ?_⟩
    rw [Flash_FH, Flash_FB, Flash_FB, i0, i1, c o (by omega), c (o + 1) (by omega), if_pos rfl,
      if_neg (by omega), if_pos rfl]
    omega
  · intro hal data hd
    obtain ⟨a, _, c⟩ := Flash_Write32_ok FLASH_DATA_START FLASH_DATA_SIZE o data s hfit ho hal hdev
    have i1 : Flash_index FLASH_DATA_START (FLASH_DATA_START + o + 1) = o + 1 := by
      rw [Nat.add_assoc]; exact Flash_index_in FLASH_DATA_START (o + 1) (by omega)
    have i2 : Flash_index FLASH_DATA_START (FLASH_DATA_START + o + 2) = o + 2 := by
      rw [Nat.add_assoc]; exact Flash_index_in FLASH_DATA_START (o + 2) (by omega)
    have i3 : Flash_index FLASH_DATA_START (FLASH_DATA_START + o + 3) = o + 3 := by
      rw [Nat.add_assoc]; exact Flash_index_in FLASH_DATA_START (o + 3) (by omega)
    refine ⟨a, ?_⟩
    rw [Flash_FW, Flash_FB, Flash_FB, Flash_FB, Flash_FB, i0, i1, i2, i3, c o (by omega),
      c (o + 1) (by omega), c (o + 2) (by omega), c (o + 3) (by omega), if_pos rfl,
      if_neg (by omega), if_pos rfl, if_neg (by omega), if_neg (by omega), if_pos rfl,
      if_neg (by omega), if_neg (by omega), if_neg (by omega), if_pos rfl]
    omega

theorem C14_write_read_witness :
    0x80000 + 8 ≤ 2 ^ 32 ∧ (Flash_blank 0).Status 1 &&& FTFE_FSTAT_ERROR_MASKS = 0 ∧
      Flash_FB 0x80000 (Flash_Write8 0x80000 8 (0x80000 + 6) 0x5A (Flash_blank 0)).1
        (0x80000 + 6) = 0x5A ∧
      Flash_FH 0x80000 (Flash_Write16 0x80000 8 (0x80000 + 6) 0x09C7 (Flash_blank 0)).1
        (0x80000 + 6) = 0x09C7 :=
  have h := C14_write_read 0x80000 8 6 (Flash_blank 0) (by decide) (by decide) (by decide)
    (by decide)
  ⟨by decide, by decide, (h.1 0x5A (by decide)).2, (h.2.1 (by decide) 0x09C7 (by decide)).2⟩

/-- C15: a `Flash_Write8/16/32` of size `s` at an in-range aligned offset `o`, with no
error flag raised for the program command, leaves every byte of the block outside
`[o, o+s)` with the value it had before the call, and leaves the allocation map as it
was. -/
theorem C15_write_frame (FLASH_DATA_START FLASH_DATA_SIZE o data : Nat) (s : FlashState)
    (hfit : FLASH_DATA_START + FLASH_DATA_SIZE ≤ 2 ^ 32) (hsize : FLASH_DATA_SIZE ≤ 8)
    (ho : o < FLASH_DATA_SIZE)
    (hdev : s.Status (s.Commands + 1) &&& FTFE_FSTAT_ERROR_MASKS = 0) :
    (∀ k, k < FLASH_DATA_SIZE → (k < o ∨ o + 1 ≤ k) →
      (Flash_Write8 FLASH_DATA_START FLASH_DATA_SIZE (FLASH_DATA_START + o) data s).1.Block k =
        s.Block k) ∧
    (o % 2 = 0 → ∀ k, k < FLASH_DATA_SIZE → (k < o ∨ o + 2 ≤ k) →
      (Flash_Write16 FLASH_DATA_START FLASH_DATA_SIZE (FLASH_DATA_START + o) data s).1.Block k =
        s.Block k) ∧
    (o % 4 = 0 → ∀ k, k < FLASH_DATA_SIZE → (k < o ∨ o + 4 ≤ k) →
      (Flash_Write32 FLASH_DATA_START FLASH_DATA_SIZE (FLASH_DATA_START + o) data s).1.Block k =
        s.Block k) ∧
    (Flash_Write8 FLASH_DATA_START FLASH_DATA_SIZE (FLASH_DATA_START + o) data s).1.AllocationMap =
      s.AllocationMap ∧
    (Flash_Write16 FLASH_DATA_START FLASH_DATA_SIZE (FLASH_DATA_START + o) data s).1.AllocationMap =
      s.AllocationMap ∧
    (Flash_Write32 FLASH_DATA_START FLASH_DATA_SIZE (FLASH_DATA_START + o) data s).1.AllocationMap =
      s.AllocationMap := by
  refine ⟨?_, ?_, ?_, ?_, ?_, ?_⟩
  · intro k hk hout
    obtain ⟨_, _, c⟩ := Flash_Write8_ok FLASH_DATA_START FLASH_DATA_SIZE o data s hfit ho hdev
    rw [c k (by omega), if_neg (by omega)]
  · intro hal k hk hout
    obtain ⟨_, _, c⟩ := Flash_Write16_ok FLASH_DATA_START FLASH_DATA_SIZE o data s hfit ho hal hdev
    rw [c k (by omega), if_neg (by omega), if_neg (by omega)]
  · intro hal k hk hout
    obtain ⟨_, _, c⟩ := Flash_Write32_ok FLASH_DATA_START FLASH_DATA_SIZE o data s hfit ho hal hdev
    rw [c k (by omega), if_neg (by omega), if_neg (by omega), if_neg (by omega),
      if_neg (by omega)]
  · exact (Flash_Write8_ok FLASH_DATA_START FLASH_DATA_SIZE o data s hfit ho hdev).2.1
  · simp only [Flash_Write16]
    split_ifs <;> rfl
  · simp only [Flash_Write32]
    split_ifs <;> rfl

theorem C15_write_frame_witness :
    0x80000 + 8 ≤ 2 ^ 32 ∧
      (Flash_Write16 0x80000 8 (0x80000 + 2) 0x0001
        (Flash_Write16 0x80000 8 (0x80000 + 0) 0x09C7 (Flash_blank 0)).1).1.Block 0 = 0xC7 ∧
      (Flash_Write16 0x80000 8 (0x80000 + 2) 0x0001
        (Flash_Write16 0x80000 8 (0x80000 + 0) 0x09C7 (Flash_blank 0)).1).1.Block 1 = 0x09 :=
  have h := (C15_write_frame 0x80000 8 2 0x0001
    (Flash_Write16 0x80000 8 (0x80000 + 0) 0x09C7 (Flash_blank 0)).1
    (by decide) (by decide) (by decide) (by decide)).2.1 (by decide)
  ⟨by decide, (h 0 (by decide) (by decide)).trans (by decide),
    (h 1 (by decide) (by decide)).trans (by decide)⟩

/-- C16: `Flash_Write8`, `Flash_Write16` and `Flash_Write32` return false and leave the
flash state as it was (nothing is erased or programmed) whenever the address's offset
from `FLASH_DATA_START` is not below `FLASH_DATA_SIZE`, which includes every address
below the block start and every address past its end, or the offset is not a multiple
of the write size (2 for `Flash_Write16`, 4 for `Flash_Write32`). -/
theorem C16_write_rejects (FLASH_DATA_START FLASH_DATA_SIZE address data : Nat)
    (s : FlashState) (hfit : FLASH_DATA_START + FLASH_DATA_SIZE ≤ 2 ^ 32)
    (haddr : address < 2 ^ 32) :
    ((address < FLASH_DATA_START ∨ FLASH_DATA_START + FLASH_DATA_SIZE ≤ address) →
      FLASH_DATA_SIZE ≤ Flash_index FLASH_DATA_START address) ∧
    (FLASH_DATA_SIZE ≤ Flash_index FLASH_DATA_START address →
      Flash_Write8 FLASH_DATA_START FLASH_DATA_SIZE address data s = (s, false) ∧
      Flash_Write16 FLASH_DATA_START FLASH_DATA_SIZE address data s = (s, false) ∧
      Flash_Write32 FLASH_DATA_START FLASH_DATA_SIZE address data s = (s, false)) ∧
    (Flash_index FLASH_DATA_START address % 2 ≠ 0 →
      Flash_Write16 FLASH_DATA_START FLASH_DATA_SIZE address data s = (s, false)) ∧
    (Flash_index FLASH_DATA_START address % 4 ≠ 0 →
      Flash_Write32 FLASH_DATA_START FLASH_DATA_SIZE address data s = (s, false)) := by
  refine ⟨?_, ?_, ?_, ?_⟩
  · intro h
    unfold Flash_index
    omega
  · intro h
    simp [Flash_Write8, Flash_Write16, Flash_Write32, h]
  · intro h
    simp only [Flash_Write16, if_pos h]
    split_ifs <;> rfl
  · intro h
    simp only [Flash_Write32, if_pos h]
    split_ifs <;> rfl

theorem C16_write_rejects_witness :
    0x80000 + 8 ≤ 2 ^ 32 ∧ 0x7FFFF < 2 ^ 32 ∧
      (Flash_Write8 0x80000 8 0x7FFFF 1 (Flash_blank 0)).2 = false ∧
      (Flash_Write8 0x80000 8 0x7FFFF 1 (Flash_blank 0)).1.Commands = 0 ∧
      (Flash_Write16 0x80000 8 0x80003 1 (Flash_blank 0)).2 = false ∧
      (Flash_Write32 0x80000 8 0x80002 1 (Flash_blank 0)).2 = false :=
  have h := C16_write_rejects 0x80000 8 0x7FFFF 1 (Flash_blank 0) (by decide) (by decide)
  have h8 := (h.2.1 (h.1 (Or.inl (by decide)))).1
  have h16 := (C16_write_rejects 0x80000 8 0x80003 1 (Flash_blank 0) (by decide)
    (by decide)).2.2.1 (by decide)
  have h32 := (C16_write_rejects 0x80000 8 0x80002 1 (Flash_blank 0) (by decide)
    (by decide)).2.2.2 (by decide)
  ⟨by decide, by decide, congrArg Prod.snd h8, congrArg (fun r => r.1.Commands) h8,
    congrArg Prod.snd h16, congrArg Prod.snd h32⟩

/-- C17 fails on the code: with the controller raising the access-error flag for the
erase and for the program command, `Flash_Write8`, `Flash_Write16` and `Flash_Write32`
at an in-range aligned address still return true, the error flag is left set in
`FSTAT`, `WritePhrase` itself reports true, and the byte in flash is not the one
written. -/
theorem C17_device_error_ignored :
    (Flash_blank FTFE_FSTAT_ACCERR_MASK).Status 0 &&& FTFE_FSTAT_ERROR_MASKS ≠ 0 ∧
      (Flash_blank FTFE_FSTAT_ACCERR_MASK).Status 1 &&& FTFE_FSTAT_ERROR_MASKS ≠ 0 ∧
      (Flash_Write8 0x80000 8 0x80000 0x55 (Flash_blank FTFE_FSTAT_ACCERR_MASK)).2 = true ∧
      (Flash_Write16 0x80000 8 0x80000 0x55 (Flash_blank FTFE_FSTAT_ACCERR_MASK)).2 = true ∧
      (Flash_Write32 0x80000 8 0x80000 0x55 (Flash_blank FTFE_FSTAT_ACCERR_MASK)).2 = true ∧
      (Flash_Write8 0x80000 8 0x80000 0x55 (Flash_blank FTFE_FSTAT_ACCERR_MASK)).1.FSTAT &&&
        FTFE_FSTAT_ACCERR_MASK = FTFE_FSTAT_ACCERR_MASK ∧
      (WritePhrase 0x80000 (fun _ => 0x55) (Flash_blank FTFE_FSTAT_ACCERR_MASK)).2 = true ∧
      Flash_FB 0x80000
        (Flash_Write8 0x80000 8 0x80000 0x55 (Flash_blank FTFE_FSTAT_ACCERR_MASK)).1 0x80000 =
        0xFF := by
  decide

/-- C18: `Flash_Erase` leaves the allocation map as it was, so in every sequence of
`Flash_AllocateVar` calls made after the erase, no successful call delivers a byte
range containing a byte that was marked allocated before the erase. -/
theorem C18_erase_keeps_map (FLASH_DATA_START FLASH_DATA_SIZE : Nat) (s : FlashState)
    (hfit : FLASH_DATA_START + FLASH_DATA_SIZE ≤ 2 ^ 32) (sizes : List Nat)
    (hsizes : ∀ z ∈ sizes, z = 1 ∨ z = 2 ∨ z = 4) :
    (Flash_Erase FLASH_DATA_START s).1.AllocationMap = s.AllocationMap ∧
      ∀ p ∈ (Flash_AllocateVars FLASH_DATA_START FLASH_DATA_SIZE
          (Flash_Erase FLASH_DATA_START s).1.AllocationMap sizes).2,
        ∀ k, p.1 ≤ FLASH_DATA_START + k → FLASH_DATA_START + k < p.1 + p.2 →
          s.AllocationMap k = 0 := by
  have hpos : ∀ z ∈ sizes, 0 < z := by
    intro z h
    rcases hsizes z h with h1 | h1 | h1 <;> omega
  refine ⟨rfl, ?_⟩
  intro p hp k a b
  have hmap : (Flash_Erase FLASH_DATA_START s).1.AllocationMap = s.AllocationMap := rfl
  rw [hmap] at hp
  exact ((Flash_AllocateVars_free FLASH_DATA_START FLASH_DATA_SIZE hfit sizes _ hpos).2 p hp).2.2.2.2
    k a b

theorem C18_erase_keeps_map_witness :
    0x80000 + 8 ≤ 2 ^ 32 ∧
      (Flash_AllocateVars 0x80000 8 (Flash_Erase 0x80000
        { Flash_blank 0 with AllocationMap := fun k => if k < 4 then 1 else 0 }).1.AllocationMap
        [2, 2, 1]).2 = [(0x80004, 2), (0x80006, 2)] ∧
      ∀ p ∈ (Flash_AllocateVars 0x80000 8 (Flash_Erase 0x80000
          { Flash_blank 0 with AllocationMap := fun k => if k < 4 then 1 else 0 }).1.AllocationMap
          [2, 2, 1]).2,
        ∀ k, p.1 ≤ 0x80000 + k → 0x80000 + k < p.1 + p.2 →
          (fun k => if k < 4 then 1 else 0) k = 0 :=
  ⟨by decide, by decide,
    (C18_erase_keeps_map 0x80000 8
      { Flash_blank 0 with AllocationMap := fun k => if k < 4 then 1 else 0 }
      (by decide) [2, 2, 1] (by decide)).2⟩


/-! ## Command layer lemmas -/

set_option maxRecDepth 100000 in
theorem ack_bit_set : ∀ c, c < 256 → 128 ≤ c →
    c &&& PACKET_ACK_MASK ≠ 0 ∧ (c &&& NOT_PACKET_ACK_MASK) % 256 = c - 128 ∧
      (c ||| PACKET_ACK_MASK) % 256 = c := by
  decide

set_option maxRecDepth 100000 in
theorem ack_bit_clear : ∀ c, c < 128 → c &&& PACKET_ACK_MASK = 0 := by
  decide

theorem Sys_Packet_Put_Pkt (n c p1 p2 p3 : Nat) (s : SystemState) :
    (Sys_Packet_Put n c p1 p2 p3 s).1.Tower.Pkt = s.Tower.Pkt := rfl

theorem CMD_GetStartupValues_Pkt (n st : Nat) (s : SystemState) :
    (CMD_GetStartupValues n st s).1.Tower.Pkt = s.Tower.Pkt := by
  simp only [CMD_GetStartupValues, CMD_TowerVersion]
  split_ifs <;> rfl

theorem PacketHandle_switch_Pkt (n st sz : Nat) (s : SystemState) :
    (PacketHandle_switch n st sz s).1.Tower.Pkt = s.Tower.Pkt := by
  simp only [PacketHandle_switch]
  split_ifs
  · exact CMD_GetStartupValues_Pkt n st s
  · simp only [CMD_FlashProgramByte]; split_ifs <;> rfl
  · simp only [CMD_FlashReadByte]; split_ifs <;> rfl
  · rfl
  · simp only [CMD_TowerNumber]; split_ifs <;> rfl
  · simp only [CMD_TowerMode]; split_ifs <;> rfl
  · simp only [CMD_SetTime]; split_ifs <;> rfl
  · rfl

theorem Packet_Put_room (n c p1 p2 p3 : Nat) (u : UARTState)
    (hc : c < 256) (h1 : p1 < 256) (h2 : p2 < 256) (h3 : p3 < 256)
    (htx : FIFO_WF n u.TxFIFO) (hroom : u.TxFIFO.NbBytes + 5 ≤ n) :
    (Packet_Put n c p1 p2 p3 u).2 = true ∧
      FIFO_contents n (Packet_Put n c p1 p2 p3 u).1.TxFIFO =
        FIFO_contents n u.TxFIFO ++ [c, p1, p2, p3, c ^^^ p1 ^^^ p2 ^^^ p3] := by
  obtain ⟨hres, _, hput, _⟩ := UART_OutChars_spec n (Packet_frame c p1 p2 p3) u htx
  rw [← Packet_Put_eq] at hres hput
  have hlen : (Packet_frame c p1 p2 p3).length = 5 := rfl
  have htake : (Packet_frame c p1 p2 p3).take (n - u.TxFIFO.NbBytes) = Packet_frame c p1 p2 p3 :=
    List.take_of_length_le (by rw [hlen]; omega)
  have hx := Nat.mod_eq_of_lt (xor4_lt _ _ _ _ hc h1 h2 h3)
  refine ⟨?_, ?_⟩
  · rw [hres, hlen]
    exact decide_eq_true hroom
  · rw [hput, htake]
    simp only [Packet_frame, hx]

set_option maxRecDepth 100000 in
theorem ack_mask_low : ∀ c, c < 256 → c &&& NOT_PACKET_ACK_MASK = c &&& 0x7F := by
  decide

theorem PacketHandle_reply (n st sz : Nat) (s : SystemState)
    (hc : s.Tower.Pkt.Packet_Command < 256) :
    (128 ≤ s.Tower.Pkt.Packet_Command →
      PacketHandle n st sz s =
        (Sys_Packet_Put n
          (if (PacketHandle_switch n st sz s).2 then s.Tower.Pkt.Packet_Command - 128
            else s.Tower.Pkt.Packet_Command)
          s.Tower.Pkt.Packet_Parameter1 s.Tower.Pkt.Packet_Parameter2
          s.Tower.Pkt.Packet_Parameter3 (PacketHandle_switch n st sz s).1).1) ∧
    (128 ≤ s.Tower.Pkt.Packet_Command →
      s.Tower.Pkt.Packet_Parameter1 < 256 → s.Tower.Pkt.Packet_Parameter2 < 256 →
      s.Tower.Pkt.Packet_Parameter3 < 256 →
      FIFO_WF n (PacketHandle_switch n st sz s).1.Tower.UART.TxFIFO →
      (PacketHandle_switch n st sz s).1.Tower.UART.TxFIFO.NbBytes + 5 ≤ n →
      FIFO_contents n (PacketHandle n st sz s).Tower.UART.TxFIFO =
        FIFO_contents n (PacketHandle_switch n st sz s).1.Tower.UART.TxFIFO ++
          [if (PacketHandle_switch n st sz s).2 then s.Tower.Pkt.Packet_Command - 128
            else s.Tower.Pkt.Packet_Command,
           s.Tower.Pkt.Packet_Parameter1, s.Tower.Pkt.Packet_Parameter2,
           s.Tower.Pkt.Packet_Parameter3,
           (if (PacketHandle_switch n st sz s).2 then s.Tower.Pkt.Packet_Command - 128
            else s.Tower.Pkt.Packet_Command) ^^^ s.Tower.Pkt.Packet_Parameter1 ^^^
             s.Tower.Pkt.Packet_Parameter2 ^^^ s.Tower.Pkt.Packet_Parameter3]) ∧
    (s.Tower.Pkt.Packet_Command < 128 →
      PacketHandle n st sz s = (PacketHandle_switch n st sz s).1) := by
  have hpkt := PacketHandle_switch_Pkt n st sz s
  have hset : 128 ≤ s.Tower.Pkt.Packet_Command →
      PacketHandle n st sz s =
        (Sys_Packet_Put n
          (if (PacketHandle_switch n st sz s).2 then s.Tower.Pkt.Packet_Command - 128
            else s.Tower.Pkt.Packet_Command)
          s.Tower.Pkt.Packet_Parameter1 s.Tower.Pkt.Packet_Parameter2
          s.Tower.Pkt.Packet_Parameter3 (PacketHandle_switch n st sz s).1).1 := by
    intro h128
    obtain ⟨b1, b2, b3⟩ := ack_bit_set _ hc h128
    simp only [PacketHandle, hpkt, b1, b2, b3, ne_eq, not_false_eq_true, if_true]
  refine ⟨hset, ?_, ?_⟩
  · intro h128 q1 q2 q3 hwf hroom
    rw [hset h128]
    have hcmd : (if (PacketHandle_switch n st sz s).2 then s.Tower.Pkt.Packet_Command - 128
        else s.Tower.Pkt.Packet_Command) < 256 := by
      split <;> omega
    exact (Packet_Put_room n _ _ _ _ (PacketHandle_switch n st sz s).1.Tower.UART hcmd q1 q2 q3
      hwf hroom).2
  · intro hlt
    have b := ack_bit_clear _ hlt
    simp only [PacketHandle, hpkt, b, ne_eq, not_true_eq_false, if_false]

theorem PacketHandle_switch_selects (n st sz : Nat) (s : SystemState) (H : SystemState × Bool)
    (hc : s.Tower.Pkt.Packet_Command < 256)
    (hsel :
      (s.Tower.Pkt.Packet_Command &&& 0x7F = CMD_RX_STARTUP_VALUES ∧
        H = CMD_GetStartupValues n st s) ∨
      (s.Tower.Pkt.Packet_Command &&& 0x7F = CMD_RX_PROGRAM_BYTE ∧
        H = CMD_FlashProgramByte st sz s.Tower.Pkt.Packet_Parameter1
          s.Tower.Pkt.Packet_Parameter3 s) ∨
      (s.Tower.Pkt.Packet_Command &&& 0x7F = CMD_RX_READ_BYTE ∧
        H = CMD_FlashReadByte n st sz s.Tower.Pkt.Packet_Parameter1 s) ∨
      (s.Tower.Pkt.Packet_Command &&& 0x7F = CMD_RX_GET_VERSION ∧
        H = CMD_TowerVersion n s) ∨
      (s.Tower.Pkt.Packet_Command &&& 0x7F = CMD_RX_TOWER_NUMBER ∧
        H = CMD_TowerNumber n st sz s.Tower.Pkt.Packet_Parameter1
          s.Tower.Pkt.Packet_Parameter2 s.Tower.Pkt.Packet_Parameter3 s) ∨
      (s.Tower.Pkt.Packet_Command &&& 0x7F = CMD_RX_TOWER_MODE ∧
        H = CMD_TowerMode n st sz s.Tower.Pkt.Packet_Parameter1
          s.Tower.Pkt.Packet_Parameter2 s.Tower.Pkt.Packet_Parameter3 s) ∨
      (s.Tower.Pkt.Packet_Command &&& 0x7F = CMD_RX_SET_TIME ∧
        H = CMD_SetTime s.Tower.Pkt.Packet_Parameter1 s.Tower.Pkt.Packet_Parameter2
          s.Tower.Pkt.Packet_Parameter3 s) ∨
      (s.Tower.Pkt.Packet_Command &&& 0x7F ∉
          [CMD_RX_STARTUP_VALUES, CMD_RX_PROGRAM_BYTE, CMD_RX_READ_BYTE, CMD_RX_GET_VERSION,
            CMD_RX_TOWER_NUMBER, CMD_RX_TOWER_MODE, CMD_RX_SET_TIME] ∧
        H = (s, false))) :
    PacketHandle_switch n st sz s = (H.1, !H.2) := by
  have hm := ack_mask_low _ hc
  rcases hsel with ⟨h, rfl⟩ | ⟨h, rfl⟩ | ⟨h, rfl⟩ | ⟨h, rfl⟩ | ⟨h, rfl⟩ | ⟨h, rfl⟩ | ⟨h, rfl⟩ |
    ⟨h, rfl⟩
  all_goals
    simp only [PacketHandle_switch, hm]
    simp only [CMD_RX_STARTUP_VALUES, CMD_RX_PROGRAM_BYTE, CMD_RX_READ_BYTE,
      CMD_RX_GET_VERSION, CMD_RX_TOWER_NUMBER, CMD_RX_TOWER_MODE, CMD_RX_SET_TIME,
      List.mem_cons, List.mem_singleton, List.not_mem_nil, or_false, not_or] at h ⊢
    simp [h]

/-! ## Claims on the dispatcher and the UART interrupt -/

/-- C20: on a transmit-ready event `UART_ISR` takes the oldest byte off the transmit
queue and writes it to the data register when the queue is non-empty (the `TIE` flag is
left as it was); when the queue is empty it clears the `TIE` flag, writes nothing and
leaves the queue unchanged; and every successful `UART_OutChar` sets the flag. -/
theorem C20_uart_isr (n : Nat) (u : UARTState) (S1_RDRF : Bool) (UART2_D : Nat)
    (hwf : FIFO_WF n u.TxFIFO) :
    (u.TxFIFO.NbBytes ≠ 0 →
      (UART_ISR n true S1_RDRF UART2_D u).2 = some (u.TxFIFO.Buffer u.TxFIFO.Start) ∧
      FIFO_contents n u.TxFIFO =
        u.TxFIFO.Buffer u.TxFIFO.Start ::
          FIFO_contents n (UART_ISR n true S1_RDRF UART2_D u).1.TxFIFO ∧
      (UART_ISR n true S1_RDRF UART2_D u).1.C2_TIE = u.C2_TIE) ∧
    (u.TxFIFO.NbBytes = 0 →
      (UART_ISR n true S1_RDRF UART2_D u).2 = none ∧
      (UART_ISR n true S1_RDRF UART2_D u).1.C2_TIE = false ∧
      (UART_ISR n true S1_RDRF UART2_D u).1.TxFIFO = u.TxFIFO) ∧
    (∀ b, (UART_OutChar n u b).2 = true → (UART_OutChar n u b).1.C2_TIE = true) := by
  refine ⟨?_, ?_, ?_⟩
  · intro hne
    obtain ⟨g1, _, _, _, g5⟩ := FIFO_Get_nonempty n u.TxFIFO hwf hne
    refine ⟨?_, ?_, ?_⟩
    · cases S1_RDRF <;> simp [UART_ISR, g1]
    · cases S1_RDRF <;> simpa [UART_ISR, g1] using g5
    · cases S1_RDRF <;> simp [UART_ISR, g1]
  · intro h0
    have g := FIFO_Get_empty n u.TxFIFO h0
    cases S1_RDRF <;> simp [UART_ISR, g]
  · intro b hb
    simp only [UART_OutChar] at hb ⊢
    split at hb
    · rename_i h
      simp only [h, if_true]
    · simp at hb

theorem C20_uart_isr_witness :
    FIFO_WF 4 (Tower_of 4 [] [7, 8]).UART.TxFIFO ∧
      (UART_ISR 4 true false 0 (Tower_of 4 [] [7, 8]).UART).2 = some 7 ∧
      [7, 8] = 7 :: FIFO_contents 4 (UART_ISR 4 true false 0 (Tower_of 4 [] [7, 8]).UART).1.TxFIFO ∧
      (UART_ISR 4 true false 0 (Tower_of 4 [] []).UART).1.C2_TIE = false :=
  have h := (C20_uart_isr 4 (Tower_of 4 [] [7, 8]).UART false 0 (by decide)).1 (by decide)
  have g := (C20_uart_isr 4 (Tower_of 4 [] []).UART false 0 (by decide)).2.1 (by decide)
  ⟨by decide, h.1, h.2.1, g.2.1⟩

/-! ## Lemmas on event-driven framing -/

theorem Packet_Get_switch_le (rv : PacketVars → Nat)
    (b : Nat) (p : PacketVars) (h : p.Position ≤ 4) :
    (Packet_Get_switch rv b p).1.Position ≤ 4 := by
  obtain ⟨pos, a1, a2, a3, a4, a5⟩ := p
  simp only at h
  interval_cases pos <;> simp [Packet_Get_switch]
  split <;> simp

theorem Packet_Get_le (rv : PacketVars → Nat) (n : Nat) (s : TowerState) (h : s.Pkt.Position ≤ 4) :
    (Packet_Get rv n s).1.Pkt.Position ≤ 4 := by
  rcases hu : UART_InChar n s.UART with ⟨u1, _ | b⟩
  · simp only [Packet_Get, hu]
    exact h
  · simp only [Packet_Get, hu]
    exact Packet_Get_switch_le rv b s.Pkt h

theorem Packet_Get_none (rv : PacketVars → Nat)
    (n : Nat) (s : TowerState) (h : (UART_InChar n s.UART).2 = none) :
    (Packet_Get rv n s).2 = false ∧ (Packet_Get rv n s).1.Pkt = s.Pkt := by
  rcases hu : UART_InChar n s.UART with ⟨u1, o⟩
  rw [hu] at h
  simp only at h
  subst h
  simp only [Packet_Get, hu, and_self]

theorem Packet_events_le (rv : PacketVars → Nat) (n : Nat) (evs : List PacketEvent) :
    ∀ s : TowerState, s.Pkt.Position ≤ 4 → (Packet_events rv n s evs).Pkt.Position ≤ 4 := by
  induction evs with
  | nil => intro s h; exact h
  | cons e evs ih =>
    intro s h
    simp only [Packet_events, List.foldl_cons]
    apply ih
    cases e with
    | rx b => exact h
    | get => exact Packet_Get_le rv n s h

theorem FIFO_calls_refines (n : Nat) (calls : List FIFOCall) :
    ∀ (f : TFIFO) (q : List Nat), FIFO_WF n f → FIFO_contents n f = q →
      FIFO_WF n (FIFO_calls n f calls) ∧
      FIFO_contents n (FIFO_calls n f calls) = Queue_spec_calls n q calls := by
  induction calls with
  | nil => intro f q hwf hq; exact ⟨hwf, hq⟩
  | cons c calls ih =>
    intro f q hwf hq
    have hlen : q.length = f.NbBytes := by rw [← hq, FIFO_contents_length]
    simp only [FIFO_calls, Queue_spec_calls, List.foldl_cons]
    cases c with
    | put d =>
      by_cases hfull : n ≤ f.NbBytes
      · have e : FIFO_call n f (.put d) = f := by
          simp only [FIFO_call, FIFO_Put_full n f d hfull]
        have e2 : Queue_spec_call n q (.put d) = q := by
          simp only [Queue_spec_call, hlen]
          rw [if_neg (by omega)]
        rw [e, e2]
        exact ih f q hwf hq
      · obtain ⟨_, h2, _, h4⟩ := FIFO_Put_room n f d hwf (by omega)
        have e2 : Queue_spec_call n q (.put d) = q ++ [d] := by
          simp only [Queue_spec_call, hlen]
          rw [if_pos (by omega)]
        rw [e2]
        exact ih _ _ h2 (by rw [← hq]; exact h4)
    | get =>
      by_cases h0 : f.NbBytes = 0
      · have e : FIFO_call n f .get = f := by
          simp only [FIFO_call, FIFO_Get_empty n f h0]
        have hnil : q = [] := List.length_eq_zero.mp (by omega)
        have e2 : Queue_spec_call n q .get = q := by
          simp only [Queue_spec_call, hnil, List.tail_nil]
        rw [e, e2]
        exact ih f q hwf hq
      · obtain ⟨_, h2, _, _, h5⟩ := FIFO_Get_nonempty n f hwf h0
        apply ih _ _ h2
        simp only [FIFO_call, Queue_spec_call]
        rw [← hq, h5, List.tail_cons]

/-! ## Claims on the command handlers -/

/-- C21 fails on the code: for the offsets 9 and 255, both greater than 7,
`CMD_FlashProgramByte` returns false and leaves the whole state, the flash sector
included, as it was; only the offset 8 runs `Flash_Erase` and returns its result. -/
theorem C21_program_byte_offsets (st sz data : Nat) (s : SystemState) :
    CMD_FlashProgramByte st sz 9 data s = (s, false) ∧
      CMD_FlashProgramByte st sz 255 data s = (s, false) ∧
      CMD_FlashProgramByte st sz 8 data s =
        ({ s with Flash := (Flash_Erase st s.Flash).1 }, (Flash_Erase st s.Flash).2) := by
  simp [CMD_FlashProgramByte]

/-- C22: for every offset above `FLASH_DATA_SIZE - 1`, `CMD_FlashReadByte` returns false
and leaves the state, the transmit queue included, as it was; for every offset inside
the block it is `Packet_Put` of `(0x08, offset, 0, byte stored at that offset)` and
returns that call's result. -/
theorem C22_read_byte (n st sz offset : Nat) (s : SystemState)
    (hfit : st + sz ≤ 2 ^ 32) :
    (sz - 1 < offset → CMD_FlashReadByte n st sz offset s = (s, false)) ∧
    (offset < sz → CMD_FlashReadByte n st sz offset s =
      Sys_Packet_Put n 0x08 offset 0 (s.Flash.Block offset) s) := by
  constructor
  · intro h
    simp only [CMD_FlashReadByte, gt_iff_lt, h, if_true]
  · intro h
    have hle : ¬ sz - 1 < offset := by omega
    have hi := Flash_index_in st offset (by omega)
    simp only [CMD_FlashReadByte, gt_iff_lt, hle, if_false, Flash_FB, hi, CMD_TX_READ_BYTE]

theorem C22_read_byte_witness :
    0x80000 + 8 ≤ 2 ^ 32 ∧
      (CMD_FlashReadByte 16 0x80000 8 8 (System_of 16 0x08 8 0 0)).2 = false ∧
      FIFO_contents 16
        (CMD_FlashReadByte 16 0x80000 8 8 (System_of 16 0x08 8 0 0)).1.Tower.UART.TxFIFO = [] ∧
      FIFO_contents 16
        (CMD_FlashReadByte 16 0x80000 8 7 (System_of 16 0x08 7 0 0)).1.Tower.UART.TxFIFO =
        [0x08, 7, 0, 0xFF, 0xF0] :=
  have h := C22_read_byte 16 0x80000 8 8 (System_of 16 0x08 8 0 0) (by decide)
  have g := C22_read_byte 16 0x80000 8 7 (System_of 16 0x08 7 0 0) (by decide)
  ⟨by decide, congrArg Prod.snd (h.1 (by decide)),
    (congrArg (fun r => FIFO_contents 16 r.1.Tower.UART.TxFIFO) (h.1 (by decide))).trans
      (by decide),
    (congrArg (fun r => FIFO_contents 16 r.1.Tower.UART.TxFIFO) (g.2 (by decide))).trans
      (by decide)⟩

/-- C23 fails on the code: `CMD_ProtocolMode(mode, true)` is `Packet_Put` of command byte
`0x0D` (`CMD_TX_TOWER_MODE`), not `0x0A`; and for a received packet with command `0x0A`
the switch of `PacketHandle` runs no handler: nothing is sent and `error` stays set, so
with the acknowledgement bit the only reply is the negative acknowledgement. -/
theorem C23_protocol_mode (n mode : Nat) (s : SystemState) :
    CMD_ProtocolMode n mode true s =
        ((Sys_Packet_Put n 0x0D mode 1 0 s).1, some (Sys_Packet_Put n 0x0D mode 1 0 s).2) ∧
      FIFO_contents 16 (CMD_ProtocolMode 16 1 true (System_of 16 0 0 0 0)).1.Tower.UART.TxFIFO =
        [0x0D, 1, 1, 0, 0x0D] ∧
      (PacketHandle_switch 16 0x80000 8 (System_of 16 0x0A 1 1 0)).2 = true ∧
      FIFO_contents 16
        (PacketHandle_switch 16 0x80000 8 (System_of 16 0x0A 1 1 0)).1.Tower.UART.TxFIFO = [] ∧
      FIFO_contents 16 (PacketHandle 16 0x80000 8 (System_of 16 0x8A 1 1 0)).Tower.UART.TxFIFO =
        [0x0A, 1, 1, 0, 0x0A] := by
  refine ⟨rfl, ?_, ?_, ?_, ?_⟩ <;> decide

/-- C24 fails on the code: in asynchronous mode `LPTimer_ISR` reports a changed value
`0x1234` of channel 0 as `(0x50, 0, 0x34, 0x34)`, the low byte twice, once per loop
pass; in synchronous mode and in `CMD_AnalogValue` the report is `(0x50, 0, 0x34,
0x12)`. -/
theorem C24_analog_report :
    FIFO_contents 16 (LPTimer_ISR 16 (fun _ a => a) 0 false
        (fun _ => { value := 0x1234, oldValue := 0 }, (Tower_of 16 [] []).UART)).2.TxFIFO =
        [0x50, 0, 0x34, 0x34, 0x50, 0x50, 0, 0x34, 0x34, 0x50] ∧
      FIFO_contents 16 (LPTimer_ISR 16 (fun _ a => a) 0 true
        (fun _ => { value := 0x1234, oldValue := 0 }, (Tower_of 16 [] []).UART)).2.TxFIFO =
        [0x50, 0, 0x34, 0x12, 0x76, 0x50, 0, 0x34, 0x12, 0x76] ∧
      FIFO_contents 16 (CMD_AnalogValue 16 (fun _ => { value := 0x1234, oldValue := 0 }) 0
        (Tower_of 16 [] []).UART).1.TxFIFO = [0x50, 0, 0x34, 0x12, 0x76] := by
  decide

/-- C29: for `hours <= 23`, `minutes <= 59` and `seconds <= 59`, which are exactly the
values `CMD_SetTime` accepts, `RTC_Set` stores `hours*3600 + minutes*60 + seconds` in
`RTC_TSR`, and `RTC_Get` on that register value gives back `(hours, minutes,
seconds)`. -/
theorem C29_rtc_roundtrip (hours minutes seconds : Nat) (s : SystemState)
    (hh : hours ≤ 23) (hm : minutes ≤ 59) (hs : seconds ≤ 59) :
    (CMD_SetTime hours minutes seconds s).2 = true ∧
      (RTC_Set hours minutes seconds s).RTC_TSR = hours * 3600 + minutes * 60 + seconds ∧
      RTC_Get (RTC_Set hours minutes seconds s) = (hours, minutes, seconds) ∧
      (∀ h m z t, (CMD_SetTime h m z t).2 = true ↔ h ≤ 23 ∧ m ≤ 59 ∧ z ≤ 59) := by
  have hacc : ∀ h m z t, (CMD_SetTime h m z t).2 = true ↔ h ≤ 23 ∧ m ≤ 59 ∧ z ≤ 59 := by
    intro h m z t
    simp only [CMD_SetTime]
    split
    · rename_i hc
      simp only [Bool.false_eq_true, false_iff]
      omega
    · rename_i hc
      simp only [true_iff]
      omega
  have htsr : (RTC_Set hours minutes seconds s).RTC_TSR =
      hours * 3600 + minutes * 60 + seconds := by
    simp only [RTC_Set, Nat.mod_eq_of_lt (show hours < 24 by omega),
      Nat.mod_eq_of_lt (show minutes < 60 by omega),
      Nat.mod_eq_of_lt (show seconds < 60 by omega)]
    omega
  refine ⟨(hacc _ _ _ s).mpr ⟨hh, hm, hs⟩, htsr, ?_, hacc⟩
  simp only [RTC_Get, htsr, Prod.mk.injEq]
  omega

theorem C29_rtc_roundtrip_witness :
    23 ≤ 23 ∧ 59 ≤ 59 ∧ 58 ≤ 59 ∧
      (RTC_Set 23 59 58 (System_of 16 0x0C 23 59 58)).RTC_TSR = 86398 ∧
      RTC_Get (RTC_Set 23 59 58 (System_of 16 0x0C 23 59 58)) = (23, 59, 58) :=
  have h := C29_rtc_roundtrip 23 59 58 (System_of 16 0x0C 23 59 58) (by decide) (by decide)
    (by decide)
  ⟨by decide, by decide, by decide, h.2.1, h.2.2.1⟩

/-! ## Claims on the framer cursor, the critical sections and the queue contents -/

/-- C25: from `Position` 0, after every sequence of byte arrivals and `Packet_Get` calls
the cursor `Position` is within 0..4, so no call reaches the default branch of the
switch; and a `Packet_Get` call that finds no byte returns false and changes neither
`Position` nor any packet field. This holds whatever values the calls receive from
`PacketTest`. -/
theorem C25_position_range (rv : PacketVars → Nat) (n : Nat) (s : TowerState)
    (evs : List PacketEvent) (hpos : s.Pkt.Position = 0) :
    (Packet_events rv n s evs).Pkt.Position ≤ 4 ∧
      ∀ t : TowerState, (UART_InChar n t.UART).2 = none →
        (Packet_Get rv n t).2 = false ∧ (Packet_Get rv n t).1.Pkt = t.Pkt :=
  ⟨Packet_events_le rv n evs s (by omega), fun t ht => Packet_Get_none rv n t ht⟩

theorem C25_position_range_witness :
    (Tower_of 4 [] []).Pkt.Position = 0 ∧
      (Packet_events (fun _ => 41) 4 (Tower_of 4 [] [])
        [.get, .rx 1, .rx 2, .get, .get, .get, .rx 3, .rx 4, .rx 9, .get, .get, .get, .rx 7,
          .get]).Pkt.Position ≤ 4 ∧
      (Packet_Get (fun _ => 41) 4 (Tower_of 4 [] [])).2 = false ∧
      (Packet_Get (fun _ => 41) 4 (Tower_of 4 [] [])).1.Pkt = (Tower_of 4 [] []).Pkt :=
  have h := C25_position_range (fun _ => 41) 4 (Tower_of 4 [] [])
    [.get, .rx 1, .rx 2, .get, .get, .get, .rx 3, .rx 4, .rx 9, .get, .get, .get, .rx 7, .get]
    rfl
  ⟨rfl, h.1, h.2 (Tower_of 4 [] []) (by decide)⟩

/-- C28: after `FIFO_Init`, every sequence of `FIFO_Put` and `FIFO_Get` calls leaves
`End == (Start + NbBytes) mod FIFO_SIZE`, and the `NbBytes` bytes from `Start` on
(wrapping) are exactly the bytes put and not yet got, oldest first; a failed `FIFO_Put`
or `FIFO_Get` returns the queue unchanged. -/
theorem C28_fifo_contents (n : Nat) (hn : 0 < n) (f0 : TFIFO) (calls : List FIFOCall) :
    (FIFO_calls n (FIFO_Init f0) calls).End =
      ((FIFO_calls n (FIFO_Init f0) calls).Start +
        (FIFO_calls n (FIFO_Init f0) calls).NbBytes) % n ∧
    FIFO_contents n (FIFO_calls n (FIFO_Init f0) calls) = Queue_spec_calls n [] calls ∧
    (∀ d, (FIFO_Put n (FIFO_calls n (FIFO_Init f0) calls) d).2 = false →
      (FIFO_Put n (FIFO_calls n (FIFO_Init f0) calls) d).1 = FIFO_calls n (FIFO_Init f0) calls) ∧
    ((FIFO_Get n (FIFO_calls n (FIFO_Init f0) calls)).2 = none →
      (FIFO_Get n (FIFO_calls n (FIFO_Init f0) calls)).1 = FIFO_calls n (FIFO_Init f0) calls) := by
  obtain ⟨h1, h2⟩ := FIFO_calls_refines n calls (FIFO_Init f0) [] (FIFO_Init_wf n hn f0)
    (FIFO_Init_contents n f0)
  refine ⟨h1.2, h2, ?_, ?_⟩
  · intro d hd
    simp only [FIFO_Put] at hd ⊢
    split_ifs at hd ⊢
    rfl
  · intro hg
    simp only [FIFO_Get] at hg ⊢
    split_ifs at hg ⊢
    rfl

theorem C28_fifo_contents_witness :
    0 < 2 ∧
      FIFO_contents 2 (FIFO_calls 2 (FIFO_Init FIFO_zero)
        [.put 1, .put 2, .put 3, .get, .put 4, .get]) = [4] ∧
      Queue_spec_calls 2 [] [.put 1, .put 2, .put 3, .get, .put 4, .get] = [4] :=
  have h := (C28_fifo_contents 2 (by decide) FIFO_zero
    [.put 1, .put 2, .put 3, .get, .put 4, .get]).2.1
  ⟨by decide, h.trans (by decide), by decide⟩

/-! ## Lemmas on the delivery condition of the framer -/

theorem Packet_sinceTrue_append (rs : List Bool) (r : Bool) :
    Packet_sinceTrue (rs ++ [r]) = if r then 0 else Packet_sinceTrue rs + 1 := by
  simp only [Packet_sinceTrue, List.foldl_append, List.foldl_cons, List.foldl_nil]

theorem Packet_Get_switch_fill (rv : PacketVars → Nat)
    (b : Nat) (p : PacketVars) (h : p.Position < 4) :
    (Packet_Get_switch rv b p).2 = false ∧
      (Packet_Get_switch rv b p).1.Position = p.Position + 1 ∧
      (Packet_window (Packet_Get_switch rv b p).1).take (p.Position + 1) =
        (Packet_window p).take p.Position ++ [b] := by
  obtain ⟨pos, a1, a2, a3, a4, a5⟩ := p
  simp only at h
  interval_cases pos <;> simp [Packet_Get_switch, Packet_window]

theorem IsBytes_append (l1 l2 : List Nat) : IsBytes (l1 ++ l2) ↔ IsBytes l1 ∧ IsBytes l2 := by
  simp only [IsBytes, List.mem_append]
  constructor
  · intro h
    exact ⟨fun b hb => h b (Or.inl hb), fun b hb => h b (Or.inr hb)⟩
  · intro ⟨h1, h2⟩ b hb
    rcases hb with hb | hb
    · exact h1 b hb
    · exact h2 b hb

theorem IsBytes_drop (l : List Nat) (k : Nat) (h : IsBytes l) : IsBytes (l.drop k) :=
  fun b hb => h b (List.mem_of_mem_drop hb)

theorem Packet_feed_snoc (rv : PacketVars → Nat) (p : PacketVars) (l : List Nat) (a : Nat) :
    (Packet_feed rv p (l ++ [a])).1 = (Packet_Get_switch rv a (Packet_feed rv p l).1).1 ∧
      (Packet_feed rv p (l ++ [a])).2 =
        (Packet_feed rv p l).2 ++ [(Packet_Get_switch rv a (Packet_feed rv p l).1).2] := by
  obtain ⟨h1, h2, _⟩ := Packet_feed_append rv l [a] p
  exact ⟨h1, h2⟩

theorem Packet_feed_invariant (rv : PacketVars → Nat) (p0 : PacketVars)
    (hpos : p0.Position = 0) (bs : List Nat) :
    Packet_sinceTrue (Packet_feed rv p0 bs).2 ≤ bs.length ∧
      (Packet_feed rv p0 bs).1.Position = min (Packet_sinceTrue (Packet_feed rv p0 bs).2) 4 ∧
      (Packet_window (Packet_feed rv p0 bs).1).take
          (min (Packet_sinceTrue (Packet_feed rv p0 bs).2) 4) =
        bs.drop (bs.length - min (Packet_sinceTrue (Packet_feed rv p0 bs).2) 4) := by
  induction bs using List.reverseRecOn with
  | nil =>
    simp [Packet_feed, Packet_sinceTrue, hpos]
  | append_singleton l a ih =>
    obtain ⟨ht, hp, hw⟩ := ih
    obtain ⟨e1, e2⟩ := Packet_feed_snoc rv p0 l a
    rw [e1, e2, Packet_sinceTrue_append, List.length_append, List.length_singleton]
    generalize hr : Packet_feed rv p0 l = r at *
    generalize htdef : Packet_sinceTrue r.2 = t at *
    rcases Nat.lt_or_ge t 4 with hlt | hge
    · have hmin : min t 4 = t := by omega
      rw [hmin] at hp hw
      obtain ⟨f1, f2, f3⟩ := Packet_Get_switch_fill rv a r.1 (by omega)
      rw [f1]
      simp only [Bool.false_eq_true, if_false]
      have hmin2 : min (t + 1) 4 = t + 1 := by omega
      rw [hmin2]
      refine ⟨by omega, by rw [f2, hp], ?_⟩
      rw [hp] at f3
      rw [f3, hw]
      have e : l.length + 1 - (t + 1) = l.length - t := by omega
      rw [e, List.drop_append_of_le_length (by omega)]
    · have hmin : min t 4 = 4 := by omega
      rw [hmin] at hp hw
      have hw4 : Packet_window r.1 = l.drop (l.length - 4) := hw
      obtain ⟨_, c2⟩ := Packet_Get_switch_test rv a r.1 hp
      cases hx : (Packet_Get_switch rv a r.1).2
      · obtain ⟨s1, s2⟩ := Packet_Get_switch_shift rv a r.1 hp hx
        simp only [Bool.false_eq_true, if_false]
        have hmin2 : min (t + 1) 4 = 4 := by omega
        rw [hmin2]
        refine ⟨by omega, s1, ?_⟩
        have hw5 : (Packet_window (Packet_Get_switch rv a r.1).1).take 4 =
            Packet_window (Packet_Get_switch rv a r.1).1 := rfl
        rw [hw5, s2, hw4]
        have e : l.length + 1 - 4 = l.length - 4 + 1 := by omega
        have hne : (l.drop (l.length - 4)).length = 4 := by
          rw [List.length_drop]; omega
        rw [e, List.drop_append_of_le_length (show l.length - 4 + 1 ≤ l.length by omega),
          List.drop_append_of_le_length (show 1 ≤ (l.drop (l.length - 4)).length by omega),
          List.drop_drop]
      · obtain ⟨d1, _⟩ := c2 hx
        simp only [if_true]
        refine ⟨by omega, by rw [d1]; rfl, ?_⟩
        simp

theorem Packet_stream_step (rv : PacketVars → Nat) (n : Nat) (hn : 0 < n) (s : TowerState) (b : Nat)
    (hwf : FIFO_WF n s.UART.RxFIFO) (hempty : s.UART.RxFIFO.NbBytes = 0) :
    (Packet_Get rv n (Packet_event rv n s (PacketEvent.rx b))).2 = (Packet_Get_switch rv b s.Pkt).2 ∧
      (Packet_Get rv n (Packet_event rv n s (PacketEvent.rx b))).1.Pkt = (Packet_Get_switch rv b s.Pkt).1 ∧
      FIFO_WF n (Packet_Get rv n (Packet_event rv n s (PacketEvent.rx b))).1.UART.RxFIFO ∧
      (Packet_Get rv n (Packet_event rv n s (PacketEvent.rx b))).1.UART.RxFIFO.NbBytes = 0 := by
  obtain ⟨_, p2, _, p4⟩ := FIFO_Put_room n s.UART.RxFIFO b hwf (by omega)
  have hnil : FIFO_contents n s.UART.RxFIFO = [] :=
    List.length_eq_zero.mp (by rw [FIFO_contents_length, hempty])
  rw [hnil, List.nil_append] at p4
  have hrx : (Packet_event rv n s (PacketEvent.rx b)).UART.RxFIFO = (FIFO_Put n s.UART.RxFIFO b).1 := by
    simp [Packet_event, UART_ISR]
  have hpk : (Packet_event rv n s (PacketEvent.rx b)).Pkt = s.Pkt := rfl
  obtain ⟨g1, g2, g3, g4, _, _⟩ := Packet_Get_cons rv n (Packet_event rv n s (PacketEvent.rx b)) b []
    (by rw [hrx]; exact p2) (by rw [hrx]; exact p4)
  rw [hpk] at g1 g2
  refine ⟨g1, g2, g3, ?_⟩
  rw [← FIFO_contents_length n, g4, List.length_nil]

theorem Packet_stream_feed (rv : PacketVars → Nat) (n : Nat) (hn : 0 < n) (bs : List Nat) :
    ∀ s : TowerState, FIFO_WF n s.UART.RxFIFO → s.UART.RxFIFO.NbBytes = 0 →
      (Packet_stream rv n s bs).2 = (Packet_feed rv s.Pkt bs).2 ∧
      (Packet_stream rv n s bs).1.Pkt = (Packet_feed rv s.Pkt bs).1 ∧
      FIFO_WF n (Packet_stream rv n s bs).1.UART.RxFIFO ∧
      (Packet_stream rv n s bs).1.UART.RxFIFO.NbBytes = 0 := by
  induction bs with
  | nil => intro s hwf h0; exact ⟨rfl, rfl, hwf, h0⟩
  | cons b bs ih =>
    intro s hwf h0
    obtain ⟨a1, a2, a3, a4⟩ := Packet_stream_step rv n hn s b hwf h0
    obtain ⟨i1, i2, i3, i4⟩ := ih _ a3 a4
    refine ⟨?_, ?_, i3, i4⟩
    · simp only [Packet_stream, Packet_feed, a1, i1, a2]
    · simp only [Packet_stream, Packet_feed, i2, a2]

theorem Packet_feed_delivery (rv : PacketVars → Nat) (p0 : PacketVars)
    (hpos : p0.Position = 0) (bs : List Nat) (b : Nat) :
    (Packet_Get_switch rv b (Packet_feed rv p0 bs).1).2 =
        decide (5 ≤ Packet_sinceTrue (Packet_feed rv p0 bs).2 + 1 ∧
          rv { (Packet_feed rv p0 bs).1 with Packet_Checksum := b } ≠ 0) ∧
      (5 ≤ Packet_sinceTrue (Packet_feed rv p0 bs).2 + 1 →
        (Packet_feed rv p0 bs).1.Position = 4 ∧
        Packet_window (Packet_feed rv p0 bs).1 = bs.drop (bs.length - 4)) ∧
      ((Packet_Get_switch rv b (Packet_feed rv p0 bs).1).2 = true →
        Packet_window (Packet_Get_switch rv b (Packet_feed rv p0 bs).1).1 =
          bs.drop (bs.length - 4)) := by
  obtain ⟨ht, hp, hw⟩ := Packet_feed_invariant rv p0 hpos bs
  generalize Packet_feed rv p0 bs = r at *
  generalize Packet_sinceTrue r.2 = t at *
  rcases Nat.lt_or_ge t 4 with hlt | hge
  · have hmin : min t 4 = t := by omega
    rw [hmin] at hp
    obtain ⟨f1, _, _⟩ := Packet_Get_switch_fill rv b r.1 (by omega)
    rw [f1]
    refine ⟨?_, fun h => by omega, fun h => by simp at h⟩
    symm
    rw [decide_eq_false_iff_not]
    omega
  · have hmin : min t 4 = 4 := by omega
    rw [hmin] at hp hw
    have hw4 : Packet_window r.1 = bs.drop (bs.length - 4) := hw
    obtain ⟨c1, c2⟩ := Packet_Get_switch_test rv b r.1 hp
    refine ⟨?_, fun _ => ⟨hp, hw4⟩, fun h => by rw [(c2 h).2, hw4]⟩
    rw [c1]
    simp only [decide_eq_decide]
    constructor
    · intro h; exact ⟨by omega, h⟩
    · intro h; exact h.2

/-! ## Claim on the delivery condition -/

/-- C27 fails on the code through the missing `return` of `PacketTest`. For every byte
stream fed one byte per `Packet_Get` call from `Position` 0, the call that consumes
`bk` returns true exactly when at least five bytes have been consumed since the
previous true result (or since the start) and the value received from `PacketTest` is
not zero; the fields delivered are then `b(k-4), b(k-3), b(k-2), b(k-1)`. The XOR
condition of the claim decides only the local `ret_val` (it is 1 exactly when the
XOR of `b(k-4) .. bk` is zero), which the function does not return. -/
theorem C27_delivery_needs_return (rv : PacketVars → Nat) (n : Nat) (s : TowerState)
    (bs : List Nat) (b : Nat)
    (hn : 0 < n) (hwf : FIFO_WF n s.UART.RxFIFO) (hempty : s.UART.RxFIFO.NbBytes = 0)
    (hpos : s.Pkt.Position = 0) (hb : IsBytes (bs ++ [b])) :
    (Packet_stream rv n s (bs ++ [b])).2 =
        (Packet_stream rv n s bs).2 ++
          [decide (5 ≤ Packet_sinceTrue (Packet_stream rv n s bs).2 + 1 ∧
            rv { (Packet_stream rv n s bs).1.Pkt with Packet_Checksum := b } ≠ 0)] ∧
      (5 ≤ Packet_sinceTrue (Packet_stream rv n s bs).2 + 1 →
        (PacketTest_ret_val { (Packet_stream rv n s bs).1.Pkt with Packet_Checksum := b } = 1 ↔
          Packet_xorAll ((bs ++ [b]).drop ((bs ++ [b]).length - 5)) = 0)) ∧
      (5 ≤ Packet_sinceTrue (Packet_stream rv n s bs).2 + 1 ∧
          rv { (Packet_stream rv n s bs).1.Pkt with Packet_Checksum := b } ≠ 0 →
        Packet_window (Packet_stream rv n s (bs ++ [b])).1.Pkt = bs.drop (bs.length - 4)) := by
  obtain ⟨hbl, _⟩ := (IsBytes_append bs [b]).mp hb
  obtain ⟨a1, a2, _, _⟩ := Packet_stream_feed rv n hn bs s hwf hempty
  obtain ⟨b1, b2, _, _⟩ := Packet_stream_feed rv n hn (bs ++ [b]) s hwf hempty
  obtain ⟨e1, e2⟩ := Packet_feed_snoc rv s.Pkt bs b
  obtain ⟨d1, d2, d3⟩ := Packet_feed_delivery rv s.Pkt hpos bs b
  rw [b1, b2, a1, a2, e1, e2, d1]
  refine ⟨rfl, fun h => ?_, fun h => d3 ?_⟩
  · obtain ⟨_, hw4⟩ := d2 h
    generalize Packet_feed rv s.Pkt bs = r at *
    have hbw : IsBytes (Packet_window r.1) := by
      rw [hw4]; exact IsBytes_drop bs _ hbl
    have e5 : (bs ++ [b]).drop ((bs ++ [b]).length - 5) = Packet_window r.1 ++ [b] := by
      rw [List.length_append, List.length_singleton, hw4]
      have e : bs.length + 1 - 5 = bs.length - 4 := by omega
      rw [e, List.drop_append_of_le_length (show bs.length - 4 ≤ bs.length by omega)]
    have hx : Packet_xorAll (Packet_window r.1 ++ [b]) =
        r.1.Packet_Command ^^^ r.1.Packet_Parameter1 ^^^ r.1.Packet_Parameter2 ^^^
          r.1.Packet_Parameter3 ^^^ b := by
      simp [Packet_xorAll, Packet_window]
    have hq := PacketTest_ret_val_eq { r.1 with Packet_Checksum := b } hbw
    rw [e5, hx, hq, Nat.xor_eq_zero]
    simp
  · rw [d1]
    exact decide_eq_true h

theorem C27_delivery_needs_return_witness :
    IsBytes ([9, 1, 2, 3, 4, 4, 7, 5, 1, 7, 2] ++ [1]) ∧
      Packet_xorAll [5, 1, 7, 2, 1] = 0 ∧
      5 ≤ Packet_sinceTrue
        (Packet_stream (fun _ => 0) 1 (Tower_of 1 [] []) [9, 1, 2, 3, 4, 4, 7, 5, 1, 7, 2]).2 + 1 ∧
      PacketTest_ret_val
        { (Packet_stream (fun _ => 0) 1 (Tower_of 1 [] []) [9, 1, 2, 3, 4, 4, 7, 5, 1, 7, 2]).1.Pkt
          with Packet_Checksum := 1 } = 1 ∧
      (Packet_stream (fun _ => 0) 1 (Tower_of 1 [] [])
        ([9, 1, 2, 3, 4, 4, 7, 5, 1, 7, 2] ++ [1])).2 = List.replicate 12 false :=
  have h := C27_delivery_needs_return (fun _ => 0) 1 (Tower_of 1 [] [])
    [9, 1, 2, 3, 4, 4, 7, 5, 1, 7, 2] 1 (by decide) (by decide) (by decide) rfl (by decide)
  ⟨by decide, by decide, by decide, (h.2.1 (by decide)).mpr (by decide),
    h.1.trans (by decide)⟩

end Tower
